import Mathlib

/-!
Verification of the expression-to-task compiler and dependency-driven task
scheduler of the `megacalc` orchestrator (Go package `internal/service`).

The development shallowly embeds the Go source:

* the compiler layer (`tokenize`, `shuntingYard` and their helpers) is
  translated at the level of `String` tokens and `Char` scanning, matching
  the source loop for loop;
* the scheduler store (`Service` with `SubmitExpression`, `GetTask`,
  `SetTaskResult` and their helpers) is translated with Go maps represented
  as insertion-ordered association lists with overwriting insertion, which
  preserves lookup semantics; map iteration order in Go is unspecified, the
  list order realizes one admissible order and the statements proved are
  insensitive to the choice except where noted;
* Go `float64` values are represented as rationals (`ℚ`).  The only numeric
  operations the verified claims depend on (literal parsing of digit/dot
  strings, `fmt.Sprintf` with six fractional digits for small integral
  values, field arithmetic) agree between `float64` and `ℚ` on every input
  exercised here.
-/

namespace Megacalc

/-! ### Numeric token parsing

`strconv.ParseFloat(token, 64)` is the source's numeric-token test
(`isNumber`).  The tokens this program ever feeds to it are built from
digits, `.`, the four operator characters, parentheses (from `tokenize`)
and the output of `fmt.Sprintf("%f", r)` (sign, digits, `.`, digits).
`parseNum` models `ParseFloat` acceptance and value on exactly these
shapes: an optional leading minus sign, then digit characters with at most
one decimal point and at least one digit.  Exponent, hexadecimal and
inf/nan forms are never produced by this program and are not modelled. -/

def isDigitChar (c : Char) : Bool :=
  decide ('0' ≤ c) && decide (c ≤ '9')

def digitVal (c : Char) : ℕ := c.toNat - 48

def digitsVal (cs : List Char) : ℕ :=
  cs.foldl (fun a c => a * 10 + digitVal c) 0

def allDigits (cs : List Char) : Bool := cs.all isDigitChar

def parseNumCore (cs : List Char) : Option ℚ :=
  let ip := cs.takeWhile (fun c => c ≠ '.')
  match cs.dropWhile (fun c => c ≠ '.') with
  | [] =>
    if !ip.isEmpty && allDigits ip then some ((digitsVal ip : ℕ) : ℚ) else none
  | _ :: fp =>
    if allDigits ip && allDigits fp && (!ip.isEmpty || !fp.isEmpty) then
      some (mkRat (digitsVal ip * 10 ^ fp.length + digitsVal fp) (10 ^ fp.length))
    else none

def parseNum (s : String) : Option ℚ :=
  match s.data with
  | '-' :: cs => (parseNumCore cs).map (fun q => -q)
  | cs => parseNumCore cs

/-- Source `isNumber`: `strconv.ParseFloat(token, 64)` succeeds. -/
def isNumber (s : String) : Bool := (parseNum s).isSome

/-- Source `isOperator`. -/
def isOperator (t : String) : Bool :=
  t == "+" || t == "-" || t == "*" || t == "/"

/-- Source `getPrecedence`: `+ -` map to 1, `* /` to 2, anything else to 0. -/
def getPrecedence (op : String) : ℕ :=
  if op = "+" || op = "-" then 1
  else if op = "*" || op = "/" then 2
  else 0

/-- Source `hasHigherPrecedence`: `getPrecedence(op1) >= getPrecedence(op2)`. -/
def hasHigherPrecedence (op1 op2 : String) : Bool :=
  decide (getPrecedence op2 ≤ getPrecedence op1)

/-! ### Result formatting

`fmt.Sprintf("%f", result)` renders a float with six fractional digits.
We model it on rationals: round to six decimal places and print
sign, integer digits, `.`, six zero-padded fractional digits.  The
binary-float reading/rounding of the original is abstracted away; no
verified statement depends on the digit string beyond it being numeric,
and on integral values the two renderings coincide. -/

def digitChar : ℕ → Char
  | 0 => '0' | 1 => '1' | 2 => '2' | 3 => '3' | 4 => '4'
  | 5 => '5' | 6 => '6' | 7 => '7' | 8 => '8' | _ => '9'

def natDigitsCore : ℕ → ℕ → List Char
  | 0, _ => []
  | fuel+1, n =>
    if n < 10 then [digitChar n]
    else natDigitsCore fuel (n / 10) ++ [digitChar (n % 10)]

def natDigits (n : ℕ) : List Char := natDigitsCore (n + 1) n

def padSix (ds : List Char) : List Char :=
  List.replicate (6 - ds.length) '0' ++ ds

/-- Round `q * 1000000` to the nearest integer, halves up — that is,
`⌊q * 10^6 + 1/2⌋` — written out on the numerator/denominator
representation so that it evaluates by kernel reduction. -/
def ratRound6 (q : ℚ) : ℤ :=
  Int.fdiv (2 * q.num * 1000000 + (q.den : ℤ)) (2 * (q.den : ℤ))

def formatRat (r : ℚ) : String :=
  let n : ℤ := ratRound6 r
  let m : ℕ := n.natAbs
  let body := natDigits (m / 1000000) ++ '.' :: padSix (natDigits (m % 1000000))
  if n < 0 then String.mk ('-' :: body) else String.mk body

/-! ### Tokenization

Source `tokenize`: scan the expression left to right; digit and `.`
characters extend the current numeric token; an operator or parenthesis
flushes the current numeric token and becomes its own token; anything else
is an "invalid character" error.  The Go loop indexes bytes; we scan
characters, which agrees on the ASCII inputs this grammar admits. -/

def flushTok (cur : List Char) (ts : List String) : List String :=
  if cur.isEmpty then ts else String.mk cur :: ts

def tokenizeGo : List Char → List Char → Except String (List String)
  | [], cur => .ok (flushTok cur [])
  | c :: rest, cur =>
    if isDigitChar c || c == '.' then
      tokenizeGo rest (cur ++ [c])
    else if isOperator (String.mk [c]) then
      match tokenizeGo rest [] with
      | .ok ts => .ok (flushTok cur (String.mk [c] :: ts))
      | .error e => .error e
    else if c == '(' || c == ')' then
      match tokenizeGo rest [] with
      | .ok ts => .ok (flushTok cur (String.mk [c] :: ts))
      | .error e => .error e
    else
      .error ("invalid character in expression: " ++ String.mk [c])

def tokenize (expression : String) : Except String (List String) :=
  tokenizeGo expression.data []

/-- A character the tokenizer accepts: digit, dot, operator or parenthesis. -/
def validChar (c : Char) : Bool :=
  isDigitChar c || c == '.' || isOperator (String.mk [c]) || c == '(' || c == ')'

/-- Shape of the tokens a numeric accumulator or the main scan can emit. -/
def GoodTok (t : String) : Prop :=
  (isOperator t = true ∨ t = "(" ∨ t = ")") ∨
    (t.data ≠ [] ∧ ∀ c ∈ t.data, isDigitChar c = true ∨ c = '.')

/-! ### Shunting yard

Source `shuntingYard`.  The operator stack is a list whose head is the top
(the end of the Go slice); the output list is appended on the right exactly
as in the source.  A token that is neither a number, an operator nor a
parenthesis falls through the Go `switch` without a `default` case and is
silently dropped; the model reproduces that. -/

def popOps : List String → String → List String × List String
  | [], _ => ([], [])
  | top :: rest, tok =>
    if top != "(" && hasHigherPrecedence top tok then
      let pr := popOps rest tok
      (top :: pr.1, pr.2)
    else ([], top :: rest)

def popParen : List String → Option (List String × List String)
  | [] => none
  | top :: rest =>
    if top == "(" then some ([], rest)
    else
      match popParen rest with
      | none => none
      | some pr => some (top :: pr.1, pr.2)

def syStep (out ops : List String) (tok : String) :
    Except String (List String × List String) :=
  if isNumber tok then .ok (out ++ [tok], ops)
  else if isOperator tok then
    let pr := popOps ops tok
    .ok (out ++ pr.1, tok :: pr.2)
  else if tok == "(" then .ok (out, tok :: ops)
  else if tok == ")" then
    match popParen ops with
    | none => .error "mismatched parentheses"
    | some pr => .ok (out ++ pr.1, pr.2)
  else .ok (out, ops)

def syRun : List String → List String → List String →
    Except String (List String × List String)
  | [], out, ops => .ok (out, ops)
  | tok :: toks, out, ops =>
    match syStep out ops tok with
    | .error e => .error e
    | .ok os => syRun toks os.1 os.2

def syDrain : List String → List String → Except String (List String)
  | out, [] => .ok out
  | out, top :: rest =>
    if top == "(" then .error "mismatched parentheses"
    else syDrain (out ++ [top]) rest

def shuntingYard (tokens : List String) : Except String (List String) :=
  match syRun tokens [] [] with
  | .error e => .error e
  | .ok os => syDrain os.1 os.2

/-! ### Postfix evaluation (reference evaluator)

The spec's "standard left-to-right stack evaluation" of a postfix token
stream: operands push their value, an operator pops the two topmost values
(the deeper one is the left operand) and pushes the operation's result.
Division is field division on `ℚ`; both evaluators compared in the
equivalence theorem use the same operations, so the `q / 0 = 0` convention
of `ℚ` never distinguishes them. -/

def applyOp (op : String) (a b : ℚ) : ℚ :=
  if op = "+" then a + b
  else if op = "-" then a - b
  else if op = "*" then a * b
  else a / b

def pfStep (stack : List ℚ) (tok : String) : Option (List ℚ) :=
  if isOperator tok then
    match stack with
    | b :: a :: rest => some (applyOp tok a b :: rest)
    | _ => none
  else
    match parseNum tok with
    | some v => some (v :: stack)
    | none => none

def pfRun : List String → List ℚ → Option (List ℚ)
  | [], stack => some stack
  | tok :: toks, stack =>
    match pfStep stack tok with
    | some stack2 => pfRun toks stack2
    | none => none

def evalPostfix (toks : List String) : Option ℚ :=
  match pfRun toks [] with
  | some [v] => some v
  | _ => none

/-! ### The infix grammar and its direct evaluation

A valid infix token stream is one generated by the standard left-recursive
grammar `E → E ± T | T`, `T → T (*∕) F | F`, `F → number | ( E )`, with
numeric tokens those accepted by the source's `isNumber`.  `Syn lvl ts v`
says the token list `ts` derives from grammar level `lvl` (0 = expression,
1 = term, 2 = factor) and that direct evaluation of the infix expression
(the spec's reference evaluator, evaluating subterms left-to-right with
`+ -` at lower precedence than `* /`, all left-associative) yields `v`. -/

inductive Syn : ℕ → List String → ℚ → Prop
  | num (s : String) (v : ℚ) : parseNum s = some v → Syn 2 [s] v
  | paren {ts : List String} {v : ℚ} : Syn 0 ts v → Syn 2 ("(" :: ts ++ [")"]) v
  | tf {ts : List String} {v : ℚ} : Syn 2 ts v → Syn 1 ts v
  | mul {ts₁ ts₂ : List String} {v₁ v₂ : ℚ} :
      Syn 1 ts₁ v₁ → Syn 2 ts₂ v₂ → Syn 1 (ts₁ ++ "*" :: ts₂) (v₁ * v₂)
  | div {ts₁ ts₂ : List String} {v₁ v₂ : ℚ} :
      Syn 1 ts₁ v₁ → Syn 2 ts₂ v₂ → Syn 1 (ts₁ ++ "/" :: ts₂) (v₁ / v₂)
  | et {ts : List String} {v : ℚ} : Syn 1 ts v → Syn 0 ts v
  | add {ts₁ ts₂ : List String} {v₁ v₂ : ℚ} :
      Syn 0 ts₁ v₁ → Syn 1 ts₂ v₂ → Syn 0 (ts₁ ++ "+" :: ts₂) (v₁ + v₂)
  | sub {ts₁ ts₂ : List String} {v₁ v₂ : ℚ} :
      Syn 0 ts₁ v₁ → Syn 1 ts₂ v₂ → Syn 0 (ts₁ ++ "-" :: ts₂) (v₁ - v₂)

/-! ### The scheduler state store

Faithful embedding of the Go `Service` struct and its methods.

Representation choices, each forced by a Go feature with no direct Lean
counterpart:

* Go maps become insertion-ordered association lists with overwriting
  insertion (`upsert`); lookups agree with map lookups, iterations realize
  one of the unspecified Go iteration orders (for `range s.tasks` in
  `updateExpressionStatus` and `createTasksFromPostfix` that order is
  insertion order; the statements proved do not depend on the choice).
* Task ids are the strings `task_1`, `task_2`, … produced from the
  source's `taskIDCounter`; we key tasks by the counter value `n` instead
  of the string `"task_" ++ toString n`, which is a bijective renaming.
* Expression ids are `uuid.New()` strings, opaque and assumed fresh; we
  model them by a fresh counter (`exprCounter`).
* A task operand (`Task.Arg1`/`Arg2`) is a string holding either an
  expression token (from the postfix output, or a `fmt.Sprintf("%f", r)`
  rendering after substitution) or a task id `task_n`.  Token strings are
  made of digit/dot/sign/operator/paren characters and are never of the
  form `task_n`, so the source's membership test `_, ok := s.tasks[arg]`
  distinguishes the two families exactly; we represent the operand as the
  sum `Arg` of the two families, and that membership test as
  `argIsTaskID`.
* Task results and submitted result values are rationals standing for the
  source's `float64` (see the header note).
* The source's `taskQueue` field is initialized and never read or written
  afterwards; it is omitted.
-/

inductive Arg
  | tok (s : String)
  | tid (n : ℕ)
deriving DecidableEq

inductive ExpressionStatus
  | pending | inProcess | completed | failed
deriving DecidableEq

structure ExpressionData where
  id : ℕ
  expression : String
  status : ExpressionStatus
  result : Option ℚ
deriving DecidableEq

structure Task where
  id : ℕ
  expressionId : ℕ
  arg1 : Arg
  arg2 : Arg
  operation : String
  operationTime : ℕ
  result : Option ℚ
  status : String
  dependencies : List ℕ
deriving DecidableEq

structure OperationTimes where
  addition : ℕ
  subtraction : ℕ
  multiplication : ℕ
  division : ℕ
deriving DecidableEq

structure Service where
  exprCounter : ℕ
  expressions : List (ℕ × ExpressionData)
  tasks : List (ℕ × Task)
  completedTasks : List ℕ
  readyTasks : List ℕ
  opTimes : OperationTimes
  taskIDCounter : ℕ
  dependencyGraph : List (ℕ × List ℕ)
  reverseDependencies : List (ℕ × List ℕ)
deriving DecidableEq

/-- Source `NewService`. -/
def newService (opTimes : OperationTimes) : Service :=
  ⟨0, [], [], [], [], opTimes, 0, [], []⟩

/-- Map update: replace the binding for `k` if present (keeping its
position), append it otherwise.  Models Go map assignment `m[k] = v`. -/
def upsert {α : Type} (k : ℕ) (v : α) : List (ℕ × α) → List (ℕ × α)
  | [] => [(k, v)]
  | (k2, v2) :: rest =>
    if k = k2 then (k, v) :: rest else (k2, v2) :: upsert k v rest

/-- Set insertion for the Go `map[string]bool` sets (`readyTasks`,
`completedTasks`): `m[k] = true`. -/
def insertSet (n : ℕ) (l : List ℕ) : List ℕ :=
  if n ∈ l then l else l ++ [n]

/-- `s.reverseDependencies[taskID]`: a missing key reads as the empty
slice in Go. -/
def revDepsOf (s : Service) (n : ℕ) : List ℕ :=
  (s.reverseDependencies.lookup n).getD []

/-- Dependency list of a task, empty when the id is unknown. -/
def depsOf (s : Service) (n : ℕ) : List ℕ :=
  match s.tasks.lookup n with
  | some t => t.dependencies
  | none => []

/-- The source test `_, isTaskID := s.tasks[arg]`: token strings are never
task ids (see the representation note on `Arg`), and a `task_n` string is
in the map exactly when key `n` is. -/
def argIsTaskID (s : Service) : Arg → Bool
  | .tok _ => false
  | .tid n => (s.tasks.lookup n).isSome

/-- Source `createTask`: allocate the next task id, compute the simulated
operation time, derive the dependency list and reverse-dependency edges
from the operands that are live task ids, and insert the task. -/
def createTask (s : Service) (exprID : ℕ) (arg1 arg2 : Arg) (operation : String) :
    ℕ × Service :=
  let taskID := s.taskIDCounter + 1
  let opTime :=
    if operation = "+" then s.opTimes.addition
    else if operation = "-" then s.opTimes.subtraction
    else if operation = "*" then s.opTimes.multiplication
    else if operation = "/" then s.opTimes.division
    else 0
  let deps1 : List ℕ :=
    match arg1 with
    | .tid n => if (s.tasks.lookup n).isSome then [n] else []
    | .tok _ => []
  let rev1 :=
    match arg1 with
    | .tid n =>
      if (s.tasks.lookup n).isSome then
        upsert n (((s.reverseDependencies.lookup n).getD []) ++ [taskID]) s.reverseDependencies
      else s.reverseDependencies
    | .tok _ => s.reverseDependencies
  let deps2 : List ℕ :=
    match arg2 with
    | .tid n => if (s.tasks.lookup n).isSome then [n] else []
    | .tok _ => []
  let rev2 :=
    match arg2 with
    | .tid n =>
      if (s.tasks.lookup n).isSome then
        upsert n (((rev1.lookup n).getD []) ++ [taskID]) rev1
      else rev1
    | .tok _ => rev1
  let deps := deps1 ++ deps2
  let task : Task :=
    ⟨taskID, exprID, arg1, arg2, operation, opTime, none, "pending", deps⟩
  (taskID,
   { s with
      taskIDCounter := taskID,
      tasks := upsert taskID task s.tasks,
      dependencyGraph := upsert taskID deps s.dependencyGraph,
      reverseDependencies := rev2 })

/-- The token loop of source `createTasksFromPostfix`: maintain the
evaluation stack of operand handles (head = top of the Go slice); an
operator pops `arg2` then `arg1` and pushes the id of the task it creates;
any other token is pushed as an operand. -/
def buildLoop : Service → ℕ → List String → List Arg → Except String (List Arg) × Service
  | s, _, [], stack => (.ok stack, s)
  | s, exprID, token :: rest, stack =>
    if isOperator token then
      match stack with
      | arg2 :: arg1 :: stack2 =>
        let ts := createTask s exprID arg1 arg2 token
        buildLoop ts.2 exprID rest (.tid ts.1 :: stack2)
      | _ =>
        (.error ("invalid expression: not enough operands for operator " ++ token), s)
    else buildLoop s exprID rest (.tok token :: stack)

/-- One iteration of the ready-marking loop of `createTasksFromPostfix`:
insert the task's key when it belongs to the expression and neither operand
is a live task id.  `s` is the service as it stands when the loop runs (the
loop mutates only the ready set, never the task map it iterates). -/
def markReadyStep (s : Service) (exprID : ℕ) (acc : List ℕ) (kt : ℕ × Task) : List ℕ :=
  if kt.2.expressionId = exprID ∧ argIsTaskID s kt.2.arg1 = false ∧
      argIsTaskID s kt.2.arg2 = false then
    insertSet kt.1 acc
  else acc

/-- The final loop of source `createTasksFromPostfix`: mark as ready every
task of this expression neither of whose operands is a live task id. -/
def markReady (s : Service) (exprID : ℕ) : Service :=
  { s with readyTasks := s.tasks.foldl (markReadyStep s exprID) s.readyTasks }

/-- Source `createTasksFromPostfix`.  On error the service keeps the
mutations made before the error, exactly as the Go method does. -/
def createTasksFromPostfix (s : Service) (exprID : ℕ) (pfix : List String) :
    Except String Unit × Service :=
  match buildLoop s exprID pfix [] with
  | (.error e, s2) => (.error e, s2)
  | (.ok stack, s2) =>
    if stack.length ≠ 1 then
      (.error "invalid expression: too many values left on stack", s2)
    else (.ok (), markReady s2 exprID)

/-- Source `parseExpression`: tokenize, convert to postfix, build tasks. -/
def parseExpression (s : Service) (exprID : ℕ) (expression : String) :
    Except String Unit × Service :=
  match tokenize expression with
  | .error e => (.error e, s)
  | .ok tokens =>
    match shuntingYard tokens with
    | .error e => (.error e, s)
    | .ok output => createTasksFromPostfix s exprID output

/-- Overwrite the status of an expression entry (the Go code mutates the
`ExpressionData` through its pointer). -/
def setExprStatus (s : Service) (exprID : ℕ) (st : ExpressionStatus) : Service :=
  match s.expressions.lookup exprID with
  | some e => { s with expressions := upsert exprID { e with status := st } s.expressions }
  | none => s

/-- Source `SubmitExpression`: strip spaces, create the expression entry
with a fresh id in `pending` state, parse; on failure mark it `failed` and
return the error, on success mark it `in_process` and return the id. -/
def submitExpression (s : Service) (expression : String) : Except String ℕ × Service :=
  let stripped := String.mk (expression.data.filter (fun c => c ≠ ' '))
  let id := s.exprCounter
  let s1 :=
    { s with
        exprCounter := id + 1,
        expressions := upsert id ⟨id, stripped, .pending, none⟩ s.expressions }
  match parseExpression s1 id stripped with
  | (.error e, s2) => (.error e, setExprStatus s2 id .failed)
  | (.ok _, s2) => (.ok id, setExprStatus s2 id .inProcess)

/-- Source `GetTask`: remove some member of the ready set, mark it
processing and return it.  Go picks the first element of an unspecified map
iteration order; the parameter `choose` stands for that choice, so that
every schedule Go can produce corresponds to some sequence of `choose`
values.  A call whose `choose` is not ready returns `none`, which models
the empty-ready-set answer. -/
def getTask (s : Service) (choose : ℕ) : Option Task × Service :=
  if choose ∈ s.readyTasks then
    match s.tasks.lookup choose with
    | some t =>
      let t2 := { t with status := "processing" }
      (some t2,
       { s with tasks := upsert choose t2 s.tasks, readyTasks := s.readyTasks.erase choose })
    | none => (none, s)
  else (none, s)

/-- The scan loop of source `updateExpressionStatus` over `s.tasks`: for
tasks of the given expression, a missing result aborts with
`allCompleted = false` (the Go `break`); a task with no reverse
dependencies overwrites the final-result accumulator. -/
def scanTasks (exprID : ℕ) (rev : List (ℕ × List ℕ)) :
    List (ℕ × Task) → Option ℚ → Bool × Option ℚ
  | [], acc => (true, acc)
  | (taskID, t) :: rest, acc =>
    if t.expressionId = exprID then
      match t.result with
      | none => (false, acc)
      | some _ =>
        scanTasks exprID rev rest
          (if ((rev.lookup taskID).getD []).isEmpty then t.result else acc)
    else scanTasks exprID rev rest acc

/-- Source `updateExpressionStatus`: if every task of the expression has a
result, copy the last dependent-free task's result into the expression and
mark it completed.  (When the expression id is absent from the map the Go
code would only fail on the final nil-pointer write, which is unreachable
because a result-bearing task implies its expression exists; we make that
case a no-op.) -/
def updateExpressionStatus (s : Service) (exprID : ℕ) : Service :=
  let scan := scanTasks exprID s.reverseDependencies s.tasks none
  match s.expressions.lookup exprID with
  | none => s
  | some e =>
    match scan.1, scan.2 with
    | true, some r =>
      { s with
          expressions :=
            upsert exprID { e with status := .completed, result := some r } s.expressions }
    | _, _ => s

/-- The source writes `fmt.Sprintf("%f", result)` into an operand slot
that still holds the resolved task's id. -/
def substArg (taskID : ℕ) (result : ℚ) (a : Arg) : Arg :=
  if a = .tid taskID then .tok (formatRat result) else a

/-- Substitute the resolved task's result into both operand slots of a
dependent task. -/
def substTask (taskID : ℕ) (result : ℚ) (t : Task) : Task :=
  { t with
      arg1 := substArg taskID result t.arg1,
      arg2 := substArg taskID result t.arg2 }

def updDepStep (taskID : ℕ) (result : ℚ) (acc : Service) (depID : ℕ) : Service :=
  match acc.tasks.lookup depID with
  | none => acc
  | some depTask =>
    let depTask2 := substTask taskID result depTask
    let acc2 := { acc with tasks := upsert depID depTask2 acc.tasks }
    if depTask2.dependencies.all (fun d => acc2.completedTasks.contains d) then
      { acc2 with readyTasks := insertSet depID acc2.readyTasks }
    else acc2

/-- Source `updateDependencies`: for every dependent of the resolved task,
substitute the result into operand slots that reference it, then insert the
dependent into the ready set if all its dependencies are completed.  (A
dependent id missing from the task map would make the Go code panic on a
nil pointer; that case is unreachable and modelled as a skip.) -/
def updateDependencies (s : Service) (taskID : ℕ) (result : ℚ) : Service :=
  (revDepsOf s taskID).foldl (updDepStep taskID result) s

/-- Source `SetTaskResult`: unknown ids fail with "task not found";
otherwise store the result, mark the task completed, update the owning
expression's status, and propagate to dependents. -/
def setTaskResult (s : Service) (id : ℕ) (result : ℚ) : Except String Unit × Service :=
  match s.tasks.lookup id with
  | none => (.error ("task not found: task_" ++ toString id), s)
  | some task =>
    let task2 := { task with result := some result }
    let s1 :=
      { s with
          tasks := upsert id task2 s.tasks,
          completedTasks := insertSet id s.completedTasks }
    let s2 := updateExpressionStatus s1 task2.expressionId
    let s3 := updateDependencies s2 id result
    (.ok (), s3)

/-- The request-layer guard of `Handler.CalculateExpression`
(`internal/api/handler.go`): the request body's `Expression` field carries
the `binding:"required"` tag, and `ShouldBindJSON` rejects a missing or
empty string (the zero value) with a 422 before the service is invoked.
Only that guard is modelled; on a non-empty expression the handler calls
`Service.SubmitExpression` and forwards its answer. -/
def calculateExpression (s : Service) (expression : String) : Except String ℕ × Service :=
  if expression = "" then
    (.error "Key: 'ExpressionRequest.Expression' Error:Field validation for 'Expression' failed on the 'required' tag", s)
  else submitExpression s expression

/-! ### Operation traces

A trace is a list of store operations: the submit, pull and record-result
entry points, each driven by adversarial arguments (`pull`'s argument
selects the ready task, standing for Go's unspecified map iteration
order). -/

inductive Op
  | submit (expression : String)
  | pull (choose : ℕ)
  | record (id : ℕ) (v : ℚ)

def stepOp (s : Service) : Op → Service
  | .submit e => (submitExpression s e).2
  | .pull c => (getTask s c).2
  | .record id v => (setTaskResult s id v).2

def runOps : Service → List Op → Service
  | s, [] => s
  | s, op :: ops => runOps (stepOp s op) ops

/-- States reachable from a fresh service by store operations. -/
inductive Reachable : Service → Prop
  | init (opTimes : OperationTimes) : Reachable (newService opTimes)
  | step (s : Service) (op : Op) : Reachable s → Reachable (stepOp s op)

/-- The task ids a single operation reports as pulled. -/
def pullResult (s : Service) : Op → List ℕ
  | .pull c =>
    match (getTask s c).1 with
    | some t => [t.id]
    | none => []
  | _ => []

/-- All task ids successfully pulled along a trace, in order. -/
def pulledIds : Service → List Op → List ℕ
  | _, [] => []
  | s, op :: ops => pullResult s op ++ pulledIds (stepOp s op) ops

/-- The task ids passed to `record` operations of a trace. -/
def recordIds : List Op → List ℕ
  | [] => []
  | .record id _ :: ops => id :: recordIds ops
  | _ :: ops => recordIds ops

/-- An operand slot holding a string that parses as a number. -/
def numericArg : Arg → Bool
  | .tok s => isNumber s
  | .tid _ => false

/-- The numeric value an operand slot parses to, if any. -/
def argNumVal : Arg → Option ℚ
  | .tok s => parseNum s
  | .tid _ => none

/-- Every task of expression `exprID` has a recorded result, and the
expression's result field equals the result of some dependent-free task of
that expression.  This is the right-hand side of the completion invariant,
with "a dependent-free task" in place of the spec's "the unique
dependency-free root task" (builds that fail halfway can leave several
dependent-free tasks, see the C3 analysis). -/
def ExprDone (s : Service) (exprID : ℕ) (e : ExpressionData) : Prop :=
  (∀ m t, s.tasks.lookup m = some t → t.expressionId = exprID → t.result.isSome = true) ∧
  (∃ m t, s.tasks.lookup m = some t ∧ t.expressionId = exprID ∧
    revDepsOf s m = [] ∧ e.result = t.result)

/-- The completion right-hand side exactly as the claim words it: every
task has a result and the expression's unique dependency-free root task's
result has been copied.  Written from the spec's words, for comparison
with the behaviour of the code. -/
def UniqueRootCopied (s : Service) (exprID : ℕ) (e : ExpressionData) : Prop :=
  (∀ m t, s.tasks.lookup m = some t → t.expressionId = exprID → t.result.isSome = true) ∧
  (∃ m, (∃ t, s.tasks.lookup m = some t ∧ t.expressionId = exprID ∧ revDepsOf s m = [] ∧
          e.result = t.result) ∧
        (∀ m2 t2, s.tasks.lookup m2 = some t2 → t2.expressionId = exprID →
          revDepsOf s m2 = [] → m2 = m))

/-- The structural invariant of reachable service states.  Every field is
a property the store operations preserve; together they support the
verified claims about ready tasks, completion and pull uniqueness. -/
structure WF (s : Service) : Prop where
  taskKeysNodup : (s.tasks.map Prod.fst).Nodup
  exprKeysNodup : (s.expressions.map Prod.fst).Nodup
  taskIdField : ∀ k t, s.tasks.lookup k = some t → t.id = k
  taskKeyBound : ∀ k t, s.tasks.lookup k = some t → k ≤ s.taskIDCounter
  taskExprBound : ∀ k t, s.tasks.lookup k = some t → t.expressionId < s.exprCounter
  depsLt : ∀ k t, s.tasks.lookup k = some t → ∀ d ∈ t.dependencies, d < k
  depsSameExpr : ∀ k t, s.tasks.lookup k = some t → ∀ d ∈ t.dependencies,
    ∃ u, s.tasks.lookup d = some u ∧ u.expressionId = t.expressionId
  edge : ∀ d k, k ∈ revDepsOf s d ↔ ∃ t, s.tasks.lookup k = some t ∧ d ∈ t.dependencies
  argTok : ∀ k t, s.tasks.lookup k = some t → ∀ str,
    t.arg1 = .tok str ∨ t.arg2 = .tok str → isNumber str = true
  argTid : ∀ k t, s.tasks.lookup k = some t → ∀ n,
    t.arg1 = .tid n ∨ t.arg2 = .tid n → n ∈ t.dependencies ∧ n ∉ s.completedTasks
  argCover : ∀ k t, s.tasks.lookup k = some t → ∀ n ∈ t.dependencies,
    t.arg1 = .tid n ∨ t.arg2 = .tid n ∨ n ∈ s.completedTasks
  readyNodup : s.readyTasks.Nodup
  readyInv : ∀ id ∈ s.readyTasks, ∃ t, s.tasks.lookup id = some t ∧
    numericArg t.arg1 = true ∧ numericArg t.arg2 = true ∧
    ∀ d ∈ t.dependencies, d ∈ s.completedTasks
  completedInv : ∀ id ∈ s.completedTasks, ∃ t, s.tasks.lookup id = some t ∧
    t.result.isSome = true
  exprCompletion : ∀ k e, s.expressions.lookup k = some e →
    (e.status = ExpressionStatus.completed ↔ ExprDone s k e)

/-- History invariant for pull uniqueness: `P` is the list of task ids
already returned by successful pulls, `R` the ids already passed to
`SetTaskResult`.  Ready tasks are never already-pulled, pulls are distinct,
every pulled task is a task whose dependencies are all completed, and every
completed id has been recorded. -/
def PullInv (s : Service) (P R : List ℕ) : Prop :=
  P.Nodup ∧
  (∀ a ∈ s.readyTasks, a ∉ P) ∧
  (∀ a ∈ P, ∃ t, s.tasks.lookup a = some t ∧
    ∀ d ∈ t.dependencies, d ∈ s.completedTasks) ∧
  (∀ c ∈ s.completedTasks, c ∈ R)

/-- Constraint on the operator stack under which a phrase of the given
grammar level can start: an expression needs the top to be an opening
parenthesis (or an empty stack), a term additionally allows a pending
precedence-1 operator, a factor runs on any stack. -/
def Barrier : ℕ → List String → Prop
  | 0, ops => ops = [] ∨ ∃ r, ops = "(" :: r
  | 1, ops => ops = [] ∨ ∃ t r, ops = t :: r ∧ getPrecedence t ≤ 1
  | _+2, _ => True

/-- Shape of the operators a phrase leaves pending on the operator stack:
a factor leaves none, a term leaves precedence-2 operators, an expression
leaves arbitrary operators. -/
def PendOK : ℕ → List String → Prop
  | 0, pend => ∀ o ∈ pend, isOperator o = true
  | 1, pend => ∀ o ∈ pend, isOperator o = true ∧ getPrecedence o = 2
  | _+2, pend => pend = []

/-! ## Helper lemmas on the map and set representations -/

theorem lookup_cons {α : Type} (k k2 : ℕ) (v2 : α) (l : List (ℕ × α)) :
    List.lookup k ((k2, v2) :: l) = if k = k2 then some v2 else List.lookup k l := by
  by_cases h : k = k2
  · subst h; simp [List.lookup]
  · have hb : (k == k2) = false := by simpa using h
    simp [List.lookup, hb, if_neg h]

theorem lookup_upsert_self {α : Type} (k : ℕ) (v : α) (l : List (ℕ × α)) :
    (upsert k v l).lookup k = some v := by
  induction l with
  | nil => simp [upsert, lookup_cons]
  | cons p rest ih =>
    obtain ⟨k2, v2⟩ := p
    by_cases h : k = k2
    · subst h; simp [upsert, lookup_cons]
    · simp [upsert, h, lookup_cons, ih]

theorem lookup_upsert_ne {α : Type} {k k2 : ℕ} (v : α) (l : List (ℕ × α)) (h : k2 ≠ k) :
    (upsert k v l).lookup k2 = l.lookup k2 := by
  induction l with
  | nil => simp [upsert, lookup_cons, h]
  | cons p rest ih =>
    obtain ⟨k3, v3⟩ := p
    by_cases h3 : k = k3
    · subst h3; simp [upsert, lookup_cons, h]
    · simp only [upsert, if_neg h3, lookup_cons]
      by_cases h4 : k2 = k3
      · subst h4; simp
      · simp [h4, ih]

theorem mem_keys_upsert {α : Type} {m k : ℕ} {v : α} {l : List (ℕ × α)} :
    m ∈ (upsert k v l).map Prod.fst ↔ m = k ∨ m ∈ l.map Prod.fst := by
  induction l with
  | nil => simp [upsert]
  | cons p rest ih =>
    obtain ⟨k2, v2⟩ := p
    by_cases h : k = k2
    · subst h; simp [upsert]
    · simp only [upsert, if_neg h, List.map_cons, List.mem_cons, ih]
      tauto

theorem keys_nodup_upsert {α : Type} {k : ℕ} {v : α} {l : List (ℕ × α)}
    (h : (l.map Prod.fst).Nodup) : ((upsert k v l).map Prod.fst).Nodup := by
  induction l with
  | nil => simp [upsert]
  | cons p rest ih =>
    obtain ⟨k2, v2⟩ := p
    simp only [List.map_cons, List.nodup_cons] at h
    by_cases hk : k = k2
    · subst hk; simpa [upsert] using h
    · simp only [upsert, if_neg hk, List.map_cons, List.nodup_cons]
      refine ⟨fun hm => ?_, ih h.2⟩
      rcases mem_keys_upsert.mp hm with h1 | h1
      · exact hk h1.symm
      · exact h.1 h1

theorem mem_of_lookup {α : Type} {l : List (ℕ × α)} {k : ℕ} {v : α}
    (h : l.lookup k = some v) : (k, v) ∈ l := by
  induction l with
  | nil => simp [List.lookup] at h
  | cons p rest ih =>
    obtain ⟨k2, v2⟩ := p
    rw [lookup_cons] at h
    by_cases hk : k = k2
    · subst hk
      rw [if_pos rfl] at h
      cases h; simp
    · rw [if_neg hk] at h
      exact List.mem_cons_of_mem _ (ih h)

theorem lookup_eq_of_mem {α : Type} {l : List (ℕ × α)}
    (hnd : (l.map Prod.fst).Nodup) {k : ℕ} {v : α} (hm : (k, v) ∈ l) :
    l.lookup k = some v := by
  induction l with
  | nil => simp at hm
  | cons p rest ih =>
    obtain ⟨k2, v2⟩ := p
    simp only [List.map_cons, List.nodup_cons] at hnd
    rcases List.mem_cons.mp hm with h | h
    · cases h; simp [List.lookup]
    · have hk : k ≠ k2 := by
        intro hkk
        subst hkk
        exact hnd.1 (List.mem_map_of_mem Prod.fst h)
      rw [lookup_cons, if_neg hk]
      exact ih hnd.2 h

theorem lookup_isSome_iff {α : Type} {l : List (ℕ × α)} {k : ℕ} :
    (l.lookup k).isSome = true ↔ k ∈ l.map Prod.fst := by
  induction l with
  | nil => simp [List.lookup]
  | cons p rest ih =>
    obtain ⟨k2, v2⟩ := p
    rw [lookup_cons]
    by_cases hk : k = k2
    · subst hk; simp
    · simp [if_neg hk, hk, ih]

theorem mem_insertSet {a n : ℕ} {l : List ℕ} :
    a ∈ insertSet n l ↔ a = n ∨ a ∈ l := by
  unfold insertSet
  by_cases h : n ∈ l
  · simp only [if_pos h]
    constructor
    · exact Or.inr
    · rintro (rfl | h2)
      · exact h
      · exact h2
  · simp [if_neg h, List.mem_append, or_comm]

theorem nodup_insertSet {n : ℕ} {l : List ℕ} (h : l.Nodup) :
    (insertSet n l).Nodup := by
  unfold insertSet
  by_cases hm : n ∈ l
  · simpa [if_pos hm]
  · simp only [if_neg hm]
    simpa [List.nodup_append] using ⟨h, fun hx => hm hx⟩

/-! ## Field-preservation lemmas for the task-graph builder -/

theorem buildLoop_fields (toks : List String) :
    ∀ (s : Service) (exprID : ℕ) (stack : List Arg),
    (buildLoop s exprID toks stack).2.readyTasks = s.readyTasks ∧
    (buildLoop s exprID toks stack).2.completedTasks = s.completedTasks ∧
    (buildLoop s exprID toks stack).2.expressions = s.expressions := by
  induction toks with
  | nil => intro s e st; exact ⟨rfl, rfl, rfl⟩
  | cons tok rest ih =>
    intro s e st
    by_cases hop : isOperator tok
    · match st with
      | [] => simp [buildLoop, hop]
      | [a] => simp [buildLoop, hop]
      | a :: b :: st3 =>
        simp only [buildLoop, hop, if_true]
        exact ih (createTask s e b a tok).2 e _
    · simp only [buildLoop, hop, if_false, Bool.false_eq_true]
      exact ih s e _

/-- C4 (amended): on a failed build the untouched parts of the store are
the ready set, the completed set and the expressions; tasks created before
the failure stay in the task map. -/
theorem C4_failed_build_leaves_ready_unchanged (s : Service) (exprID : ℕ)
    (pfix : List String) (msg : String) (s2 : Service)
    (h : createTasksFromPostfix s exprID pfix = (.error msg, s2)) :
    s2.readyTasks = s.readyTasks ∧ s2.completedTasks = s.completedTasks ∧
    s2.expressions = s.expressions := by
  unfold createTasksFromPostfix at h
  rcases hb : buildLoop s exprID pfix [] with ⟨res, s3⟩
  rw [hb] at h
  have hfields := buildLoop_fields pfix s exprID []
  rw [hb] at hfields
  cases res with
  | error e2 =>
    simp only at h
    cases h
    exact hfields
  | ok stack =>
    simp only at h
    by_cases hl : stack.length ≠ 1
    · rw [if_pos hl] at h
      cases h
      exact hfields
    · rw [if_neg hl] at h
      cases h

/-- C4, counterexample to the claim as stated: submitting `"(2+3)4"` fails
the build with "too many values left on stack", yet the task created for
`2+3` before the failure remains in the task map — the store is not left
unchanged. -/
theorem C4_counterexample :
    (submitExpression (newService ⟨1, 1, 1, 1⟩) "(2+3)4").1 =
      Except.error "invalid expression: too many values left on stack" ∧
    ((submitExpression (newService ⟨1, 1, 1, 1⟩) "(2+3)4").2.tasks.lookup 1).isSome = true := by
  constructor <;> rfl

/-- C4, witness: the amended statement applied to the concrete failing
build of postfix `2 3 + 4`. -/
theorem C4_witness :
    (createTasksFromPostfix (newService ⟨1, 1, 1, 1⟩) 0 ["2", "3", "+", "4"]).2.readyTasks =
      (newService ⟨1, 1, 1, 1⟩).readyTasks ∧
    (createTasksFromPostfix (newService ⟨1, 1, 1, 1⟩) 0 ["2", "3", "+", "4"]).2.completedTasks =
      (newService ⟨1, 1, 1, 1⟩).completedTasks ∧
    (createTasksFromPostfix (newService ⟨1, 1, 1, 1⟩) 0 ["2", "3", "+", "4"]).2.expressions =
      (newService ⟨1, 1, 1, 1⟩).expressions :=
  C4_failed_build_leaves_ready_unchanged (newService ⟨1, 1, 1, 1⟩) 0 ["2", "3", "+", "4"]
    "invalid expression: too many values left on stack" _ rfl

/-- C6 (amended): a `SetTaskResult` call succeeds exactly when the task id
exists in the task map — whether the task has been pulled is not
consulted; the pull-before-record ordering is a property of well-behaved
workers, not one the store enforces. -/
theorem C6_record_succeeds_iff_task_exists (s : Service) (id : ℕ) (v : ℚ) :
    (setTaskResult s id v).1 = Except.ok () ↔ (s.tasks.lookup id).isSome = true := by
  unfold setTaskResult
  cases h : s.tasks.lookup id <;> simp

/-- C6, counterexample to the claim as stated: after submitting `"2+2"`
and performing no pull at all (the trace contains no pull operation, so
the set of pulled task ids is empty), recording a result for task 1
succeeds. -/
theorem C6_counterexample :
    (setTaskResult (runOps (newService ⟨1, 1, 1, 1⟩) [.submit "2+2"]) 1 4).1 =
      Except.ok () ∧
    pulledIds (newService ⟨1, 1, 1, 1⟩) [.submit "2+2"] = [] := by
  constructor <;> rfl

/-- C7: submitting an empty expression string is rejected by the request
layer's required-field validation with a validation error; the service is
never invoked, so the store is returned unchanged — in particular no
expression entry is created. -/
theorem C7_empty_submission_rejected (s : Service) :
    (calculateExpression s "").2 = s ∧
    ∃ msg, (calculateExpression s "").1 = Except.error msg :=
  ⟨rfl, ⟨_, rfl⟩⟩

/-! ## Tokenizer lemmas -/

theorem tokenizeGo_invalid (cs : List Char) :
    ∀ (cur : List Char) (c : Char),
    cs.find? (fun c => !validChar c) = some c →
    tokenizeGo cs cur = .error ("invalid character in expression: " ++ String.mk [c]) := by
  induction cs with
  | nil => intro cur c h; simp at h
  | cons c0 rest ih =>
    intro cur c h
    by_cases hv : validChar c0 = true
    · rw [List.find?_cons_of_neg _ (by simp [hv])] at h
      by_cases h1 : (isDigitChar c0 || c0 == '.') = true
      · simp only [tokenizeGo, h1, if_true]
        exact ih _ c h
      · by_cases h2 : isOperator (String.mk [c0]) = true
        · simp only [tokenizeGo, h1, h2, if_true, Bool.false_eq_true, if_false]
          rw [ih [] c h]
        · by_cases h3 : (c0 == '(' || c0 == ')') = true
          · simp only [tokenizeGo, h1, h2, h3, if_true, Bool.false_eq_true, if_false]
            rw [ih [] c h]
          · exfalso
            revert hv h1 h2 h3
            unfold validChar
            cases isDigitChar c0 <;> cases c0 == '.' <;>
              cases isOperator (String.mk [c0]) <;> cases c0 == '(' <;>
              cases c0 == ')' <;> simp
    · rw [List.find?_cons_of_pos _ (by simp [hv])] at h
      cases h
      have h1 : (isDigitChar c0 || c0 == '.') = false := by
        revert hv; unfold validChar
        cases isDigitChar c0 <;> cases c0 == '.' <;> simp
      have h2 : isOperator (String.mk [c0]) = false := by
        revert hv; unfold validChar
        cases isOperator (String.mk [c0]) <;> simp
      have h3 : (c0 == '(' || c0 == ')') = false := by
        revert hv; unfold validChar
        cases c0 == '(' <;> cases c0 == ')' <;> simp
      simp only [tokenizeGo, h1, h2, h3, Bool.false_eq_true, if_false]

theorem flushTok_mem {cur : List Char} {ts : List String} {t : String}
    (h : t ∈ flushTok cur ts) : (cur ≠ [] ∧ t = String.mk cur) ∨ t ∈ ts := by
  unfold flushTok at h
  by_cases hc : cur.isEmpty
  · rw [if_pos hc] at h; exact Or.inr h
  · rw [if_neg hc] at h
    rcases List.mem_cons.mp h with h | h
    · exact Or.inl ⟨by simpa using hc, h⟩
    · exact Or.inr h

theorem tokenizeGo_tokens (cs : List Char) :
    ∀ (cur : List Char) (ts : List String),
    (∀ c ∈ cur, isDigitChar c = true ∨ c = '.') →
    tokenizeGo cs cur = .ok ts →
    ∀ t ∈ ts, GoodTok t := by
  induction cs with
  | nil =>
    intro cur ts hcur h t ht
    simp only [tokenizeGo] at h
    cases h
    rcases flushTok_mem ht with ⟨hne, rfl⟩ | h
    · exact Or.inr ⟨by simpa using hne, by simpa using hcur⟩
    · simp at h
  | cons c0 rest ih =>
    intro cur ts hcur h t ht
    by_cases h1 : (isDigitChar c0 || c0 == '.') = true
    · simp only [tokenizeGo, h1, if_true] at h
      refine ih (cur ++ [c0]) ts ?_ h t ht
      intro c hc
      rcases List.mem_append.mp hc with hc | hc
      · exact hcur c hc
      · have : c = c0 := by simpa using hc
        subst this
        simpa using h1
    · by_cases h2 : isOperator (String.mk [c0]) = true
      · simp only [tokenizeGo, h1, h2, if_true, Bool.false_eq_true, if_false] at h
        cases hrest : tokenizeGo rest [] with
        | error e => rw [hrest] at h; cases h
        | ok ts2 =>
          rw [hrest] at h
          cases h
          rcases flushTok_mem ht with ⟨hne, rfl⟩ | hmem
          · exact Or.inr ⟨by simpa using hne, by simpa using hcur⟩
          · rcases List.mem_cons.mp hmem with rfl | hmem
            · exact Or.inl (Or.inl h2)
            · exact ih [] ts2 (by simp) hrest t hmem
      · by_cases h3 : (c0 == '(' || c0 == ')') = true
        · simp only [tokenizeGo, h1, h2, h3, if_true, Bool.false_eq_true, if_false] at h
          cases hrest : tokenizeGo rest [] with
          | error e => rw [hrest] at h; cases h
          | ok ts2 =>
            rw [hrest] at h
            cases h
            rcases flushTok_mem ht with ⟨hne, rfl⟩ | hmem
            · exact Or.inr ⟨by simpa using hne, by simpa using hcur⟩
            · rcases List.mem_cons.mp hmem with rfl | hmem
              · rcases (by simpa using h3 : c0 = '(' ∨ c0 = ')') with rfl | rfl
                · exact Or.inl (Or.inr (Or.inl rfl))
                · exact Or.inl (Or.inr (Or.inr rfl))
              · exact ih [] ts2 (by simp) hrest t hmem
        · simp only [tokenizeGo, h1, h2, h3, Bool.false_eq_true, if_false] at h
          cases h

/-- C8, counterexample to the claim as stated: the input `"1.2.3"`
tokenizes successfully into the single numeric token `"1.2.3"`, which
contains two decimal points — the tokenizer does not limit a numeric token
to a single decimal point. -/
theorem C8_counterexample :
    tokenize "1.2.3" = Except.ok ["1.2.3"] ∧
    ("1.2.3" : String).data.count '.' = 2 := by
  constructor <;> rfl

/-- C8 (amended): tokenization scans left to right, accumulating digit and
decimal-point characters (possibly several points) into numeric tokens;
when the input contains a character that is not a digit, a decimal point,
an operator or a parenthesis, it fails with an "invalid character" error
identifying the first such character; on success every emitted token is an
operator, a parenthesis, or a nonempty string of digits and decimal
points. -/
theorem C8_tokenizer_behaviour :
    (∀ (s : String) (c : Char),
      s.data.find? (fun c => !validChar c) = some c →
      tokenize s = .error ("invalid character in expression: " ++ String.mk [c])) ∧
    (∀ (s : String) (ts : List String),
      tokenize s = .ok ts → ∀ t ∈ ts, GoodTok t) := by
  constructor
  · intro s c h
    exact tokenizeGo_invalid s.data [] c h
  · intro s ts h t ht
    exact tokenizeGo_tokens s.data [] ts (by simp) h t ht

/-- C8, witness: the amended statement applied at the concrete inputs
`"2a"` (first invalid character `a`) and `"1.2.3"` (successful, one
numeric digit-and-dots token). -/
theorem C8_witness :
    (("2a" : String).data.find? (fun c => !validChar c) = some 'a') ∧
    tokenize "2a" = .error ("invalid character in expression: " ++ String.mk ['a']) ∧
    tokenize "1.2.3" = .ok ["1.2.3"] ∧ ∀ t ∈ ["1.2.3"], GoodTok t :=
  ⟨by decide, C8_tokenizer_behaviour.1 "2a" 'a' (by decide), rfl,
    C8_tokenizer_behaviour.2 "1.2.3" ["1.2.3"] rfl⟩

/-- C2, counterexample to the claim as stated: submit `"2+2*2"`, pull the
multiplication task 1, record its result, pull the addition task 2, then
record task 1's result a second time — the duplicate record re-inserts the
already-pulled task 2 into the ready set and the final pull returns task 2
a second time, so the trace's successful pulls are `[1, 2, 2]`. -/
theorem C2_counterexample :
    pulledIds (newService ⟨1, 1, 1, 1⟩)
      [.submit "2+2*2", .pull 1, .record 1 4, .pull 2, .record 1 4, .pull 2] =
      [1, 2, 2] ∧
    List.count 2 (pulledIds (newService ⟨1, 1, 1, 1⟩)
      [.submit "2+2*2", .pull 1, .record 1 4, .pull 2, .record 1 4, .pull 2]) = 2 := by
  constructor <;> rfl

/-- C3, counterexample to the claim as stated: submitting `"(2+3)(4+5)"`
fails the build but leaves two tasks, both without dependents; recording
results for both marks the expression completed, yet the claim's
right-hand side is false because the expression has no unique
dependency-free root task. -/
theorem C3_counterexample :
    ∃ e, (runOps (newService ⟨1, 1, 1, 1⟩)
        [.submit "(2+3)(4+5)", .record 1 5, .record 2 9]).expressions.lookup 0 = some e ∧
      e.status = .completed ∧
      ¬ UniqueRootCopied
        (runOps (newService ⟨1, 1, 1, 1⟩)
          [.submit "(2+3)(4+5)", .record 1 5, .record 2 9]) 0 e := by
  refine ⟨_, rfl, rfl, ?_⟩
  rintro ⟨-, m, -, huniq⟩
  have h1 : m = 1 := (huniq 1 _ rfl rfl rfl).symm
  have h2 : m = 2 := (huniq 2 _ rfl rfl rfl).symm
  rw [h1] at h2
  cases h2

/-- C5: submitting `"2+2*2"` creates exactly the two tasks 1 and 2; the
multiplication task 1 is immediately ready with operands parsing to 2 and
2, the addition task 2 is not ready and depends on task 1; after task 1 is
pulled and its result 4 recorded, task 2 is ready with operands parsing to
2 and 4 (the substituted operand slot holds the formatted string
`"4.000000"`); after task 2's result 6 is recorded the expression is
completed with result 6. -/
theorem C5_scenario_two_plus_two_times_two :
    (runOps (newService ⟨1, 1, 1, 1⟩) [.submit "2+2*2"]).tasks.map Prod.fst = [1, 2] ∧
    (∃ t, (runOps (newService ⟨1, 1, 1, 1⟩) [.submit "2+2*2"]).tasks.lookup 1 = some t ∧
      t.operation = "*" ∧ argNumVal t.arg1 = some 2 ∧ argNumVal t.arg2 = some 2) ∧
    1 ∈ (runOps (newService ⟨1, 1, 1, 1⟩) [.submit "2+2*2"]).readyTasks ∧
    2 ∉ (runOps (newService ⟨1, 1, 1, 1⟩) [.submit "2+2*2"]).readyTasks ∧
    (∃ t, (runOps (newService ⟨1, 1, 1, 1⟩) [.submit "2+2*2"]).tasks.lookup 2 = some t ∧
      t.operation = "+" ∧ t.dependencies = [1]) ∧
    2 ∈ (runOps (newService ⟨1, 1, 1, 1⟩)
        [.submit "2+2*2", .pull 1, .record 1 4]).readyTasks ∧
    (∃ t, (runOps (newService ⟨1, 1, 1, 1⟩)
        [.submit "2+2*2", .pull 1, .record 1 4]).tasks.lookup 2 = some t ∧
      argNumVal t.arg1 = some 2 ∧ argNumVal t.arg2 = some 4) ∧
    (∃ e, (runOps (newService ⟨1, 1, 1, 1⟩)
        [.submit "2+2*2", .pull 1, .record 1 4, .pull 2, .record 2 6]).expressions.lookup 0 =
        some e ∧
      e.status = .completed ∧ e.result = some 6) := by
  refine ⟨rfl, ⟨_, rfl, rfl, ?_, ?_⟩, by decide, by decide, ⟨_, rfl, rfl, rfl⟩,
    by decide, ⟨_, rfl, ?_, ?_⟩, ⟨_, rfl, rfl, rfl⟩⟩
  · exact (by decide : parseNum "2" = some 2)
  · exact (by decide : parseNum "2" = some 2)
  · exact (by decide : parseNum "2" = some 2)
  · exact (by decide : parseNum (formatRat 4) = some 4)

/-! ## Shunting-yard correctness: supporting lemmas -/

theorem pfRun_append (xs : List String) :
    ∀ (ys : List String) (st : List ℚ),
    pfRun (xs ++ ys) st =
      match pfRun xs st with
      | some st2 => pfRun ys st2
      | none => none := by
  induction xs with
  | nil => intro ys st; simp [pfRun]
  | cons x xs ih =>
    intro ys st
    simp only [List.cons_append, pfRun]
    cases pfStep st x with
    | none => rfl
    | some st2 => exact ih ys st2

theorem syRun_append (xs : List String) :
    ∀ (ys out ops : List String),
    syRun (xs ++ ys) out ops =
      match syRun xs out ops with
      | .ok os => syRun ys os.1 os.2
      | .error e => .error e := by
  induction xs with
  | nil => intro ys out ops; simp [syRun]
  | cons x xs ih =>
    intro ys out ops
    simp only [List.cons_append, syRun]
    cases syStep out ops x with
    | error e => rfl
    | ok os => exact ih ys os.1 os.2

theorem isOperator_cases {t : String} (h : isOperator t = true) :
    t = "+" ∨ t = "-" ∨ t = "*" ∨ t = "/" := by
  simp only [isOperator, Bool.or_eq_true, beq_iff_eq] at h
  tauto

theorem isOperator_ne_paren {t : String} (h : isOperator t = true) : t ≠ "(" := by
  rcases isOperator_cases h with rfl | rfl | rfl | rfl <;> decide

theorem isOperator_prec_pos {t : String} (h : isOperator t = true) :
    1 ≤ getPrecedence t := by
  rcases isOperator_cases h with rfl | rfl | rfl | rfl <;> decide

theorem isNumber_not_operator {t : String} {v : ℚ} (h : parseNum t = some v) :
    isOperator t = false := by
  cases ho : isOperator t
  · rfl
  · exfalso
    have hnone : parseNum t = none := by
      rcases isOperator_cases ho with rfl | rfl | rfl | rfl <;> decide
    rw [hnone] at h
    cases h

theorem hasHigher_iff {o tok : String} :
    hasHigherPrecedence o tok = true ↔ getPrecedence tok ≤ getPrecedence o := by
  simp [hasHigherPrecedence]

theorem popOps_eq {pend ops : List String} {tok : String}
    (hpend : ∀ o ∈ pend, o ≠ "(" ∧ hasHigherPrecedence o tok = true)
    (hops : ops = [] ∨ ∃ t r, ops = t :: r ∧
      (t = "(" ∨ hasHigherPrecedence t tok = false)) :
    popOps (pend ++ ops) tok = (pend, ops) := by
  induction pend with
  | nil =>
    rcases hops with rfl | ⟨t, r, rfl, ht⟩
    · rfl
    · rcases ht with rfl | ht
      · simp [popOps]
      · simp [popOps, ht]
  | cons o pend ih =>
    have ho := hpend o (List.mem_cons_self o pend)
    have hne : (o != "(") = true := by simpa using ho.1
    simp only [List.cons_append, popOps, hne, ho.2, Bool.and_self, if_true]
    simp [List.append_eq, ih (fun o2 h2 => hpend o2 (List.mem_cons_of_mem o h2))]

theorem popParen_eq {pend ops : List String}
    (hpend : ∀ o ∈ pend, o ≠ "(") :
    popParen (pend ++ "(" :: ops) = some (pend, ops) := by
  induction pend with
  | nil => simp [popParen]
  | cons o pend ih =>
    have ho : (o == "(") = false := by
      simpa using hpend o (List.mem_cons_self o pend)
    simp only [List.cons_append, popParen, ho, Bool.false_eq_true, if_false]
    simp [List.append_eq, ih (fun o2 h2 => hpend o2 (List.mem_cons_of_mem o h2))]

theorem syDrain_no_paren {pend : List String} :
    ∀ out, (∀ o ∈ pend, o ≠ "(") → syDrain out pend = .ok (out ++ pend) := by
  induction pend with
  | nil => intro out _; simp [syDrain]
  | cons o pend ih =>
    intro out hpend
    have ho : (o == "(") = false := by
      simpa using hpend o (List.mem_cons_self o pend)
    simp only [syDrain, ho, Bool.false_eq_true, if_false]
    rw [ih (out ++ [o]) (fun o2 h2 => hpend o2 (List.mem_cons_of_mem o h2))]
    simp

theorem syStep_num {tok : String} (h : isNumber tok = true) (out ops : List String) :
    syStep out ops tok = .ok (out ++ [tok], ops) := by
  simp [syStep, h]

theorem syStep_op {tok : String} (hn : isNumber tok = false)
    (ho : isOperator tok = true) (out ops : List String) :
    syStep out ops tok = .ok (out ++ (popOps ops tok).1, tok :: (popOps ops tok).2) := by
  simp [syStep, hn, ho]

theorem syStep_lparen (out ops : List String) :
    syStep out ops "(" = .ok (out, "(" :: ops) := by
  have h1 : isNumber "(" = false := by decide
  have h2 : isOperator "(" = false := by decide
  simp [syStep, h1, h2]

theorem syStep_rparen (out ops : List String) :
    syStep out ops ")" =
      match popParen ops with
      | none => .error "mismatched parentheses"
      | some pr => .ok (out ++ pr.1, pr.2) := by
  have h1 : isNumber ")" = false := by decide
  have h2 : isOperator ")" = false := by decide
  simp [syStep, h1, h2]

theorem applyOp_add (a b : ℚ) : applyOp "+" a b = a + b := by simp [applyOp]

theorem applyOp_sub (a b : ℚ) : applyOp "-" a b = a - b := by
  have h : ("-" : String) ≠ "+" := by decide
  simp [applyOp, h]

theorem applyOp_mul (a b : ℚ) : applyOp "*" a b = a * b := by
  have h1 : ("*" : String) ≠ "+" := by decide
  have h2 : ("*" : String) ≠ "-" := by decide
  simp [applyOp, h1, h2]

theorem applyOp_div (a b : ℚ) : applyOp "/" a b = a / b := by
  have h1 : ("/" : String) ≠ "+" := by decide
  have h2 : ("/" : String) ≠ "-" := by decide
  have h3 : ("/" : String) ≠ "*" := by decide
  simp [applyOp, h1, h2, h3]

theorem popOps_pend2 {pend ops : List String} {op : String}
    (hprec : getPrecedence op = 2)
    (hpend : ∀ o ∈ pend, isOperator o = true ∧ getPrecedence o = 2)
    (hbar : Barrier 1 ops) : popOps (pend ++ ops) op = (pend, ops) := by
  apply popOps_eq
  · intro o ho
    refine ⟨isOperator_ne_paren (hpend o ho).1, ?_⟩
    rw [hasHigher_iff, hprec, (hpend o ho).2]
  · rcases hbar with rfl | ⟨t, r, rfl, ht⟩
    · exact Or.inl rfl
    · refine Or.inr ⟨t, r, rfl, Or.inr ?_⟩
      rw [Bool.eq_false_iff]
      rw [Ne, hasHigher_iff, hprec]
      omega

theorem popOps_pend1 {pend ops : List String} {op : String}
    (hprec : getPrecedence op = 1)
    (hpend : ∀ o ∈ pend, isOperator o = true)
    (hbar : Barrier 0 ops) : popOps (pend ++ ops) op = (pend, ops) := by
  apply popOps_eq
  · intro o ho
    refine ⟨isOperator_ne_paren (hpend o ho), ?_⟩
    rw [hasHigher_iff, hprec]
    exact isOperator_prec_pos (hpend o ho)
  · rcases hbar with rfl | ⟨r, rfl⟩
    · exact Or.inl rfl
    · exact Or.inr ⟨"(", r, rfl, Or.inl rfl⟩

theorem syRun_op_step {op : String} (hn : isNumber op = false)
    (ho : isOperator op = true) {pend ops : List String}
    (hpop : popOps (pend ++ ops) op = (pend, ops)) (out toks : List String) :
    syRun (op :: toks) out (pend ++ ops) = syRun toks (out ++ pend) (op :: ops) := by
  simp [syRun, syStep_op hn ho, hpop]

theorem pfChain {p1 pend1 q2 : List String} {v₁ v₂ : ℚ} (op : String)
    (ho : isOperator op = true)
    (h1 : ∀ st, pfRun (p1 ++ pend1) st = some (v₁ :: st))
    (h2 : ∀ st, pfRun q2 st = some (v₂ :: st)) (st : List ℚ) :
    pfRun ((p1 ++ pend1 ++ q2) ++ [op]) st = some (applyOp op v₁ v₂ :: st) := by
  rw [show (p1 ++ pend1 ++ q2) ++ [op] = (p1 ++ pend1) ++ (q2 ++ [op]) from by simp]
  rw [pfRun_append, h1]
  show pfRun (q2 ++ [op]) (v₁ :: st) = some (applyOp op v₁ v₂ :: st)
  rw [pfRun_append, h2]
  show pfRun [op] (v₂ :: v₁ :: st) = some (applyOp op v₁ v₂ :: st)
  simp [pfRun, pfStep, ho]

/-- Simulation of the grammar by the shunting-yard machine: processing the
tokens of a phrase from any state whose operator stack satisfies the
phrase's barrier appends the phrase's postfix rendering to the output,
except for a pending tail of operators left on the stack; the rendering
together with the pending tail evaluates to the phrase's value on any
stack. -/
theorem synSim {lvl : ℕ} {ts : List String} {v : ℚ} (h : Syn lvl ts v) :
    ∀ (out ops rest : List String), Barrier lvl ops →
    ∃ p pend, PendOK lvl pend ∧
      (∀ st, pfRun (p ++ pend) st = some (v :: st)) ∧
      syRun (ts ++ rest) out ops = syRun rest (out ++ p) (pend ++ ops) := by
  induction h with
  | num s v hp =>
    intro out ops rest _
    refine ⟨[s], [], rfl, ?_, ?_⟩
    · intro st
      simp [pfRun, pfStep, isNumber_not_operator hp, hp]
    · have hnum : isNumber s = true := by simp [isNumber, hp]
      simp [syRun, syStep_num hnum]
  | @paren ts v hE ihE =>
    intro out ops rest _
    obtain ⟨p, pend, hpend, hpf, heq⟩ :=
      ihE out ("(" :: ops) (")" :: rest) (Or.inr ⟨ops, rfl⟩)
    have hops : ∀ o ∈ pend, o ≠ "(" := fun o ho => isOperator_ne_paren (hpend o ho)
    refine ⟨p ++ pend, [], rfl, ?_, ?_⟩
    · intro st
      simpa using hpf st
    · rw [show ("(" :: ts ++ [")"]) ++ rest = "(" :: (ts ++ (")" :: rest)) from by simp]
      rw [show syRun ("(" :: (ts ++ (")" :: rest))) out ops
            = syRun (ts ++ (")" :: rest)) out ("(" :: ops) from by
        simp [syRun, syStep_lparen]]
      rw [heq]
      rw [show syRun (")" :: rest) (out ++ p) (pend ++ "(" :: ops)
            = syRun rest (out ++ p ++ pend) ops from by
        simp [syRun, syStep_rparen, popParen_eq hops]]
      simp
  | tf h ih =>
    intro out ops rest _
    obtain ⟨p, pend, hpend, hpf, heq⟩ := ih out ops rest trivial
    have hnil : pend = [] := hpend
    subst hnil
    exact ⟨p, [], fun o ho => absurd ho (List.not_mem_nil o), hpf, heq⟩
  | et h ih =>
    intro out ops rest hbar
    have hbar1 : Barrier 1 ops := by
      rcases hbar with rfl | ⟨r, rfl⟩
      · exact Or.inl rfl
      · exact Or.inr ⟨"(", r, rfl, by decide⟩
    obtain ⟨p, pend, hpend, hpf, heq⟩ := ih out ops rest hbar1
    exact ⟨p, pend, fun o ho => (hpend o ho).1, hpf, heq⟩
  | @mul ts₁ ts₂ v₁ v₂ h1 h2 ih1 ih2 =>
    intro out ops rest hbar
    obtain ⟨p1, pend1, hpend1, hpf1, heq1⟩ := ih1 out ops ("*" :: (ts₂ ++ rest)) hbar
    have hpop : popOps (pend1 ++ ops) "*" = (pend1, ops) :=
      popOps_pend2 (by decide) hpend1 hbar
    obtain ⟨p2, pend2, hpend2, hpf2, heq2⟩ :=
      ih2 (out ++ p1 ++ pend1) ("*" :: ops) rest trivial
    have hnil : pend2 = [] := hpend2
    subst hnil
    refine ⟨p1 ++ pend1 ++ p2, ["*"], ?_, ?_, ?_⟩
    · intro o ho
      have : o = "*" := by simpa using ho
      subst this
      exact ⟨by decide, by decide⟩
    · intro st
      have := pfChain "*" (by decide) hpf1 (fun st2 => by simpa using hpf2 st2) st
      rw [this, applyOp_mul]
    · rw [show (ts₁ ++ "*" :: ts₂) ++ rest = ts₁ ++ ("*" :: (ts₂ ++ rest)) from by simp]
      rw [heq1]
      rw [syRun_op_step (by decide) (by decide) hpop]
      rw [heq2]
      simp
  | @div ts₁ ts₂ v₁ v₂ h1 h2 ih1 ih2 =>
    intro out ops rest hbar
    obtain ⟨p1, pend1, hpend1, hpf1, heq1⟩ := ih1 out ops ("/" :: (ts₂ ++ rest)) hbar
    have hpop : popOps (pend1 ++ ops) "/" = (pend1, ops) :=
      popOps_pend2 (by decide) hpend1 hbar
    obtain ⟨p2, pend2, hpend2, hpf2, heq2⟩ :=
      ih2 (out ++ p1 ++ pend1) ("/" :: ops) rest trivial
    have hnil : pend2 = [] := hpend2
    subst hnil
    refine ⟨p1 ++ pend1 ++ p2, ["/"], ?_, ?_, ?_⟩
    · intro o ho
      have : o = "/" := by simpa using ho
      subst this
      exact ⟨by decide, by decide⟩
    · intro st
      have := pfChain "/" (by decide) hpf1 (fun st2 => by simpa using hpf2 st2) st
      rw [this, applyOp_div]
    · rw [show (ts₁ ++ "/" :: ts₂) ++ rest = ts₁ ++ ("/" :: (ts₂ ++ rest)) from by simp]
      rw [heq1]
      rw [syRun_op_step (by decide) (by decide) hpop]
      rw [heq2]
      simp
  | @add ts₁ ts₂ v₁ v₂ h1 h2 ih1 ih2 =>
    intro out ops rest hbar
    obtain ⟨p1, pend1, hpend1, hpf1, heq1⟩ := ih1 out ops ("+" :: (ts₂ ++ rest)) hbar
    have hpop : popOps (pend1 ++ ops) "+" = (pend1, ops) :=
      popOps_pend1 (by decide) hpend1 hbar
    obtain ⟨p2, pend2, hpend2, hpf2, heq2⟩ :=
      ih2 (out ++ p1 ++ pend1) ("+" :: ops) rest (Or.inr ⟨"+", ops, rfl, by decide⟩)
    refine ⟨p1 ++ pend1 ++ p2, pend2 ++ ["+"], ?_, ?_, ?_⟩
    · intro o ho
      rcases List.mem_append.mp ho with ho | ho
      · exact (hpend2 o ho).1
      · have : o = "+" := by simpa using ho
        subst this
        decide
    · intro st
      have := pfChain "+" (by decide) hpf1 hpf2 st
      rw [show (p1 ++ pend1 ++ p2) ++ (pend2 ++ ["+"])
            = (p1 ++ pend1 ++ (p2 ++ pend2)) ++ ["+"] from by simp]
      rw [this, applyOp_add]
    · rw [show (ts₁ ++ "+" :: ts₂) ++ rest = ts₁ ++ ("+" :: (ts₂ ++ rest)) from by simp]
      rw [heq1]
      rw [syRun_op_step (by decide) (by decide) hpop]
      rw [heq2]
      simp
  | @sub ts₁ ts₂ v₁ v₂ h1 h2 ih1 ih2 =>
    intro out ops rest hbar
    obtain ⟨p1, pend1, hpend1, hpf1, heq1⟩ := ih1 out ops ("-" :: (ts₂ ++ rest)) hbar
    have hpop : popOps (pend1 ++ ops) "-" = (pend1, ops) :=
      popOps_pend1 (by decide) hpend1 hbar
    obtain ⟨p2, pend2, hpend2, hpf2, heq2⟩ :=
      ih2 (out ++ p1 ++ pend1) ("-" :: ops) rest (Or.inr ⟨"-", ops, rfl, by decide⟩)
    refine ⟨p1 ++ pend1 ++ p2, pend2 ++ ["-"], ?_, ?_, ?_⟩
    · intro o ho
      rcases List.mem_append.mp ho with ho | ho
      · exact (hpend2 o ho).1
      · have : o = "-" := by simpa using ho
        subst this
        decide
    · intro st
      have := pfChain "-" (by decide) hpf1 hpf2 st
      rw [show (p1 ++ pend1 ++ p2) ++ (pend2 ++ ["-"])
            = (p1 ++ pend1 ++ (p2 ++ pend2)) ++ ["-"] from by simp]
      rw [this, applyOp_sub]
    · rw [show (ts₁ ++ "-" :: ts₂) ++ rest = ts₁ ++ ("-" :: (ts₂ ++ rest)) from by simp]
      rw [heq1]
      rw [syRun_op_step (by decide) (by decide) hpop]
      rw [heq2]
      simp

/-- C1: for every valid infix token stream — one generated by the
expression grammar over the source's numeric tokens, the four operators
with their stated precedences and left-associativity, and balanced
parentheses — converting it to postfix with the compiler's shunting-yard
conversion and then evaluating the postfix output by standard
left-to-right stack evaluation yields the same numeric value as direct
evaluation of the original infix expression (the value carried by the
grammar derivation). -/
theorem C1_shunting_yard_correct {ts : List String} {v : ℚ} (h : Syn 0 ts v) :
    ∃ p, shuntingYard ts = .ok p ∧ evalPostfix p = some v := by
  obtain ⟨p, pend, hpend, hpf, heq⟩ := synSim h [] [] [] (Or.inl rfl)
  have hops : ∀ o ∈ pend, o ≠ "(" := fun o ho => isOperator_ne_paren (hpend o ho)
  have hrun : syRun ts [] [] = .ok (p, pend) := by
    simpa [syRun] using heq
  refine ⟨p ++ pend, ?_, ?_⟩
  · unfold shuntingYard
    rw [hrun]
    exact syDrain_no_paren p hops
  · unfold evalPostfix
    rw [hpf []]

/-- C1, witness: the derivation of `2 + 2 * 2` evaluates directly to 6,
and the theorem yields postfix output evaluating to 6 as well. -/
theorem C1_witness :
    Syn 0 ["2", "+", "2", "*", "2"] 6 ∧
    ∃ p, shuntingYard ["2", "+", "2", "*", "2"] = .ok p ∧ evalPostfix p = some 6 := by
  have h2 : parseNum "2" = some 2 := by decide
  have hd : Syn 0 ["2", "+", "2", "*", "2"] (2 + 2 * 2 : ℚ) :=
    Syn.add (Syn.et (Syn.tf (Syn.num "2" 2 h2)))
      (Syn.mul (Syn.tf (Syn.num "2" 2 h2)) (Syn.num "2" 2 h2))
  have hv : (2 + 2 * 2 : ℚ) = 6 := by norm_num
  rw [hv] at hd
  exact ⟨hd, C1_shunting_yard_correct hd⟩

/-! ## Formatted results parse as numbers -/

theorem digitChar_isDigit (n : ℕ) : isDigitChar (digitChar n) = true := by
  unfold digitChar
  split <;> decide

theorem mem_natDigitsCore_digits (fuel : ℕ) :
    ∀ (n : ℕ) (c : Char), c ∈ natDigitsCore fuel n → isDigitChar c = true := by
  induction fuel with
  | zero => intro n c h; simp [natDigitsCore] at h
  | succ fuel ih =>
    intro n c h
    unfold natDigitsCore at h
    by_cases hn : n < 10
    · rw [if_pos hn] at h
      have hc : c = digitChar n := by simpa using h
      subst hc
      exact digitChar_isDigit n
    · rw [if_neg hn] at h
      rcases List.mem_append.mp h with h | h
      · exact ih _ c h
      · have hc : c = digitChar (n % 10) := by simpa using h
        subst hc
        exact digitChar_isDigit _

theorem natDigits_ne_nil (n : ℕ) : natDigits n ≠ [] := by
  unfold natDigits natDigitsCore
  by_cases hn : n < 10 <;> simp [hn]

theorem padSix_digits {ds : List Char} (h : ∀ c ∈ ds, isDigitChar c = true) :
    ∀ c ∈ padSix ds, isDigitChar c = true := by
  intro c hc
  rcases List.mem_append.mp hc with hc | hc
  · have : c = '0' := List.eq_of_mem_replicate hc
    subst this; decide
  · exact h c hc

theorem isDigit_ne_dot {c : Char} (h : isDigitChar c = true) : c ≠ '.' := by
  rintro rfl
  exact absurd h (by decide)

theorem isDigit_ne_minus {c : Char} (h : isDigitChar c = true) : c ≠ '-' := by
  rintro rfl
  exact absurd h (by decide)

theorem takeWhile_append_dot (B : List Char) :
    ∀ (A : List Char), (∀ c ∈ A, isDigitChar c = true) →
    (A ++ '.' :: B).takeWhile (fun c => c ≠ '.') = A ∧
    (A ++ '.' :: B).dropWhile (fun c => c ≠ '.') = '.' :: B := by
  intro A
  induction A with
  | nil => intro _; constructor <;> simp
  | cons a A ih =>
    intro h
    have ha : a ≠ '.' := isDigit_ne_dot (h a (List.mem_cons_self a A))
    have ihA := ih (fun c hc => h c (List.mem_cons_of_mem a hc))
    have hpa : (decide (a = '.')) = false := by simp [ha]
    constructor
    · rw [List.cons_append, List.takeWhile_cons]
      have h1 := ihA.1
      simp only [decide_not] at h1 ⊢
      simp [hpa, h1]
    · rw [List.cons_append, List.dropWhile_cons]
      have h2 := ihA.2
      simp only [decide_not] at h2 ⊢
      simp [hpa, h2]

theorem allDigits_iff {A : List Char} :
    allDigits A = true ↔ ∀ c ∈ A, isDigitChar c = true := by
  simp [allDigits, List.all_eq_true]

theorem parseNumCore_digitsDot {A B : List Char}
    (hA : ∀ c ∈ A, isDigitChar c = true) (hB : ∀ c ∈ B, isDigitChar c = true)
    (hAne : A ≠ []) : (parseNumCore (A ++ '.' :: B)).isSome = true := by
  unfold parseNumCore
  obtain ⟨ht, hd⟩ := takeWhile_append_dot B A hA
  rw [hd]
  simp only [ht]
  rw [if_pos]
  · rfl
  · simp [allDigits_iff.mpr hA, allDigits_iff.mpr hB, hAne]

theorem parseNum_mk_of_ne_minus {a : Char} (l : List Char) (h : a ≠ '-') :
    parseNum (String.mk (a :: l)) = parseNumCore (a :: l) := by
  unfold parseNum
  split
  · next heq =>
    exfalso
    have : a = '-' := by
      have hd : (String.mk (a :: l)).data = a :: l := rfl
      rw [hd] at heq
      exact (List.cons_eq_cons.mp heq.symm).1.symm
    exact h this
  · next heq => rfl

theorem formatRat_isNumber (r : ℚ) : isNumber (formatRat r) = true := by
  unfold formatRat
  have hA : ∀ c ∈ natDigits ((ratRound6 r).natAbs / 1000000), isDigitChar c = true :=
    fun c hc => mem_natDigitsCore_digits _ _ c hc
  have hB : ∀ c ∈ natDigits ((ratRound6 r).natAbs % 1000000), isDigitChar c = true :=
    fun c hc => mem_natDigitsCore_digits _ _ c hc
  by_cases hn : ratRound6 r < 0
  · simp only [if_pos hn]
    show (parseNum (String.mk ('-' :: _))).isSome = true
    rw [show parseNum (String.mk ('-' ::
        (natDigits ((ratRound6 r).natAbs / 1000000) ++
          '.' :: padSix (natDigits ((ratRound6 r).natAbs % 1000000))))) =
      (parseNumCore (natDigits ((ratRound6 r).natAbs / 1000000) ++
          '.' :: padSix (natDigits ((ratRound6 r).natAbs % 1000000)))).map (fun q => -q)
      from rfl]
    rw [Option.isSome_map']
    exact parseNumCore_digitsDot hA (padSix_digits hB) (natDigits_ne_nil _)
  · simp only [if_neg hn]
    show (parseNum (String.mk _)).isSome = true
    rcases hne : natDigits ((ratRound6 r).natAbs / 1000000) with _ | ⟨a, A⟩
    · exact absurd hne (natDigits_ne_nil _)
    · have haD : isDigitChar a = true := by
        apply hA
        rw [hne]
        exact List.mem_cons_self a A
      rw [show ((a :: A) ++ '.' :: padSix (natDigits ((ratRound6 r).natAbs % 1000000)))
          = a :: (A ++ '.' :: padSix (natDigits ((ratRound6 r).natAbs % 1000000)))
        from List.cons_append a A _]
      rw [parseNum_mk_of_ne_minus _ (isDigit_ne_minus haD)]
      rw [← List.cons_append]
      apply parseNumCore_digitsDot
      · intro c hc
        apply hA
        rw [hne]
        exact hc
      · exact padSix_digits hB
      · simp

/-! ## The expression-status scan -/

theorem scan_fst_iff (e : ℕ) (rev : List (ℕ × List ℕ)) (l : List (ℕ × Task)) :
    ∀ acc, (scanTasks e rev l acc).1 = true ↔
      ∀ p ∈ l, p.2.expressionId = e → p.2.result.isSome = true := by
  induction l with
  | nil => intro acc; simp [scanTasks]
  | cons p rest ih =>
    intro acc
    obtain ⟨k, t⟩ := p
    by_cases he : t.expressionId = e
    · cases hr : t.result with
      | none => simp [scanTasks, he, hr]
      | some r => simp [scanTasks, he, hr, ih]
    · simp [scanTasks, he, ih]

theorem scan_snd_some (e : ℕ) (rev : List (ℕ × List ℕ)) (l : List (ℕ × Task)) :
    ∀ acc r, (scanTasks e rev l acc).2 = some r →
      (∃ p ∈ l, p.2.expressionId = e ∧ ((rev.lookup p.1).getD []).isEmpty = true ∧
        p.2.result = some r) ∨ acc = some r := by
  induction l with
  | nil => intro acc r h; simp [scanTasks] at h; exact Or.inr h
  | cons p rest ih =>
    intro acc r h
    obtain ⟨k, t⟩ := p
    by_cases he : t.expressionId = e
    · cases hr : t.result with
      | none =>
        simp only [scanTasks, he, if_true, hr] at h
        exact Or.inr h
      | some r2 =>
        simp only [scanTasks, he, if_true, hr] at h
        rcases ih _ r h with ⟨q, hq, h1, h2, h3⟩ | hacc
        · exact Or.inl ⟨q, List.mem_cons_of_mem _ hq, h1, h2, h3⟩
        · by_cases hemp : ((rev.lookup k).getD []).isEmpty = true
          · rw [if_pos hemp] at hacc
            exact Or.inl ⟨(k, t), List.mem_cons_self _ _, he, hemp, by rw [hr]; exact hacc⟩
          · rw [if_neg hemp] at hacc
            exact Or.inr hacc
    · simp only [scanTasks, he, if_false] at h
      rcases ih _ r h with ⟨q, hq, h1, h2, h3⟩ | hacc
      · exact Or.inl ⟨q, List.mem_cons_of_mem _ hq, h1, h2, h3⟩
      · exact Or.inr hacc

theorem scan_snd_acc_isSome (e : ℕ) (rev : List (ℕ × List ℕ)) (l : List (ℕ × Task)) :
    ∀ acc, acc.isSome = true → ((scanTasks e rev l acc).2).isSome = true := by
  induction l with
  | nil => intro acc h; simpa [scanTasks] using h
  | cons p rest ih =>
    intro acc h
    obtain ⟨k, t⟩ := p
    by_cases he : t.expressionId = e
    · cases hr : t.result with
      | none => simpa [scanTasks, he, hr] using h
      | some r2 =>
        simp only [scanTasks, he, if_true, hr]
        apply ih
        by_cases hemp : ((rev.lookup k).getD []).isEmpty = true
        · simp [hemp, hr]
        · simpa [hemp] using h
    · simp only [scanTasks, he, if_false]
      exact ih acc h

theorem scan_snd_isSome (e : ℕ) (rev : List (ℕ × List ℕ)) (l : List (ℕ × Task)) :
    ∀ acc, (scanTasks e rev l acc).1 = true →
    ∀ m t, (m, t) ∈ l → t.expressionId = e → ((rev.lookup m).getD []).isEmpty = true →
    ((scanTasks e rev l acc).2).isSome = true := by
  induction l with
  | nil => intro acc _ m t hmem; simp at hmem
  | cons p rest ih =>
    intro acc hfst m t hmem he hemp
    obtain ⟨k, t0⟩ := p
    rcases List.mem_cons.mp hmem with heq | hmem2
    · cases heq
      cases hr : t.result with
      | none => simp [scanTasks, he, hr] at hfst
      | some r2 =>
        simp only [scanTasks, he, if_true, hr, hemp]
        apply scan_snd_acc_isSome
        simp [hr]
    · by_cases he0 : t0.expressionId = e
      · cases hr : t0.result with
        | none => simp [scanTasks, he0, hr] at hfst
        | some r2 =>
          simp only [scanTasks, he0, if_true, hr] at hfst ⊢
          exact ih _ hfst m t hmem2 he hemp
      · simp only [scanTasks, he0, if_false] at hfst ⊢
        exact ih _ hfst m t hmem2 he hemp

/-! ## Root tasks exist -/

theorem list_exists_max (l : List ℕ) (hne : l ≠ []) : ∃ m ∈ l, ∀ x ∈ l, x ≤ m := by
  induction l with
  | nil => cases hne rfl
  | cons a l ih =>
    cases l with
    | nil => exact ⟨a, by simp, by simp⟩
    | cons b l2 =>
      obtain ⟨m, hm, hmax⟩ := ih (by simp)
      by_cases h : a ≤ m
      · refine ⟨m, List.mem_cons_of_mem a hm, ?_⟩
        intro x hx
        rcases List.mem_cons.mp hx with rfl | hx
        · exact h
        · exact hmax x hx
      · refine ⟨a, List.mem_cons_self a _, ?_⟩
        intro x hx
        rcases List.mem_cons.mp hx with rfl | hx
        · exact le_refl x
        · exact le_trans (hmax x hx) (le_of_not_le h)

theorem wf_root_exists {s : Service}
    (hnd : (s.tasks.map Prod.fst).Nodup)
    (hedge : ∀ d k, k ∈ revDepsOf s d ↔ ∃ t, s.tasks.lookup k = some t ∧ d ∈ t.dependencies)
    (hdlt : ∀ k t, s.tasks.lookup k = some t → ∀ d ∈ t.dependencies, d < k)
    (hdse : ∀ k t, s.tasks.lookup k = some t → ∀ d ∈ t.dependencies,
      ∃ u, s.tasks.lookup d = some u ∧ u.expressionId = t.expressionId)
    (E : ℕ) {m0 : ℕ} {t0 : Task}
    (h0 : s.tasks.lookup m0 = some t0) (hE : t0.expressionId = E) :
    ∃ m t, s.tasks.lookup m = some t ∧ t.expressionId = E ∧ revDepsOf s m = [] := by
  have hm0ks : m0 ∈ (s.tasks.filter (fun p => p.2.expressionId == E)).map Prod.fst := by
    refine List.mem_map.mpr ⟨(m0, t0), ?_, rfl⟩
    rw [List.mem_filter]
    exact ⟨mem_of_lookup h0, by simpa using hE⟩
  obtain ⟨m, hmem, hmax⟩ :=
    list_exists_max _ (List.ne_nil_of_mem hm0ks)
  obtain ⟨⟨m2, t⟩, hpm, hfst⟩ := List.mem_map.mp hmem
  cases hfst
  rw [List.mem_filter] at hpm
  have hlk : s.tasks.lookup m2 = some t := lookup_eq_of_mem hnd hpm.1
  have htE : t.expressionId = E := by simpa using hpm.2
  refine ⟨m2, t, hlk, htE, ?_⟩
  by_contra hne
  obtain ⟨k, hk⟩ := List.exists_mem_of_ne_nil _ hne
  obtain ⟨u, hu, hdep⟩ := (hedge m2 k).mp hk
  have hlt : m2 < k := hdlt k u hu m2 hdep
  obtain ⟨u2, hu2, hue⟩ := hdse k u hu m2 hdep
  have hu2t : u2 = t := by rw [hu2] at hlk; exact (Option.some.injEq _ _).mp hlk
  have hkks : k ∈ (s.tasks.filter (fun p => p.2.expressionId == E)).map Prod.fst := by
    refine List.mem_map.mpr ⟨(k, u), ?_, rfl⟩
    rw [List.mem_filter]
    refine ⟨mem_of_lookup hu, ?_⟩
    have : u.expressionId = E := by rw [← hue, hu2t, htE]
    simpa using this
  exact absurd (hmax k hkks) (not_le.mpr hlt)

/-! ## The dependency-update fold -/

theorem contains_iff {a : ℕ} {l : List ℕ} : l.contains a = true ↔ a ∈ l := by
  simp

theorem substArg_idem (tid : ℕ) (r : ℚ) (a : Arg) :
    substArg tid r (substArg tid r a) = substArg tid r a := by
  by_cases h : a = .tid tid
  · subst h
    simp [substArg]
  · simp [substArg, h]

theorem substArg_deps (tid : ℕ) (r : ℚ) (t : Task) :
    (substTask tid r t).dependencies = t.dependencies := rfl

theorem substTask_idem (tid : ℕ) (r : ℚ) (t : Task) :
    substTask tid r (substTask tid r t) = substTask tid r t := by
  simp [substTask, substArg_idem]

theorem updDepStep_fields (tid : ℕ) (r : ℚ) (acc : Service) (d : ℕ) :
    (updDepStep tid r acc d).completedTasks = acc.completedTasks ∧
    (updDepStep tid r acc d).expressions = acc.expressions ∧
    (updDepStep tid r acc d).reverseDependencies = acc.reverseDependencies ∧
    (updDepStep tid r acc d).taskIDCounter = acc.taskIDCounter ∧
    (updDepStep tid r acc d).exprCounter = acc.exprCounter := by
  unfold updDepStep
  cases acc.tasks.lookup d
  · exact ⟨rfl, rfl, rfl, rfl, rfl⟩
  · dsimp only
    split <;> exact ⟨rfl, rfl, rfl, rfl, rfl⟩

theorem updFold_fields (tid : ℕ) (r : ℚ) (l : List ℕ) :
    ∀ acc : Service,
    (l.foldl (updDepStep tid r) acc).completedTasks = acc.completedTasks ∧
    (l.foldl (updDepStep tid r) acc).expressions = acc.expressions ∧
    (l.foldl (updDepStep tid r) acc).reverseDependencies = acc.reverseDependencies ∧
    (l.foldl (updDepStep tid r) acc).taskIDCounter = acc.taskIDCounter ∧
    (l.foldl (updDepStep tid r) acc).exprCounter = acc.exprCounter := by
  induction l with
  | nil => intro acc; exact ⟨rfl, rfl, rfl, rfl, rfl⟩
  | cons d l ih =>
    intro acc
    rw [List.foldl_cons]
    obtain ⟨i1, i2, i3, i4, i5⟩ := ih (updDepStep tid r acc d)
    obtain ⟨s1, s2, s3, s4, s5⟩ := updDepStep_fields tid r acc d
    exact ⟨i1.trans s1, i2.trans s2, i3.trans s3, i4.trans s4, i5.trans s5⟩

theorem updDepStep_tasks (tid : ℕ) (r : ℚ) (acc : Service) (d : ℕ) (k : ℕ) :
    (updDepStep tid r acc d).tasks.lookup k =
      if k = d then (acc.tasks.lookup d).map (substTask tid r)
      else acc.tasks.lookup k := by
  unfold updDepStep
  cases hl : acc.tasks.lookup d with
  | none =>
    dsimp only
    by_cases h2 : k = d
    · subst h2; simp [hl]
    · simp [h2]
  | some t =>
    dsimp only
    split <;> {
      by_cases h2 : k = d
      · subst h2
        rw [lookup_upsert_self]
        simp [hl]
      · rw [lookup_upsert_ne _ _ h2, if_neg h2]
    }

theorem updFold_tasks (tid : ℕ) (r : ℚ) (l : List ℕ) :
    ∀ (acc : Service) (k : ℕ),
    (l.foldl (updDepStep tid r) acc).tasks.lookup k =
      if k ∈ l then (acc.tasks.lookup k).map (substTask tid r)
      else acc.tasks.lookup k := by
  induction l with
  | nil => intro acc k; simp
  | cons d l ih =>
    intro acc k
    rw [List.foldl_cons, ih]
    by_cases hkd : k = d
    · subst hkd
      by_cases hkl : k ∈ l
      · rw [if_pos hkl, if_pos (List.mem_cons_self k l)]
        rw [updDepStep_tasks, if_pos rfl]
        cases acc.tasks.lookup k with
        | none => rfl
        | some t => simp [substTask_idem]
      · rw [if_neg hkl, if_pos (List.mem_cons_self k l)]
        rw [updDepStep_tasks, if_pos rfl]
    · have hmem : (k ∈ d :: l) ↔ (k ∈ l) := by
        simp [List.mem_cons, hkd]
      rw [updDepStep_tasks, if_neg hkd]
      by_cases hkl : k ∈ l
      · rw [if_pos hkl, if_pos (hmem.mpr hkl)]
      · rw [if_neg hkl, if_neg (fun h => hkl (hmem.mp h))]

theorem updDepStep_ready_mono (tid : ℕ) (r : ℚ) (acc : Service) (d : ℕ) :
    ∀ a ∈ acc.readyTasks, a ∈ (updDepStep tid r acc d).readyTasks := by
  intro a ha
  unfold updDepStep
  cases acc.tasks.lookup d
  · exact ha
  · dsimp only
    split
    · exact mem_insertSet.mpr (Or.inr ha)
    · exact ha

theorem updFold_ready_mono (tid : ℕ) (r : ℚ) (l : List ℕ) :
    ∀ (acc : Service), ∀ a ∈ acc.readyTasks, a ∈ (l.foldl (updDepStep tid r) acc).readyTasks := by
  induction l with
  | nil => intro acc a ha; exact ha
  | cons d l ih =>
    intro acc a ha
    rw [List.foldl_cons]
    exact ih _ a (updDepStep_ready_mono tid r acc d a ha)

theorem updFold_ready_insert (tid : ℕ) (r : ℚ) (l : List ℕ) :
    ∀ (acc : Service) (d : ℕ), d ∈ l →
    (∃ t, acc.tasks.lookup d = some t ∧ ∀ m ∈ t.dependencies, m ∈ acc.completedTasks) →
    d ∈ (l.foldl (updDepStep tid r) acc).readyTasks := by
  induction l with
  | nil => intro acc d hd; simp at hd
  | cons d0 l ih =>
    intro acc d hd ht
    obtain ⟨t, hlk, hdeps⟩ := ht
    rw [List.foldl_cons]
    rcases List.mem_cons.mp hd with rfl | hd2
    · have hmem : d ∈ (updDepStep tid r acc d).readyTasks := by
        unfold updDepStep
        rw [hlk]
        dsimp only
        rw [if_pos]
        · exact mem_insertSet.mpr (Or.inl rfl)
        · rw [List.all_eq_true]
          intro m hm
          rw [substArg_deps] at hm
          exact contains_iff.mpr (hdeps m hm)
      exact updFold_ready_mono tid r l _ d hmem
    · apply ih _ d hd2
      rw [updDepStep_tasks]
      by_cases hdd : d = d0
      · subst hdd
        rw [if_pos rfl, hlk]
        refine ⟨substTask tid r t, rfl, ?_⟩
        intro m hm
        rw [substArg_deps] at hm
        have hc := (updDepStep_fields tid r acc d).1
        rw [hc]
        exact hdeps m hm
      · rw [if_neg hdd]
        refine ⟨t, hlk, ?_⟩
        intro m hm
        have hc := (updDepStep_fields tid r acc d0).1
        rw [hc]
        exact hdeps m hm

theorem updDepStep_ready_mem (tid : ℕ) (r : ℚ) (acc : Service) (d : ℕ) :
    ∀ a ∈ (updDepStep tid r acc d).readyTasks,
    a ∈ acc.readyTasks ∨ (a = d ∧ ∃ t, acc.tasks.lookup d = some t ∧
      ∀ m ∈ t.dependencies, m ∈ acc.completedTasks) := by
  intro a ha
  unfold updDepStep at ha
  cases hl : acc.tasks.lookup d with
  | none => rw [hl] at ha; exact Or.inl ha
  | some t =>
    rw [hl] at ha
    dsimp only at ha
    by_cases hcond : ((substTask tid r t).dependencies.all
        (fun m => acc.completedTasks.contains m)) = true
    · rw [if_pos hcond] at ha
      rcases mem_insertSet.mp ha with rfl | ha2
      · refine Or.inr ⟨rfl, t, rfl, ?_⟩
        intro m hm
        rw [List.all_eq_true] at hcond
        have := hcond m (by rw [substArg_deps]; exact hm)
        exact contains_iff.mp this
      · exact Or.inl ha2
    · rw [if_neg hcond] at ha
      exact Or.inl ha

theorem updFold_ready_mem (tid : ℕ) (r : ℚ) (l : List ℕ) :
    ∀ (acc : Service) (a : ℕ), a ∈ (l.foldl (updDepStep tid r) acc).readyTasks →
    a ∈ acc.readyTasks ∨ (a ∈ l ∧ ∃ t, acc.tasks.lookup a = some t ∧
      ∀ m ∈ t.dependencies, m ∈ acc.completedTasks) := by
  induction l with
  | nil => intro acc a h; exact Or.inl h
  | cons d0 l ih =>
    intro acc a h
    rw [List.foldl_cons] at h
    rcases ih _ a h with h2 | ⟨hal, t, hlk, hdeps⟩
    · rcases updDepStep_ready_mem tid r acc d0 a h2 with h3 | ⟨rfl, t, hlk, hdeps⟩
      · exact Or.inl h3
      · exact Or.inr ⟨List.mem_cons_self a l, t, hlk, hdeps⟩
    · rw [updDepStep_tasks] at hlk
      have hcomp := (updDepStep_fields tid r acc d0).1
      by_cases had : a = d0
      · subst had
        rw [if_pos rfl] at hlk
        cases hl0 : acc.tasks.lookup a with
        | none => rw [hl0] at hlk; cases hlk
        | some t0 =>
          rw [hl0] at hlk
          refine Or.inr ⟨List.mem_cons_self a l, t0, rfl, ?_⟩
          intro m hm
          have ht0 : t = substTask tid r t0 := by
            simpa using hlk.symm
          rw [hcomp] at hdeps
          apply hdeps
          rw [ht0, substArg_deps]
          exact hm
      · rw [if_neg had] at hlk
        refine Or.inr ⟨List.mem_cons_of_mem d0 hal, t, hlk, ?_⟩
        intro m hm
        rw [hcomp] at hdeps
        exact hdeps m hm

theorem updDepStep_ready_nodup (tid : ℕ) (r : ℚ) (acc : Service) (d : ℕ)
    (h : acc.readyTasks.Nodup) : (updDepStep tid r acc d).readyTasks.Nodup := by
  unfold updDepStep
  cases acc.tasks.lookup d
  · exact h
  · dsimp only
    split
    · exact nodup_insertSet h
    · exact h

theorem updFold_ready_nodup (tid : ℕ) (r : ℚ) (l : List ℕ) :
    ∀ (acc : Service), acc.readyTasks.Nodup →
    (l.foldl (updDepStep tid r) acc).readyTasks.Nodup := by
  induction l with
  | nil => intro acc h; exact h
  | cons d l ih =>
    intro acc h
    rw [List.foldl_cons]
    exact ih _ (updDepStep_ready_nodup tid r acc d h)

theorem updDepStep_keysNodup (tid : ℕ) (r : ℚ) (acc : Service) (d : ℕ)
    (h : (acc.tasks.map Prod.fst).Nodup) :
    ((updDepStep tid r acc d).tasks.map Prod.fst).Nodup := by
  unfold updDepStep
  cases acc.tasks.lookup d
  · exact h
  · dsimp only
    split <;> exact keys_nodup_upsert h

theorem updFold_keysNodup (tid : ℕ) (r : ℚ) (l : List ℕ) :
    ∀ (acc : Service), (acc.tasks.map Prod.fst).Nodup →
    ((l.foldl (updDepStep tid r) acc).tasks.map Prod.fst).Nodup := by
  induction l with
  | nil => intro acc h; exact h
  | cons d l ih =>
    intro acc h
    rw [List.foldl_cons]
    exact ih _ (updDepStep_keysNodup tid r acc d h)

/-! ## Ready-marking, pull and status-update characterizations -/

theorem markReady_mono (s : Service) (e : ℕ) (entries : List (ℕ × Task)) :
    ∀ (acc : List ℕ), ∀ a ∈ acc, a ∈ entries.foldl (markReadyStep s e) acc := by
  induction entries with
  | nil => intro acc a ha; exact ha
  | cons p rest ih =>
    intro acc a ha
    rw [List.foldl_cons]
    apply ih
    unfold markReadyStep
    split
    · exact mem_insertSet.mpr (Or.inr ha)
    · exact ha

theorem markReady_insert (s : Service) (e : ℕ) (entries : List (ℕ × Task)) :
    ∀ (acc : List ℕ) (a : ℕ) (t : Task), (a, t) ∈ entries → t.expressionId = e →
    argIsTaskID s t.arg1 = false → argIsTaskID s t.arg2 = false →
    a ∈ entries.foldl (markReadyStep s e) acc := by
  induction entries with
  | nil => intro acc a t h; simp at h
  | cons p rest ih =>
    intro acc a t hmem he h1 h2
    rw [List.foldl_cons]
    rcases List.mem_cons.mp hmem with heq | hmem2
    · subst heq
      apply markReady_mono
      unfold markReadyStep
      rw [if_pos ⟨he, h1, h2⟩]
      exact mem_insertSet.mpr (Or.inl rfl)
    · exact ih _ a t hmem2 he h1 h2

theorem markReady_mem (s : Service) (e : ℕ) (entries : List (ℕ × Task)) :
    ∀ (acc : List ℕ) (a : ℕ), a ∈ entries.foldl (markReadyStep s e) acc →
    a ∈ acc ∨ ∃ t, (a, t) ∈ entries ∧ t.expressionId = e ∧
      argIsTaskID s t.arg1 = false ∧ argIsTaskID s t.arg2 = false := by
  induction entries with
  | nil => intro acc a h; exact Or.inl h
  | cons p rest ih =>
    intro acc a h
    obtain ⟨k, t⟩ := p
    rw [List.foldl_cons] at h
    rcases ih _ a h with h2 | ⟨t2, hmem, hc⟩
    · unfold markReadyStep at h2
      by_cases hcond : (k, t).2.expressionId = e ∧ argIsTaskID s (k, t).2.arg1 = false ∧
          argIsTaskID s (k, t).2.arg2 = false
      · rw [if_pos hcond] at h2
        rcases mem_insertSet.mp h2 with rfl | h3
        · exact Or.inr ⟨t, List.mem_cons_self _ _, hcond⟩
        · exact Or.inl h3
      · rw [if_neg hcond] at h2
        exact Or.inl h2
    · exact Or.inr ⟨t2, List.mem_cons_of_mem _ hmem, hc⟩

theorem markReady_nodup (s : Service) (e : ℕ) (entries : List (ℕ × Task)) :
    ∀ (acc : List ℕ), acc.Nodup → (entries.foldl (markReadyStep s e) acc).Nodup := by
  induction entries with
  | nil => intro acc h; exact h
  | cons p rest ih =>
    intro acc h
    rw [List.foldl_cons]
    apply ih
    unfold markReadyStep
    split
    · exact nodup_insertSet h
    · exact h

theorem getTask_cases (s : Service) (c : ℕ) :
    ((getTask s c).1 = none ∧ (getTask s c).2 = s) ∨
    ∃ t, c ∈ s.readyTasks ∧ s.tasks.lookup c = some t ∧
      (getTask s c).1 = some { t with status := "processing" } ∧
      (getTask s c).2 =
        { s with
            tasks := upsert c { t with status := "processing" } s.tasks,
            readyTasks := s.readyTasks.erase c } := by
  unfold getTask
  by_cases hm : c ∈ s.readyTasks
  · rw [if_pos hm]
    cases hl : s.tasks.lookup c with
    | none => exact Or.inl ⟨rfl, rfl⟩
    | some t => exact Or.inr ⟨t, hm, rfl, rfl, rfl⟩
  · rw [if_neg hm]
    exact Or.inl ⟨rfl, rfl⟩

theorem updExpr_fields (s : Service) (e : ℕ) :
    (updateExpressionStatus s e).tasks = s.tasks ∧
    (updateExpressionStatus s e).completedTasks = s.completedTasks ∧
    (updateExpressionStatus s e).readyTasks = s.readyTasks ∧
    (updateExpressionStatus s e).reverseDependencies = s.reverseDependencies ∧
    (updateExpressionStatus s e).taskIDCounter = s.taskIDCounter ∧
    (updateExpressionStatus s e).exprCounter = s.exprCounter := by
  unfold updateExpressionStatus
  cases s.expressions.lookup e
  · exact ⟨rfl, rfl, rfl, rfl, rfl, rfl⟩
  · dsimp only
    split <;> exact ⟨rfl, rfl, rfl, rfl, rfl, rfl⟩

theorem updExpr_char (s : Service) (e : ℕ) :
    (s.expressions.lookup e = none ∧ updateExpressionStatus s e = s) ∨
    (∃ ed, s.expressions.lookup e = some ed ∧
      (scanTasks e s.reverseDependencies s.tasks none).1 = false ∧
      updateExpressionStatus s e = s) ∨
    (∃ ed, s.expressions.lookup e = some ed ∧
      (scanTasks e s.reverseDependencies s.tasks none).1 = true ∧
      (scanTasks e s.reverseDependencies s.tasks none).2 = none ∧
      updateExpressionStatus s e = s) ∨
    (∃ ed r, s.expressions.lookup e = some ed ∧
      (scanTasks e s.reverseDependencies s.tasks none).1 = true ∧
      (scanTasks e s.reverseDependencies s.tasks none).2 = some r ∧
      updateExpressionStatus s e =
        { s with
            expressions :=
              upsert e { ed with status := .completed, result := some r } s.expressions }) := by
  unfold updateExpressionStatus
  cases hl : s.expressions.lookup e with
  | none => exact Or.inl ⟨rfl, rfl⟩
  | some ed =>
    dsimp only
    cases hb : (scanTasks e s.reverseDependencies s.tasks none).1 with
    | false =>
      cases ho : (scanTasks e s.reverseDependencies s.tasks none).2 <;>
        exact Or.inr (Or.inl ⟨ed, rfl, rfl, rfl⟩)
    | true =>
      cases ho : (scanTasks e s.reverseDependencies s.tasks none).2 with
      | none => exact Or.inr (Or.inr (Or.inl ⟨ed, rfl, rfl, rfl, rfl⟩))
      | some r => exact Or.inr (Or.inr (Or.inr ⟨ed, r, rfl, rfl, rfl, rfl⟩))

theorem setExprStatus_fields (s : Service) (e : ℕ) (st : ExpressionStatus) :
    (setExprStatus s e st).tasks = s.tasks ∧
    (setExprStatus s e st).completedTasks = s.completedTasks ∧
    (setExprStatus s e st).readyTasks = s.readyTasks ∧
    (setExprStatus s e st).reverseDependencies = s.reverseDependencies ∧
    (setExprStatus s e st).taskIDCounter = s.taskIDCounter ∧
    (setExprStatus s e st).exprCounter = s.exprCounter := by
  unfold setExprStatus
  cases s.expressions.lookup e <;> exact ⟨rfl, rfl, rfl, rfl, rfl, rfl⟩

theorem setExprStatus_lookup (s : Service) (e : ℕ) (st : ExpressionStatus) (k : ℕ) :
    (setExprStatus s e st).expressions.lookup k =
      if k = e then (s.expressions.lookup e).map (fun ed => { ed with status := st })
      else s.expressions.lookup k := by
  unfold setExprStatus
  cases hl : s.expressions.lookup e with
  | none =>
    by_cases hk : k = e
    · subst hk; simp [hl]
    · simp [hk]
  | some ed =>
    dsimp only
    by_cases hk : k = e
    · subst hk
      rw [lookup_upsert_self, if_pos rfl]
      rfl
    · rw [lookup_upsert_ne _ _ hk, if_neg hk]

/-- Completion data is stable under task-map changes that preserve each
task's owning expression and result, and under unchanged
reverse-dependency reads. -/
theorem exprDone_congr {s s2 : Service} (k : ℕ) (e : ExpressionData)
    (hpt : ∀ m, (s2.tasks.lookup m = none ∧ s.tasks.lookup m = none) ∨
      ∃ t t2, s.tasks.lookup m = some t ∧ s2.tasks.lookup m = some t2 ∧
        t2.expressionId = t.expressionId ∧ (t.expressionId = k → t2.result = t.result))
    (hrev : ∀ m, revDepsOf s2 m = revDepsOf s m) :
    ExprDone s2 k e ↔ ExprDone s k e := by
  unfold ExprDone
  constructor
  · rintro ⟨h1, m, t, hlk, he, hroot, hres⟩
    constructor
    · intro m2 t2 hlk2 he2
      rcases hpt m2 with ⟨hn, hn2⟩ | ⟨u, u2, hu, hu2, hue, hur⟩
      · rw [hn2] at hlk2; cases hlk2
      · rw [hu] at hlk2
        cases hlk2
        have hres2 := h1 m2 u2 hu2 (by rw [hue, he2])
        rw [hur he2] at hres2
        exact hres2
    · rcases hpt m with ⟨hn, hn2⟩ | ⟨u, u2, hu, hu2, hue, hur⟩
      · rw [hn] at hlk; cases hlk
      · rw [hu2] at hlk
        cases hlk
        have huk : u.expressionId = k := by rw [← hue]; exact he
        exact ⟨m, u, hu, huk, by rw [← hrev m, hroot], by rw [hres, hur huk]⟩
  · rintro ⟨h1, m, t, hlk, he, hroot, hres⟩
    constructor
    · intro m2 t2 hlk2 he2
      rcases hpt m2 with ⟨hn, hn2⟩ | ⟨u, u2, hu, hu2, hue, hur⟩
      · rw [hn] at hlk2; cases hlk2
      · rw [hu2] at hlk2
        cases hlk2
        have huk : u.expressionId = k := by rw [← hue]; exact he2
        have hres2 := h1 m2 u hu huk
        rw [← hur huk] at hres2
        exact hres2
    · rcases hpt m with ⟨hn, hn2⟩ | ⟨u, u2, hu, hu2, hue, hur⟩
      · rw [hn2] at hlk; cases hlk
      · rw [hu] at hlk
        cases hlk
        exact ⟨m, u2, hu2, by rw [hue, he], by rw [hrev m, hroot],
          by rw [hres, hur he]⟩

/-! ## Substitution helpers -/

theorem substArg_tok {tid : ℕ} {r : ℚ} {a : Arg} {str : String}
    (h : substArg tid r a = .tok str) : a = .tok str ∨ str = formatRat r := by
  unfold substArg at h
  by_cases ha : a = .tid tid
  · rw [if_pos ha] at h
    right
    cases h
    rfl
  · rw [if_neg ha] at h
    exact Or.inl h

theorem substArg_tid {tid : ℕ} {r : ℚ} {a : Arg} {n : ℕ}
    (h : substArg tid r a = .tid n) : a = .tid n ∧ n ≠ tid := by
  unfold substArg at h
  by_cases ha : a = .tid tid
  · rw [if_pos ha] at h
    cases h
  · rw [if_neg ha] at h
    refine ⟨h, ?_⟩
    rintro rfl
    exact ha h

theorem substArg_tok_keep (tid : ℕ) (r : ℚ) (str : String) :
    substArg tid r (.tok str) = .tok str := by
  simp [substArg]

theorem substArg_tid_keep {tid n : ℕ} (r : ℚ) (h : n ≠ tid) :
    substArg tid r (.tid n) = .tid n := by
  simp [substArg, h]

theorem substArg_self (tid : ℕ) (r : ℚ) :
    substArg tid r (.tid tid) = .tok (formatRat r) := by
  simp [substArg]

theorem numericArg_tok {a : Arg} (h : numericArg a = true) :
    ∃ str, a = .tok str ∧ isNumber str = true := by
  cases a with
  | tok s => exact ⟨s, rfl, h⟩
  | tid n => simp [numericArg] at h

theorem list_isEmpty_eq_nil {α : Type} {l : List α} (h : l.isEmpty = true) : l = [] := by
  cases l with
  | nil => rfl
  | cons a l => simp [List.isEmpty] at h

/-! ## The invariant is preserved by pulls -/

theorem wf_getTask (s : Service) (c : ℕ) (hwf : WF s) : WF (getTask s c).2 := by
  rcases getTask_cases s c with ⟨-, heq⟩ | ⟨t, hready, hlk, -, heq⟩
  · rw [heq]; exact hwf
  · rw [heq]
    have hpt : ∀ m, (upsert c { t with status := "processing" } s.tasks).lookup m
        = if m = c then some { t with status := "processing" } else s.tasks.lookup m := by
      intro m
      by_cases hm : m = c
      · subst hm; rw [lookup_upsert_self, if_pos rfl]
      · rw [lookup_upsert_ne _ _ hm, if_neg hm]
    have hback : ∀ m u, (upsert c { t with status := "processing" } s.tasks).lookup m = some u →
        ∃ u0, s.tasks.lookup m = some u0 ∧ u.id = u0.id ∧
          u.expressionId = u0.expressionId ∧ u.arg1 = u0.arg1 ∧ u.arg2 = u0.arg2 ∧
          u.result = u0.result ∧ u.dependencies = u0.dependencies := by
      intro m u hm
      rw [hpt m] at hm
      by_cases hmc : m = c
      · subst hmc
        rw [if_pos rfl] at hm
        cases hm
        exact ⟨t, hlk, rfl, rfl, rfl, rfl, rfl, rfl⟩
      · rw [if_neg hmc] at hm
        exact ⟨u, hm, rfl, rfl, rfl, rfl, rfl, rfl⟩
    have hfwd : ∀ m u0, s.tasks.lookup m = some u0 →
        ∃ u, (upsert c { t with status := "processing" } s.tasks).lookup m = some u ∧
          u.id = u0.id ∧ u.expressionId = u0.expressionId ∧ u.arg1 = u0.arg1 ∧
          u.arg2 = u0.arg2 ∧ u.result = u0.result ∧ u.dependencies = u0.dependencies := by
      intro m u0 hm
      rw [hpt m]
      by_cases hmc : m = c
      · subst hmc
        rw [hlk] at hm
        cases hm
        exact ⟨_, if_pos rfl, rfl, rfl, rfl, rfl, rfl, rfl⟩
      · exact ⟨u0, by rw [if_neg hmc]; exact hm, rfl, rfl, rfl, rfl, rfl, rfl⟩
    constructor
    · exact keys_nodup_upsert hwf.taskKeysNodup
    · exact hwf.exprKeysNodup
    · intro k u hk
      obtain ⟨u0, h0, hid, -⟩ := hback k u hk
      rw [hid]
      exact hwf.taskIdField k u0 h0
    · intro k u hk
      obtain ⟨u0, h0, -⟩ := hback k u hk
      exact hwf.taskKeyBound k u0 h0
    · intro k u hk
      obtain ⟨u0, h0, -, he, -⟩ := hback k u hk
      rw [he]
      exact hwf.taskExprBound k u0 h0
    · intro k u hk d hd
      obtain ⟨u0, h0, -, -, -, -, -, hdeps⟩ := hback k u hk
      rw [hdeps] at hd
      exact hwf.depsLt k u0 h0 d hd
    · intro k u hk d hd
      obtain ⟨u0, h0, -, he, -, -, -, hdeps⟩ := hback k u hk
      rw [hdeps] at hd
      obtain ⟨w, hw, hwe⟩ := hwf.depsSameExpr k u0 h0 d hd
      obtain ⟨w2, hw2, -, hwe2, -⟩ := hfwd d w hw
      exact ⟨w2, hw2, by rw [hwe2, hwe, he]⟩
    · intro d k
      constructor
      · intro hk
        obtain ⟨u0, h0, hd⟩ := (hwf.edge d k).mp hk
        obtain ⟨u, hu, -, -, -, -, -, hdeps⟩ := hfwd k u0 h0
        exact ⟨u, hu, by rw [hdeps]; exact hd⟩
      · rintro ⟨u, hu, hd⟩
        obtain ⟨u0, h0, -, -, -, -, -, hdeps⟩ := hback k u hu
        rw [hdeps] at hd
        exact (hwf.edge d k).mpr ⟨u0, h0, hd⟩
    · intro k u hk str hstr
      obtain ⟨u0, h0, -, -, h1, h2, -⟩ := hback k u hk
      rw [h1, h2] at hstr
      exact hwf.argTok k u0 h0 str hstr
    · intro k u hk n hn
      obtain ⟨u0, h0, -, -, h1, h2, -, hdeps⟩ := hback k u hk
      rw [h1, h2] at hn
      rw [hdeps]
      exact hwf.argTid k u0 h0 n hn
    · intro k u hk n hn
      obtain ⟨u0, h0, -, -, h1, h2, -, hdeps⟩ := hback k u hk
      rw [hdeps] at hn
      rw [h1, h2]
      exact hwf.argCover k u0 h0 n hn
    · exact hwf.readyNodup.erase c
    · intro id hid
      have hid2 : id ∈ s.readyTasks := List.mem_of_mem_erase hid
      obtain ⟨u0, h0, hn1, hn2, hdeps⟩ := hwf.readyInv id hid2
      obtain ⟨u, hu, -, -, h1, h2, -, hd⟩ := hfwd id u0 h0
      refine ⟨u, hu, by rw [h1]; exact hn1, by rw [h2]; exact hn2, ?_⟩
      rw [hd]
      exact hdeps
    · intro id hid
      obtain ⟨u0, h0, hres⟩ := hwf.completedInv id hid
      obtain ⟨u, hu, -, -, -, -, hr, -⟩ := hfwd id u0 h0
      exact ⟨u, hu, by rw [hr]; exact hres⟩
    · intro k e hk
      have hiff := hwf.exprCompletion k e hk
      have hcongr : ExprDone
          { s with
              tasks := upsert c { t with status := "processing" } s.tasks,
              readyTasks := s.readyTasks.erase c } k e ↔ ExprDone s k e := by
        apply exprDone_congr
        · intro m
          cases hm : s.tasks.lookup m with
          | none =>
            left
            refine ⟨?_, rfl⟩
            show (upsert c { t with status := "processing" } s.tasks).lookup m = none
            rw [hpt m]
            by_cases hmc : m = c
            · subst hmc; rw [hlk] at hm; cases hm
            · rw [if_neg hmc]; exact hm
          | some u0 =>
            right
            obtain ⟨u, hu, -, he, -, -, hr, -⟩ := hfwd m u0 hm
            exact ⟨u0, u, rfl, hu, he, fun _ => hr⟩
        · intro m
          rfl
      exact hiff.trans hcongr.symm

/-! ## The shunting-yard output holds only numbers and operators -/

theorem popOps_members (ops : List String) (tok : String) :
    (∀ x ∈ (popOps ops tok).1, x ∈ ops ∧ x ≠ "(") ∧
    (∀ x ∈ (popOps ops tok).2, x ∈ ops) := by
  induction ops with
  | nil =>
    constructor
    · intro x hx
      cases hx
    · intro x hx
      cases hx
  | cons top rest ih =>
    unfold popOps
    by_cases hc : (top != "(" && hasHigherPrecedence top tok) = true
    · rw [if_pos hc]
      have htop : top ≠ "(" := by
        intro he
        rw [he] at hc
        simp at hc
      constructor
      · intro x hx
        rcases List.mem_cons.mp hx with rfl | hx
        · exact ⟨List.mem_cons_self _ _, htop⟩
        · obtain ⟨hm, hne⟩ := ih.1 x hx
          exact ⟨List.mem_cons_of_mem _ hm, hne⟩
      · intro x hx
        exact List.mem_cons_of_mem _ (ih.2 x hx)
    · rw [if_neg hc]
      constructor
      · intro x hx
        cases hx
      · intro x hx
        exact hx

theorem popParen_members (ops : List String) :
    ∀ pr, popParen ops = some pr →
      (∀ x ∈ pr.1, x ∈ ops ∧ x ≠ "(") ∧ (∀ x ∈ pr.2, x ∈ ops) := by
  induction ops with
  | nil =>
    intro pr h
    cases h
  | cons top rest ih =>
    intro pr h
    unfold popParen at h
    by_cases hc : (top == "(") = true
    · rw [if_pos hc] at h
      cases h
      constructor
      · intro x hx
        cases hx
      · intro x hx
        exact List.mem_cons_of_mem _ hx
    · rw [if_neg hc] at h
      have htop : top ≠ "(" := by simpa using hc
      cases hr : popParen rest with
      | none =>
        rw [hr] at h
        cases h
      | some pr2 =>
        rw [hr] at h
        cases h
        obtain ⟨i1, i2⟩ := ih pr2 hr
        constructor
        · intro x hx
          rcases List.mem_cons.mp hx with rfl | hx
          · exact ⟨List.mem_cons_self _ _, htop⟩
          · obtain ⟨hm, hne⟩ := i1 x hx
            exact ⟨List.mem_cons_of_mem _ hm, hne⟩
        · intro x hx
          exact List.mem_cons_of_mem _ (i2 x hx)

theorem syStep_classes (out ops : List String) (tok : String)
    (os : List String × List String) (h : syStep out ops tok = .ok os)
    (hout : ∀ x ∈ out, isNumber x = true ∨ isOperator x = true)
    (hops : ∀ x ∈ ops, isOperator x = true ∨ x = "(") :
    (∀ x ∈ os.1, isNumber x = true ∨ isOperator x = true) ∧
    (∀ x ∈ os.2, isOperator x = true ∨ x = "(") := by
  unfold syStep at h
  by_cases h1 : isNumber tok = true
  · rw [if_pos h1] at h
    cases h
    constructor
    · intro x hx
      rcases List.mem_append.mp hx with hx | hx
      · exact hout x hx
      · rw [List.mem_singleton.mp hx]
        exact Or.inl h1
    · exact hops
  · rw [if_neg h1] at h
    by_cases h2 : isOperator tok = true
    · rw [if_pos h2] at h
      cases h
      obtain ⟨p1, p2⟩ := popOps_members ops tok
      constructor
      · intro x hx
        rcases List.mem_append.mp hx with hx | hx
        · exact hout x hx
        · rcases hops x (p1 x hx).1 with ho | ho
          · exact Or.inr ho
          · exact absurd ho (p1 x hx).2
      · intro x hx
        rcases List.mem_cons.mp hx with rfl | hx
        · exact Or.inl h2
        · exact hops x (p2 x hx)
    · rw [if_neg h2] at h
      by_cases h3 : (tok == "(") = true
      · rw [if_pos h3] at h
        cases h
        refine ⟨hout, ?_⟩
        intro x hx
        rcases List.mem_cons.mp hx with rfl | hx
        · right
          simpa using h3
        · exact hops x hx
      · rw [if_neg h3] at h
        by_cases h4 : (tok == ")") = true
        · rw [if_pos h4] at h
          cases hp : popParen ops with
          | none =>
            rw [hp] at h
            cases h
          | some pr =>
            rw [hp] at h
            cases h
            obtain ⟨p1, p2⟩ := popParen_members ops pr hp
            constructor
            · intro x hx
              rcases List.mem_append.mp hx with hx | hx
              · exact hout x hx
              · rcases hops x (p1 x hx).1 with ho | ho
                · exact Or.inr ho
                · exact absurd ho (p1 x hx).2
            · intro x hx
              exact hops x (p2 x hx)
        · rw [if_neg h4] at h
          cases h
          exact ⟨hout, hops⟩

theorem syRun_classes (toks : List String) : ∀ (out ops : List String)
    (res : List String × List String), syRun toks out ops = .ok res →
    (∀ x ∈ out, isNumber x = true ∨ isOperator x = true) →
    (∀ x ∈ ops, isOperator x = true ∨ x = "(") →
    (∀ x ∈ res.1, isNumber x = true ∨ isOperator x = true) ∧
    (∀ x ∈ res.2, isOperator x = true ∨ x = "(") := by
  induction toks with
  | nil =>
    intro out ops res h hout hops
    cases h
    exact ⟨hout, hops⟩
  | cons tok toks ih =>
    intro out ops res h hout hops
    unfold syRun at h
    cases hs : syStep out ops tok with
    | error e =>
      rw [hs] at h
      cases h
    | ok os =>
      rw [hs] at h
      obtain ⟨c1, c2⟩ := syStep_classes out ops tok os hs hout hops
      exact ih os.1 os.2 res h c1 c2

theorem syDrain_classes : ∀ (pend out res : List String),
    syDrain out pend = .ok res →
    (∀ x ∈ out, isNumber x = true ∨ isOperator x = true) →
    (∀ x ∈ pend, isOperator x = true ∨ x = "(") →
    ∀ x ∈ res, isNumber x = true ∨ isOperator x = true := by
  intro pend
  induction pend with
  | nil =>
    intro out res h hout hpend
    cases h
    exact hout
  | cons top rest ih =>
    intro out res h hout hpend
    unfold syDrain at h
    by_cases hc : (top == "(") = true
    · rw [if_pos hc] at h
      cases h
    · rw [if_neg hc] at h
      refine ih (out ++ [top]) res h ?_
        (fun x hx => hpend x (List.mem_cons_of_mem _ hx))
      intro x hx
      rcases List.mem_append.mp hx with hx | hx
      · exact hout x hx
      · rw [List.mem_singleton.mp hx]
        rcases hpend top (List.mem_cons_self _ _) with ho | ho
        · exact Or.inr ho
        · exact absurd ho (by simpa using hc)

/-- Every token of a successful shunting-yard output is a number token or
an operator: parentheses are consumed or rejected, and tokens matching no
case of the source `switch` are dropped. -/
theorem shuntingYard_classes {tokens output : List String}
    (h : shuntingYard tokens = .ok output) :
    ∀ x ∈ output, isNumber x = true ∨ isOperator x = true := by
  unfold shuntingYard at h
  cases hr : syRun tokens [] [] with
  | error e =>
    rw [hr] at h
    cases h
  | ok os =>
    rw [hr] at h
    obtain ⟨c1, c2⟩ := syRun_classes tokens [] [] os hr
      (fun x hx => by cases hx) (fun x hx => by cases hx)
    exact syDrain_classes os.2 os.1 output h c1 c2

/-! ## Characterizing task creation -/

theorem upsert_rev_mem {rev : List (ℕ × List ℕ)} {n tid : ℕ} (m k : ℕ) :
    k ∈ ((upsert n ((rev.lookup n).getD [] ++ [tid]) rev).lookup m).getD [] ↔
    k ∈ (rev.lookup m).getD [] ∨ (k = tid ∧ m = n) := by
  by_cases hm : m = n
  · subst hm
    rw [lookup_upsert_self]
    simp
  · rw [lookup_upsert_ne _ _ hm]
    simp [hm]

theorem createTask_fst (st : Service) (exprID : ℕ) (a1 a2 : Arg) (op : String) :
    (createTask st exprID a1 a2 op).1 = st.taskIDCounter + 1 := rfl

theorem createTask_fields (st : Service) (exprID : ℕ) (a1 a2 : Arg) (op : String) :
    (createTask st exprID a1 a2 op).2.expressions = st.expressions ∧
    (createTask st exprID a1 a2 op).2.completedTasks = st.completedTasks ∧
    (createTask st exprID a1 a2 op).2.readyTasks = st.readyTasks ∧
    (createTask st exprID a1 a2 op).2.exprCounter = st.exprCounter ∧
    (createTask st exprID a1 a2 op).2.taskIDCounter = st.taskIDCounter + 1 :=
  ⟨rfl, rfl, rfl, rfl, rfl⟩

/-- Full characterization of `createTask`: the new task's dependency list
holds exactly the live task-id operands, the task map gains the new task
under the fresh key, and the reverse-dependency index gains the fresh key
under each live task-id operand. -/
theorem createTask_spec (st : Service) (exprID : ℕ) (a1 a2 : Arg) (op : String) :
    ∃ (ot : ℕ) (deps : List ℕ),
      (∀ n, n ∈ deps ↔ ((a1 = Arg.tid n ∨ a2 = Arg.tid n) ∧
          (st.tasks.lookup n).isSome = true)) ∧
      (createTask st exprID a1 a2 op).2.tasks =
        upsert (st.taskIDCounter + 1)
          ⟨st.taskIDCounter + 1, exprID, a1, a2, op, ot, none, "pending", deps⟩
          st.tasks ∧
      (∀ m, m ∉ deps →
        (createTask st exprID a1 a2 op).2.reverseDependencies.lookup m =
          st.reverseDependencies.lookup m) ∧
      (∀ m k, k ∈ revDepsOf (createTask st exprID a1 a2 op).2 m ↔
        k ∈ revDepsOf st m ∨ (k = st.taskIDCounter + 1 ∧ m ∈ deps)) := by
  refine ⟨(if op = "+" then st.opTimes.addition else if op = "-" then st.opTimes.subtraction
      else if op = "*" then st.opTimes.multiplication
      else if op = "/" then st.opTimes.division else 0), ?_⟩
  cases a1 with
  | tok s1 =>
    cases a2 with
    | tok s2 =>
      refine ⟨[], ?_, rfl, fun m _ => rfl, ?_⟩
      · intro n
        simp
      · intro m k
        have hr : revDepsOf (createTask st exprID (Arg.tok s1) (Arg.tok s2) op).2 m
            = revDepsOf st m := rfl
        rw [hr]
        simp
    | tid n2 =>
      by_cases h2 : (st.tasks.lookup n2).isSome = true
      · refine ⟨[n2], ?_, ?_, ?_, ?_⟩
        · intro n
          constructor
          · intro hn
            have he := List.mem_singleton.mp hn
            subst he
            exact ⟨Or.inr rfl, h2⟩
          · rintro ⟨h | h, -⟩
            · cases h
            · cases h
              exact List.mem_singleton.mpr rfl
        · show ({ st with
              taskIDCounter := st.taskIDCounter + 1,
              tasks := upsert (st.taskIDCounter + 1)
                ⟨st.taskIDCounter + 1, exprID, Arg.tok s1, Arg.tid n2, op, (if op = "+" then st.opTimes.addition else if op = "-" then st.opTimes.subtraction
      else if op = "*" then st.opTimes.multiplication
      else if op = "/" then st.opTimes.division else 0), none,
                  "pending", [] ++ (if (st.tasks.lookup n2).isSome = true then [n2] else [])⟩
                st.tasks,
              dependencyGraph := upsert (st.taskIDCounter + 1)
                ([] ++ (if (st.tasks.lookup n2).isSome = true then [n2] else []))
                st.dependencyGraph,
              reverseDependencies :=
                if (st.tasks.lookup n2).isSome = true then
                  upsert n2 (((st.reverseDependencies.lookup n2).getD []) ++
                    [st.taskIDCounter + 1]) st.reverseDependencies
                else st.reverseDependencies } : Service).tasks = _
          rw [if_pos h2]
          rfl
        · intro m hm
          have hmn : m ≠ n2 := by simpa using hm
          show (if (st.tasks.lookup n2).isSome = true then
              upsert n2 (((st.reverseDependencies.lookup n2).getD []) ++
                [st.taskIDCounter + 1]) st.reverseDependencies
            else st.reverseDependencies).lookup m = st.reverseDependencies.lookup m
          rw [if_pos h2]
          exact lookup_upsert_ne _ _ hmn
        · intro m k
          have hr : revDepsOf (createTask st exprID (Arg.tok s1) (Arg.tid n2) op).2 m =
              (((if (st.tasks.lookup n2).isSome = true then
                  upsert n2 (((st.reverseDependencies.lookup n2).getD []) ++
                    [st.taskIDCounter + 1]) st.reverseDependencies
                else st.reverseDependencies)).lookup m).getD [] := rfl
          rw [hr, if_pos h2, upsert_rev_mem]
          unfold revDepsOf
          simp
      · refine ⟨[], ?_, ?_, ?_, ?_⟩
        · intro n
          constructor
          · intro hn
            cases hn
          · rintro ⟨h | h, hl⟩
            · cases h
            · cases h
              exact absurd hl h2
        · show ({ st with
              taskIDCounter := st.taskIDCounter + 1,
              tasks := upsert (st.taskIDCounter + 1)
                ⟨st.taskIDCounter + 1, exprID, Arg.tok s1, Arg.tid n2, op, (if op = "+" then st.opTimes.addition else if op = "-" then st.opTimes.subtraction
      else if op = "*" then st.opTimes.multiplication
      else if op = "/" then st.opTimes.division else 0), none,
                  "pending", [] ++ (if (st.tasks.lookup n2).isSome = true then [n2] else [])⟩
                st.tasks,
              dependencyGraph := upsert (st.taskIDCounter + 1)
                ([] ++ (if (st.tasks.lookup n2).isSome = true then [n2] else []))
                st.dependencyGraph,
              reverseDependencies :=
                if (st.tasks.lookup n2).isSome = true then
                  upsert n2 (((st.reverseDependencies.lookup n2).getD []) ++
                    [st.taskIDCounter + 1]) st.reverseDependencies
                else st.reverseDependencies } : Service).tasks = _
          rw [if_neg h2]
          rfl
        · intro m hm
          show (if (st.tasks.lookup n2).isSome = true then
              upsert n2 (((st.reverseDependencies.lookup n2).getD []) ++
                [st.taskIDCounter + 1]) st.reverseDependencies
            else st.reverseDependencies).lookup m = st.reverseDependencies.lookup m
          rw [if_neg h2]
        · intro m k
          have hr : revDepsOf (createTask st exprID (Arg.tok s1) (Arg.tid n2) op).2 m =
              (((if (st.tasks.lookup n2).isSome = true then
                  upsert n2 (((st.reverseDependencies.lookup n2).getD []) ++
                    [st.taskIDCounter + 1]) st.reverseDependencies
                else st.reverseDependencies)).lookup m).getD [] := rfl
          rw [hr, if_neg h2]
          unfold revDepsOf
          simp
  | tid n1 =>
    by_cases h1 : (st.tasks.lookup n1).isSome = true
    · cases a2 with
      | tok s2 =>
        refine ⟨[n1], ?_, ?_, ?_, ?_⟩
        · intro n
          constructor
          · intro hn
            have he := List.mem_singleton.mp hn
            subst he
            exact ⟨Or.inl rfl, h1⟩
          · rintro ⟨h | h, -⟩
            · cases h
              exact List.mem_singleton.mpr rfl
            · cases h
        · show ({ st with
              taskIDCounter := st.taskIDCounter + 1,
              tasks := upsert (st.taskIDCounter + 1)
                ⟨st.taskIDCounter + 1, exprID, Arg.tid n1, Arg.tok s2, op, (if op = "+" then st.opTimes.addition else if op = "-" then st.opTimes.subtraction
      else if op = "*" then st.opTimes.multiplication
      else if op = "/" then st.opTimes.division else 0), none,
                  "pending",
                  (if (st.tasks.lookup n1).isSome = true then [n1] else []) ++ []⟩
                st.tasks,
              dependencyGraph := upsert (st.taskIDCounter + 1)
                ((if (st.tasks.lookup n1).isSome = true then [n1] else []) ++ [])
                st.dependencyGraph,
              reverseDependencies :=
                if (st.tasks.lookup n1).isSome = true then
                  upsert n1 (((st.reverseDependencies.lookup n1).getD []) ++
                    [st.taskIDCounter + 1]) st.reverseDependencies
                else st.reverseDependencies } : Service).tasks = _
          rw [if_pos h1]
          rfl
        · intro m hm
          have hmn : m ≠ n1 := by simpa using hm
          show (if (st.tasks.lookup n1).isSome = true then
              upsert n1 (((st.reverseDependencies.lookup n1).getD []) ++
                [st.taskIDCounter + 1]) st.reverseDependencies
            else st.reverseDependencies).lookup m = st.reverseDependencies.lookup m
          rw [if_pos h1]
          exact lookup_upsert_ne _ _ hmn
        · intro m k
          have hr : revDepsOf (createTask st exprID (Arg.tid n1) (Arg.tok s2) op).2 m =
              (((if (st.tasks.lookup n1).isSome = true then
                  upsert n1 (((st.reverseDependencies.lookup n1).getD []) ++
                    [st.taskIDCounter + 1]) st.reverseDependencies
                else st.reverseDependencies)).lookup m).getD [] := rfl
          rw [hr, if_pos h1, upsert_rev_mem]
          unfold revDepsOf
          simp
      | tid n2 =>
        by_cases h2 : (st.tasks.lookup n2).isSome = true
        · refine ⟨[n1, n2], ?_, ?_, ?_, ?_⟩
          · intro n
            constructor
            · intro hn
              rcases List.mem_cons.mp hn with he | hn
              · subst he
                exact ⟨Or.inl rfl, h1⟩
              · have he := List.mem_singleton.mp hn
                subst he
                exact ⟨Or.inr rfl, h2⟩
            · rintro ⟨h | h, -⟩
              · cases h
                exact List.mem_cons_self _ _
              · cases h
                exact List.mem_cons_of_mem _ (List.mem_singleton.mpr rfl)
          · show ({ st with
                taskIDCounter := st.taskIDCounter + 1,
                tasks := upsert (st.taskIDCounter + 1)
                  ⟨st.taskIDCounter + 1, exprID, Arg.tid n1, Arg.tid n2, op, (if op = "+" then st.opTimes.addition else if op = "-" then st.opTimes.subtraction
      else if op = "*" then st.opTimes.multiplication
      else if op = "/" then st.opTimes.division else 0), none,
                    "pending",
                    (if (st.tasks.lookup n1).isSome = true then [n1] else []) ++
                      (if (st.tasks.lookup n2).isSome = true then [n2] else [])⟩
                  st.tasks,
                dependencyGraph := upsert (st.taskIDCounter + 1)
                  ((if (st.tasks.lookup n1).isSome = true then [n1] else []) ++
                    (if (st.tasks.lookup n2).isSome = true then [n2] else []))
                  st.dependencyGraph,
                reverseDependencies :=
                  if (st.tasks.lookup n2).isSome = true then
                    upsert n2 ((((if (st.tasks.lookup n1).isSome = true then
                        upsert n1 (((st.reverseDependencies.lookup n1).getD []) ++
                          [st.taskIDCounter + 1]) st.reverseDependencies
                      else st.reverseDependencies).lookup n2).getD []) ++
                      [st.taskIDCounter + 1])
                      (if (st.tasks.lookup n1).isSome = true then
                        upsert n1 (((st.reverseDependencies.lookup n1).getD []) ++
                          [st.taskIDCounter + 1]) st.reverseDependencies
                      else st.reverseDependencies)
                  else
                    (if (st.tasks.lookup n1).isSome = true then
                      upsert n1 (((st.reverseDependencies.lookup n1).getD []) ++
                        [st.taskIDCounter + 1]) st.reverseDependencies
                    else st.reverseDependencies) } : Service).tasks = _
            rw [if_pos h1, if_pos h2]
            rfl
          · intro m hm
            have hm1 : m ≠ n1 := by
              intro h
              exact hm (by rw [h]; exact List.mem_cons_self _ _)
            have hm2 : m ≠ n2 := by
              intro h
              refine hm ?_
              rw [h]
              exact List.mem_cons_of_mem _ (List.mem_singleton.mpr rfl)
            show (if (st.tasks.lookup n2).isSome = true then
                upsert n2 ((((if (st.tasks.lookup n1).isSome = true then
                    upsert n1 (((st.reverseDependencies.lookup n1).getD []) ++
                      [st.taskIDCounter + 1]) st.reverseDependencies
                  else st.reverseDependencies).lookup n2).getD []) ++
                  [st.taskIDCounter + 1])
                  (if (st.tasks.lookup n1).isSome = true then
                    upsert n1 (((st.reverseDependencies.lookup n1).getD []) ++
                      [st.taskIDCounter + 1]) st.reverseDependencies
                  else st.reverseDependencies)
              else
                (if (st.tasks.lookup n1).isSome = true then
                  upsert n1 (((st.reverseDependencies.lookup n1).getD []) ++
                    [st.taskIDCounter + 1]) st.reverseDependencies
                else st.reverseDependencies)).lookup m = st.reverseDependencies.lookup m
            rw [if_pos h1, if_pos h2, lookup_upsert_ne _ _ hm2, lookup_upsert_ne _ _ hm1]
          · intro m k
            have hr : revDepsOf (createTask st exprID (Arg.tid n1) (Arg.tid n2) op).2 m =
                (((if (st.tasks.lookup n2).isSome = true then
                    upsert n2 ((((if (st.tasks.lookup n1).isSome = true then
                        upsert n1 (((st.reverseDependencies.lookup n1).getD []) ++
                          [st.taskIDCounter + 1]) st.reverseDependencies
                      else st.reverseDependencies).lookup n2).getD []) ++
                      [st.taskIDCounter + 1])
                      (if (st.tasks.lookup n1).isSome = true then
                        upsert n1 (((st.reverseDependencies.lookup n1).getD []) ++
                          [st.taskIDCounter + 1]) st.reverseDependencies
                      else st.reverseDependencies)
                  else
                    (if (st.tasks.lookup n1).isSome = true then
                      upsert n1 (((st.reverseDependencies.lookup n1).getD []) ++
                        [st.taskIDCounter + 1]) st.reverseDependencies
                    else st.reverseDependencies)).lookup m)).getD [] := rfl
            rw [hr, if_pos h1, if_pos h2, upsert_rev_mem, upsert_rev_mem]
            unfold revDepsOf
            constructor
            · rintro ((h | ⟨rfl, rfl⟩) | ⟨rfl, rfl⟩)
              · exact Or.inl h
              · exact Or.inr ⟨rfl, List.mem_cons_self _ _⟩
              · exact Or.inr ⟨rfl, List.mem_cons_of_mem _ (List.mem_singleton.mpr rfl)⟩
            · rintro (h | ⟨rfl, hm⟩)
              · exact Or.inl (Or.inl h)
              · rcases List.mem_cons.mp hm with he | hm
                · exact Or.inl (Or.inr ⟨rfl, he⟩)
                · exact Or.inr ⟨rfl, List.mem_singleton.mp hm⟩
        · refine ⟨[n1], ?_, ?_, ?_, ?_⟩
          · intro n
            constructor
            · intro hn
              have he := List.mem_singleton.mp hn
              subst he
              exact ⟨Or.inl rfl, h1⟩
            · rintro ⟨h | h, hl⟩
              · cases h
                exact List.mem_singleton.mpr rfl
              · cases h
                exact absurd hl h2
          · show ({ st with
                taskIDCounter := st.taskIDCounter + 1,
                tasks := upsert (st.taskIDCounter + 1)
                  ⟨st.taskIDCounter + 1, exprID, Arg.tid n1, Arg.tid n2, op, (if op = "+" then st.opTimes.addition else if op = "-" then st.opTimes.subtraction
      else if op = "*" then st.opTimes.multiplication
      else if op = "/" then st.opTimes.division else 0), none,
                    "pending",
                    (if (st.tasks.lookup n1).isSome = true then [n1] else []) ++
                      (if (st.tasks.lookup n2).isSome = true then [n2] else [])⟩
                  st.tasks,
                dependencyGraph := upsert (st.taskIDCounter + 1)
                  ((if (st.tasks.lookup n1).isSome = true then [n1] else []) ++
                    (if (st.tasks.lookup n2).isSome = true then [n2] else []))
                  st.dependencyGraph,
                reverseDependencies :=
                  if (st.tasks.lookup n2).isSome = true then
                    upsert n2 ((((if (st.tasks.lookup n1).isSome = true then
                        upsert n1 (((st.reverseDependencies.lookup n1).getD []) ++
                          [st.taskIDCounter + 1]) st.reverseDependencies
                      else st.reverseDependencies).lookup n2).getD []) ++
                      [st.taskIDCounter + 1])
                      (if (st.tasks.lookup n1).isSome = true then
                        upsert n1 (((st.reverseDependencies.lookup n1).getD []) ++
                          [st.taskIDCounter + 1]) st.reverseDependencies
                      else st.reverseDependencies)
                  else
                    (if (st.tasks.lookup n1).isSome = true then
                      upsert n1 (((st.reverseDependencies.lookup n1).getD []) ++
                        [st.taskIDCounter + 1]) st.reverseDependencies
                    else st.reverseDependencies) } : Service).tasks = _
            rw [if_pos h1, if_neg h2]
            rfl
          · intro m hm
            have hmn : m ≠ n1 := by simpa using hm
            show (if (st.tasks.lookup n2).isSome = true then
                upsert n2 ((((if (st.tasks.lookup n1).isSome = true then
                    upsert n1 (((st.reverseDependencies.lookup n1).getD []) ++
                      [st.taskIDCounter + 1]) st.reverseDependencies
                  else st.reverseDependencies).lookup n2).getD []) ++
                  [st.taskIDCounter + 1])
                  (if (st.tasks.lookup n1).isSome = true then
                    upsert n1 (((st.reverseDependencies.lookup n1).getD []) ++
                      [st.taskIDCounter + 1]) st.reverseDependencies
                  else st.reverseDependencies)
              else
                (if (st.tasks.lookup n1).isSome = true then
                  upsert n1 (((st.reverseDependencies.lookup n1).getD []) ++
                    [st.taskIDCounter + 1]) st.reverseDependencies
                else st.reverseDependencies)).lookup m = st.reverseDependencies.lookup m
            rw [if_neg h2, if_pos h1]
            exact lookup_upsert_ne _ _ hmn
          · intro m k
            have hr : revDepsOf (createTask st exprID (Arg.tid n1) (Arg.tid n2) op).2 m =
                (((if (st.tasks.lookup n2).isSome = true then
                    upsert n2 ((((if (st.tasks.lookup n1).isSome = true then
                        upsert n1 (((st.reverseDependencies.lookup n1).getD []) ++
                          [st.taskIDCounter + 1]) st.reverseDependencies
                      else st.reverseDependencies).lookup n2).getD []) ++
                      [st.taskIDCounter + 1])
                      (if (st.tasks.lookup n1).isSome = true then
                        upsert n1 (((st.reverseDependencies.lookup n1).getD []) ++
                          [st.taskIDCounter + 1]) st.reverseDependencies
                      else st.reverseDependencies)
                  else
                    (if (st.tasks.lookup n1).isSome = true then
                      upsert n1 (((st.reverseDependencies.lookup n1).getD []) ++
                        [st.taskIDCounter + 1]) st.reverseDependencies
                    else st.reverseDependencies)).lookup m)).getD [] := rfl
            rw [hr, if_neg h2, if_pos h1, upsert_rev_mem]
            unfold revDepsOf
            constructor
            · rintro (h | ⟨rfl, rfl⟩)
              · exact Or.inl h
              · exact Or.inr ⟨rfl, List.mem_singleton.mpr rfl⟩
            · rintro (h | ⟨rfl, hm⟩)
              · exact Or.inl h
              · exact Or.inr ⟨rfl, List.mem_singleton.mp hm⟩
    · cases a2 with
      | tok s2 =>
        refine ⟨[], ?_, ?_, ?_, ?_⟩
        · intro n
          constructor
          · intro hn
            cases hn
          · rintro ⟨h | h, hl⟩
            · cases h
              exact absurd hl h1
            · cases h
        · show ({ st with
              taskIDCounter := st.taskIDCounter + 1,
              tasks := upsert (st.taskIDCounter + 1)
                ⟨st.taskIDCounter + 1, exprID, Arg.tid n1, Arg.tok s2, op, (if op = "+" then st.opTimes.addition else if op = "-" then st.opTimes.subtraction
      else if op = "*" then st.opTimes.multiplication
      else if op = "/" then st.opTimes.division else 0), none,
                  "pending",
                  (if (st.tasks.lookup n1).isSome = true then [n1] else []) ++ []⟩
                st.tasks,
              dependencyGraph := upsert (st.taskIDCounter + 1)
                ((if (st.tasks.lookup n1).isSome = true then [n1] else []) ++ [])
                st.dependencyGraph,
              reverseDependencies :=
                if (st.tasks.lookup n1).isSome = true then
                  upsert n1 (((st.reverseDependencies.lookup n1).getD []) ++
                    [st.taskIDCounter + 1]) st.reverseDependencies
                else st.reverseDependencies } : Service).tasks = _
          rw [if_neg h1]
          rfl
        · intro m hm
          show (if (st.tasks.lookup n1).isSome = true then
              upsert n1 (((st.reverseDependencies.lookup n1).getD []) ++
                [st.taskIDCounter + 1]) st.reverseDependencies
            else st.reverseDependencies).lookup m = st.reverseDependencies.lookup m
          rw [if_neg h1]
        · intro m k
          have hr : revDepsOf (createTask st exprID (Arg.tid n1) (Arg.tok s2) op).2 m =
              (((if (st.tasks.lookup n1).isSome = true then
                  upsert n1 (((st.reverseDependencies.lookup n1).getD []) ++
                    [st.taskIDCounter + 1]) st.reverseDependencies
                else st.reverseDependencies)).lookup m).getD [] := rfl
          rw [hr, if_neg h1]
          unfold revDepsOf
          simp
      | tid n2 =>
        by_cases h2 : (st.tasks.lookup n2).isSome = true
        · refine ⟨[n2], ?_, ?_, ?_, ?_⟩
          · intro n
            constructor
            · intro hn
              have he := List.mem_singleton.mp hn
              subst he
              exact ⟨Or.inr rfl, h2⟩
            · rintro ⟨h | h, hl⟩
              · cases h
                exact absurd hl h1
              · cases h
                exact List.mem_singleton.mpr rfl
          · show ({ st with
                taskIDCounter := st.taskIDCounter + 1,
                tasks := upsert (st.taskIDCounter + 1)
                  ⟨st.taskIDCounter + 1, exprID, Arg.tid n1, Arg.tid n2, op, (if op = "+" then st.opTimes.addition else if op = "-" then st.opTimes.subtraction
      else if op = "*" then st.opTimes.multiplication
      else if op = "/" then st.opTimes.division else 0), none,
                    "pending",
                    (if (st.tasks.lookup n1).isSome = true then [n1] else []) ++
                      (if (st.tasks.lookup n2).isSome = true then [n2] else [])⟩
                  st.tasks,
                dependencyGraph := upsert (st.taskIDCounter + 1)
                  ((if (st.tasks.lookup n1).isSome = true then [n1] else []) ++
                    (if (st.tasks.lookup n2).isSome = true then [n2] else []))
                  st.dependencyGraph,
                reverseDependencies :=
                  if (st.tasks.lookup n2).isSome = true then
                    upsert n2 ((((if (st.tasks.lookup n1).isSome = true then
                        upsert n1 (((st.reverseDependencies.lookup n1).getD []) ++
                          [st.taskIDCounter + 1]) st.reverseDependencies
                      else st.reverseDependencies).lookup n2).getD []) ++
                      [st.taskIDCounter + 1])
                      (if (st.tasks.lookup n1).isSome = true then
                        upsert n1 (((st.reverseDependencies.lookup n1).getD []) ++
                          [st.taskIDCounter + 1]) st.reverseDependencies
                      else st.reverseDependencies)
                  else
                    (if (st.tasks.lookup n1).isSome = true then
                      upsert n1 (((st.reverseDependencies.lookup n1).getD []) ++
                        [st.taskIDCounter + 1]) st.reverseDependencies
                    else st.reverseDependencies) } : Service).tasks = _
            rw [if_neg h1, if_pos h2]
            rfl
          · intro m hm
            have hmn : m ≠ n2 := by simpa using hm
            show (if (st.tasks.lookup n2).isSome = true then
                upsert n2 ((((if (st.tasks.lookup n1).isSome = true then
                    upsert n1 (((st.reverseDependencies.lookup n1).getD []) ++
                      [st.taskIDCounter + 1]) st.reverseDependencies
                  else st.reverseDependencies).lookup n2).getD []) ++
                  [st.taskIDCounter + 1])
                  (if (st.tasks.lookup n1).isSome = true then
                    upsert n1 (((st.reverseDependencies.lookup n1).getD []) ++
                      [st.taskIDCounter + 1]) st.reverseDependencies
                  else st.reverseDependencies)
              else
                (if (st.tasks.lookup n1).isSome = true then
                  upsert n1 (((st.reverseDependencies.lookup n1).getD []) ++
                    [st.taskIDCounter + 1]) st.reverseDependencies
                else st.reverseDependencies)).lookup m = st.reverseDependencies.lookup m
            rw [if_pos h2, if_neg h1]
            exact lookup_upsert_ne _ _ hmn
          · intro m k
            have hr : revDepsOf (createTask st exprID (Arg.tid n1) (Arg.tid n2) op).2 m =
                (((if (st.tasks.lookup n2).isSome = true then
                    upsert n2 ((((if (st.tasks.lookup n1).isSome = true then
                        upsert n1 (((st.reverseDependencies.lookup n1).getD []) ++
                          [st.taskIDCounter + 1]) st.reverseDependencies
                      else st.reverseDependencies).lookup n2).getD []) ++
                      [st.taskIDCounter + 1])
                      (if (st.tasks.lookup n1).isSome = true then
                        upsert n1 (((st.reverseDependencies.lookup n1).getD []) ++
                          [st.taskIDCounter + 1]) st.reverseDependencies
                      else st.reverseDependencies)
                  else
                    (if (st.tasks.lookup n1).isSome = true then
                      upsert n1 (((st.reverseDependencies.lookup n1).getD []) ++
                        [st.taskIDCounter + 1]) st.reverseDependencies
                    else st.reverseDependencies)).lookup m)).getD [] := rfl
            rw [hr, if_pos h2, if_neg h1, upsert_rev_mem]
            unfold revDepsOf
            constructor
            · rintro (h | ⟨rfl, rfl⟩)
              · exact Or.inl h
              · exact Or.inr ⟨rfl, List.mem_singleton.mpr rfl⟩
            · rintro (h | ⟨rfl, hm⟩)
              · exact Or.inl h
              · exact Or.inr ⟨rfl, List.mem_singleton.mp hm⟩
        · refine ⟨[], ?_, ?_, ?_, ?_⟩
          · intro n
            constructor
            · intro hn
              cases hn
            · rintro ⟨h | h, hl⟩
              · cases h
                exact absurd hl h1
              · cases h
                exact absurd hl h2
          · show ({ st with
                taskIDCounter := st.taskIDCounter + 1,
                tasks := upsert (st.taskIDCounter + 1)
                  ⟨st.taskIDCounter + 1, exprID, Arg.tid n1, Arg.tid n2, op, (if op = "+" then st.opTimes.addition else if op = "-" then st.opTimes.subtraction
      else if op = "*" then st.opTimes.multiplication
      else if op = "/" then st.opTimes.division else 0), none,
                    "pending",
                    (if (st.tasks.lookup n1).isSome = true then [n1] else []) ++
                      (if (st.tasks.lookup n2).isSome = true then [n2] else [])⟩
                  st.tasks,
                dependencyGraph := upsert (st.taskIDCounter + 1)
                  ((if (st.tasks.lookup n1).isSome = true then [n1] else []) ++
                    (if (st.tasks.lookup n2).isSome = true then [n2] else []))
                  st.dependencyGraph,
                reverseDependencies :=
                  if (st.tasks.lookup n2).isSome = true then
                    upsert n2 ((((if (st.tasks.lookup n1).isSome = true then
                        upsert n1 (((st.reverseDependencies.lookup n1).getD []) ++
                          [st.taskIDCounter + 1]) st.reverseDependencies
                      else st.reverseDependencies).lookup n2).getD []) ++
                      [st.taskIDCounter + 1])
                      (if (st.tasks.lookup n1).isSome = true then
                        upsert n1 (((st.reverseDependencies.lookup n1).getD []) ++
                          [st.taskIDCounter + 1]) st.reverseDependencies
                      else st.reverseDependencies)
                  else
                    (if (st.tasks.lookup n1).isSome = true then
                      upsert n1 (((st.reverseDependencies.lookup n1).getD []) ++
                        [st.taskIDCounter + 1]) st.reverseDependencies
                    else st.reverseDependencies) } : Service).tasks = _
            rw [if_neg h1, if_neg h2]
            rfl
          · intro m hm
            show (if (st.tasks.lookup n2).isSome = true then
                upsert n2 ((((if (st.tasks.lookup n1).isSome = true then
                    upsert n1 (((st.reverseDependencies.lookup n1).getD []) ++
                      [st.taskIDCounter + 1]) st.reverseDependencies
                  else st.reverseDependencies).lookup n2).getD []) ++
                  [st.taskIDCounter + 1])
                  (if (st.tasks.lookup n1).isSome = true then
                    upsert n1 (((st.reverseDependencies.lookup n1).getD []) ++
                      [st.taskIDCounter + 1]) st.reverseDependencies
                  else st.reverseDependencies)
              else
                (if (st.tasks.lookup n1).isSome = true then
                  upsert n1 (((st.reverseDependencies.lookup n1).getD []) ++
                    [st.taskIDCounter + 1]) st.reverseDependencies
                else st.reverseDependencies)).lookup m = st.reverseDependencies.lookup m
            rw [if_neg h2, if_neg h1]
          · intro m k
            have hr : revDepsOf (createTask st exprID (Arg.tid n1) (Arg.tid n2) op).2 m =
                (((if (st.tasks.lookup n2).isSome = true then
                    upsert n2 ((((if (st.tasks.lookup n1).isSome = true then
                        upsert n1 (((st.reverseDependencies.lookup n1).getD []) ++
                          [st.taskIDCounter + 1]) st.reverseDependencies
                      else st.reverseDependencies).lookup n2).getD []) ++
                      [st.taskIDCounter + 1])
                      (if (st.tasks.lookup n1).isSome = true then
                        upsert n1 (((st.reverseDependencies.lookup n1).getD []) ++
                          [st.taskIDCounter + 1]) st.reverseDependencies
                      else st.reverseDependencies)
                  else
                    (if (st.tasks.lookup n1).isSome = true then
                      upsert n1 (((st.reverseDependencies.lookup n1).getD []) ++
                        [st.taskIDCounter + 1]) st.reverseDependencies
                    else st.reverseDependencies)).lookup m)).getD [] := rfl
            rw [hr, if_neg h1, if_neg h2]
            unfold revDepsOf
            simp

/-- `createTask` preserves the invariant when both operands satisfy the
build-loop conditions: a task-id operand always denotes a live task of the
expression being built, which still has no result, and the expression entry
being built is not completed. -/
theorem wf_createTask (st : Service) (exprID : ℕ) (a1 a2 : Arg) (op : String)
    (hwf : WF st)
    (hbound : exprID < st.exprCounter)
    (hstatus : ∀ e, st.expressions.lookup exprID = some e →
      e.status ≠ ExpressionStatus.completed)
    (haux : ∀ m t, st.tasks.lookup m = some t → t.expressionId = exprID →
      t.result = none)
    (ha1 : ∀ n, a1 = Arg.tid n → ∃ t, st.tasks.lookup n = some t ∧
      t.expressionId = exprID)
    (ha2 : ∀ n, a2 = Arg.tid n → ∃ t, st.tasks.lookup n = some t ∧
      t.expressionId = exprID)
    (ha1tok : ∀ str, a1 = Arg.tok str → isNumber str = true)
    (ha2tok : ∀ str, a2 = Arg.tok str → isNumber str = true) :
    WF (createTask st exprID a1 a2 op).2 ∧
    (∀ m t, (createTask st exprID a1 a2 op).2.tasks.lookup m = some t →
      t.expressionId = exprID → t.result = none) ∧
    (∀ k t, st.tasks.lookup k = some t →
      (createTask st exprID a1 a2 op).2.tasks.lookup k = some t) ∧
    (∃ t, (createTask st exprID a1 a2 op).2.tasks.lookup
        ((createTask st exprID a1 a2 op).1) = some t ∧
      t.expressionId = exprID) := by
  obtain ⟨ot, deps, hdeps, htasks, hrevpres, hrevmem⟩ := createTask_spec st exprID a1 a2 op
  obtain ⟨hexpr, hcomp, hready, hecnt, hcnt⟩ := createTask_fields st exprID a1 a2 op
  have hfresh : ∀ k t, st.tasks.lookup k = some t → k ≠ st.taskIDCounter + 1 := by
    intro k t hk heq
    have := hwf.taskKeyBound k t hk
    omega
  have hlook : ∀ k, (createTask st exprID a1 a2 op).2.tasks.lookup k =
      if k = st.taskIDCounter + 1 then
        some ⟨st.taskIDCounter + 1, exprID, a1, a2, op, ot, none, "pending", deps⟩
      else st.tasks.lookup k := by
    intro k
    rw [htasks]
    by_cases hk : k = st.taskIDCounter + 1
    · subst hk
      rw [lookup_upsert_self, if_pos rfl]
    · rw [lookup_upsert_ne _ _ hk, if_neg hk]
  have hdepsle : ∀ d ∈ deps, d ≤ st.taskIDCounter := by
    intro d hd
    obtain ⟨-, hl⟩ := (hdeps d).mp hd
    obtain ⟨t, ht⟩ := Option.isSome_iff_exists.mp hl
    exact hwf.taskKeyBound d t ht
  have hdepsexpr : ∀ d ∈ deps, ∃ t, st.tasks.lookup d = some t ∧
      t.expressionId = exprID := by
    intro d hd
    obtain ⟨harg, -⟩ := (hdeps d).mp hd
    rcases harg with h | h
    · exact ha1 d h
    · exact ha2 d h
  have hdepsnotcomp : ∀ d ∈ deps, d ∉ st.completedTasks := by
    intro d hd hdc
    obtain ⟨t, ht, hte⟩ := hdepsexpr d hd
    obtain ⟨t2, ht2, hres⟩ := hwf.completedInv d hdc
    rw [ht] at ht2
    cases ht2
    rw [haux d t ht hte] at hres
    simp at hres
  have hpres : ∀ k t, st.tasks.lookup k = some t →
      (createTask st exprID a1 a2 op).2.tasks.lookup k = some t := by
    intro k t hk
    rw [hlook, if_neg (hfresh k t hk)]
    exact hk
  have hnew : (createTask st exprID a1 a2 op).2.tasks.lookup (st.taskIDCounter + 1) =
      some ⟨st.taskIDCounter + 1, exprID, a1, a2, op, ot, none, "pending", deps⟩ := by
    rw [hlook, if_pos rfl]
  refine ⟨?_, ?_, hpres, ?_⟩
  · constructor
    · rw [htasks]
      exact keys_nodup_upsert hwf.taskKeysNodup
    · rw [hexpr]
      exact hwf.exprKeysNodup
    · intro k u hk
      rw [hlook] at hk
      by_cases hkt : k = st.taskIDCounter + 1
      · subst hkt
        rw [if_pos rfl] at hk
        cases hk
        rfl
      · rw [if_neg hkt] at hk
        exact hwf.taskIdField k u hk
    · intro k u hk
      rw [hcnt]
      rw [hlook] at hk
      by_cases hkt : k = st.taskIDCounter + 1
      · omega
      · rw [if_neg hkt] at hk
        exact le_trans (hwf.taskKeyBound k u hk) (Nat.le_succ _)
    · intro k u hk
      rw [hecnt]
      rw [hlook] at hk
      by_cases hkt : k = st.taskIDCounter + 1
      · rw [if_pos hkt] at hk
        cases hk
        exact hbound
      · rw [if_neg hkt] at hk
        exact hwf.taskExprBound k u hk
    · intro k u hk d hd
      rw [hlook] at hk
      by_cases hkt : k = st.taskIDCounter + 1
      · rw [if_pos hkt] at hk
        cases hk
        have := hdepsle d hd
        omega
      · rw [if_neg hkt] at hk
        exact hwf.depsLt k u hk d hd
    · intro k u hk d hd
      rw [hlook] at hk
      by_cases hkt : k = st.taskIDCounter + 1
      · rw [if_pos hkt] at hk
        cases hk
        obtain ⟨t, ht, hte⟩ := hdepsexpr d hd
        exact ⟨t, hpres d t ht, hte⟩
      · rw [if_neg hkt] at hk
        obtain ⟨w, hw, hwe⟩ := hwf.depsSameExpr k u hk d hd
        exact ⟨w, hpres d w hw, hwe⟩
    · intro d k
      rw [hrevmem d k]
      constructor
      · rintro (h | ⟨rfl, hd⟩)
        · obtain ⟨t, ht, htd⟩ := (hwf.edge d k).mp h
          exact ⟨t, hpres k t ht, htd⟩
        · exact ⟨_, hnew, hd⟩
      · rintro ⟨t, ht, htd⟩
        rw [hlook] at ht
        by_cases hkt : k = st.taskIDCounter + 1
        · rw [if_pos hkt] at ht
          cases ht
          exact Or.inr ⟨hkt, htd⟩
        · rw [if_neg hkt] at ht
          exact Or.inl ((hwf.edge d k).mpr ⟨t, ht, htd⟩)
    · intro k u hk str hstr
      rw [hlook] at hk
      by_cases hkt : k = st.taskIDCounter + 1
      · rw [if_pos hkt] at hk
        cases hk
        rcases hstr with hh | hh
        · exact ha1tok str hh
        · exact ha2tok str hh
      · rw [if_neg hkt] at hk
        exact hwf.argTok k u hk str hstr
    · intro k u hk n hn
      rw [hcomp]
      rw [hlook] at hk
      by_cases hkt : k = st.taskIDCounter + 1
      · rw [if_pos hkt] at hk
        cases hk
        have hlive : (st.tasks.lookup n).isSome = true := by
          rcases hn with h | h
          · obtain ⟨t, ht, -⟩ := ha1 n h
            rw [ht]
            rfl
          · obtain ⟨t, ht, -⟩ := ha2 n h
            rw [ht]
            rfl
        have hmem : n ∈ deps := (hdeps n).mpr ⟨hn, hlive⟩
        exact ⟨hmem, hdepsnotcomp n hmem⟩
      · rw [if_neg hkt] at hk
        exact hwf.argTid k u hk n hn
    · intro k u hk n hnd
      rw [hlook] at hk
      by_cases hkt : k = st.taskIDCounter + 1
      · rw [if_pos hkt] at hk
        cases hk
        obtain ⟨harg, -⟩ := (hdeps n).mp hnd
        rcases harg with h | h
        · exact Or.inl h
        · exact Or.inr (Or.inl h)
      · rw [if_neg hkt] at hk
        exact hwf.argCover k u hk n hnd
    · rw [hready]
      exact hwf.readyNodup
    · intro a ha
      rw [hready] at ha
      obtain ⟨t, h0, ht1, ht2, hdep⟩ := hwf.readyInv a ha
      refine ⟨t, hpres a t h0, ht1, ht2, ?_⟩
      intro d hd
      rw [hcomp]
      exact hdep d hd
    · intro c hc
      rw [hcomp] at hc
      obtain ⟨t, h0, hres⟩ := hwf.completedInv c hc
      exact ⟨t, hpres c t h0, hres⟩
    · intro k e hke
      rw [hexpr] at hke
      by_cases hkE : k = exprID
      · subst hkE
        constructor
        · intro hst
          exact absurd hst (hstatus e hke)
        · intro hdone
          exfalso
          have h1 := hdone.1 _ _ hnew rfl
          simp at h1
      · have hcongr : ExprDone (createTask st exprID a1 a2 op).2 k e ↔
            ExprDone st k e := by
          unfold ExprDone
          constructor
          · rintro ⟨hall, m, t, hmt, hte, hroot, hres⟩
            constructor
            · intro m2 t2 h2 he2
              exact hall m2 t2 (hpres m2 t2 h2) he2
            · rw [hlook] at hmt
              by_cases hm : m = st.taskIDCounter + 1
              · rw [if_pos hm] at hmt
                cases hmt
                exact absurd hte.symm hkE
              · rw [if_neg hm] at hmt
                refine ⟨m, t, hmt, hte, ?_, hres⟩
                by_contra hne
                obtain ⟨x, hx⟩ := List.exists_mem_of_ne_nil _ hne
                have hx2 := (hrevmem m x).mpr (Or.inl hx)
                rw [hroot] at hx2
                cases hx2
          · rintro ⟨hall, m, t, hmt, hte, hroot, hres⟩
            constructor
            · intro m2 t2 h2 he2
              rw [hlook] at h2
              by_cases hm : m2 = st.taskIDCounter + 1
              · rw [if_pos hm] at h2
                cases h2
                exact absurd he2.symm hkE
              · rw [if_neg hm] at h2
                exact hall m2 t2 h2 he2
            · refine ⟨m, t, hpres m t hmt, hte, ?_, hres⟩
              have hmd : m ∉ deps := by
                intro hmdep
                obtain ⟨t2, ht2, hte2⟩ := hdepsexpr m hmdep
                rw [hmt] at ht2
                cases ht2
                refine hkE ?_
                rw [← hte, hte2]
              have hre : revDepsOf (createTask st exprID a1 a2 op).2 m =
                  revDepsOf st m := by
                unfold revDepsOf
                rw [hrevpres m hmd]
              rw [hre]
              exact hroot
        rw [hcongr]
        exact hwf.exprCompletion k e hke
  · intro m t hm hte
    rw [hlook] at hm
    by_cases hmt : m = st.taskIDCounter + 1
    · rw [if_pos hmt] at hm
      cases hm
      rfl
    · rw [if_neg hmt] at hm
      exact haux m t hm hte
  · rw [createTask_fst]
    exact ⟨_, hnew, rfl⟩

theorem buildLoop_nil (st : Service) (exprID : ℕ) (stack : List Arg) :
    buildLoop st exprID [] stack = (.ok stack, st) := rfl

theorem buildLoop_op_cons {token : String} (hop : isOperator token = true)
    (st : Service) (exprID : ℕ) (rest : List String) (arg1 arg2 : Arg)
    (stack2 : List Arg) :
    buildLoop st exprID (token :: rest) (arg2 :: arg1 :: stack2) =
      buildLoop (createTask st exprID arg1 arg2 token).2 exprID rest
        (.tid (createTask st exprID arg1 arg2 token).1 :: stack2) := by
  conv_lhs => unfold buildLoop
  rw [if_pos hop]

theorem buildLoop_op_nil {token : String} (hop : isOperator token = true)
    (st : Service) (exprID : ℕ) (rest : List String) :
    buildLoop st exprID (token :: rest) [] =
      (.error ("invalid expression: not enough operands for operator " ++ token), st) := by
  unfold buildLoop
  rw [if_pos hop]

theorem buildLoop_op_one {token : String} (hop : isOperator token = true)
    (st : Service) (exprID : ℕ) (rest : List String) (a : Arg) :
    buildLoop st exprID (token :: rest) [a] =
      (.error ("invalid expression: not enough operands for operator " ++ token), st) := by
  unfold buildLoop
  rw [if_pos hop]

theorem buildLoop_push {token : String} (hop : isOperator token = false)
    (st : Service) (exprID : ℕ) (rest : List String) (stack : List Arg) :
    buildLoop st exprID (token :: rest) stack =
      buildLoop st exprID rest (.tok token :: stack) := by
  have hcond : ¬(isOperator token = true) := by
    rw [hop]
    exact Bool.false_ne_true
  conv_lhs => unfold buildLoop
  rw [if_neg hcond]

/-- The build loop preserves the invariant: it only ever creates tasks whose
task-id operands are live tasks of the expression being built, leaves the
expression table, ready set and completed set untouched, keeps every task of
the new expression result-free, and hands back a stack whose task-id entries
are live tasks of the expression. -/
theorem wf_buildLoop (toks : List String) :
    ∀ (st : Service) (exprID : ℕ) (stack : List Arg),
    WF st →
    exprID < st.exprCounter →
    (∀ e, st.expressions.lookup exprID = some e →
      e.status ≠ ExpressionStatus.completed) →
    (∀ m t, st.tasks.lookup m = some t → t.expressionId = exprID →
      t.result = none) →
    (∀ tok2 ∈ toks, isNumber tok2 = true ∨ isOperator tok2 = true) →
    (∀ str, Arg.tok str ∈ stack → isNumber str = true) →
    (∀ n, Arg.tid n ∈ stack → ∃ t, st.tasks.lookup n = some t ∧
      t.expressionId = exprID) →
    WF (buildLoop st exprID toks stack).2 ∧
    (buildLoop st exprID toks stack).2.exprCounter = st.exprCounter ∧
    (buildLoop st exprID toks stack).2.expressions = st.expressions ∧
    (buildLoop st exprID toks stack).2.readyTasks = st.readyTasks ∧
    (buildLoop st exprID toks stack).2.completedTasks = st.completedTasks ∧
    (∀ m t, (buildLoop st exprID toks stack).2.tasks.lookup m = some t →
      t.expressionId = exprID → t.result = none) ∧
    (∀ stack2, (buildLoop st exprID toks stack).1 = .ok stack2 →
      ∀ n, Arg.tid n ∈ stack2 →
        ∃ t, (buildLoop st exprID toks stack).2.tasks.lookup n = some t ∧
          t.expressionId = exprID) ∧
    (∀ k t, st.tasks.lookup k = some t →
      (buildLoop st exprID toks stack).2.tasks.lookup k = some t) := by
  induction toks with
  | nil =>
    intro st exprID stack hwf hbound hstatus haux htoks hstkTok hstack
    refine ⟨hwf, rfl, rfl, rfl, rfl, haux, ?_, fun k t h => h⟩
    intro stack2 hok n hn
    rw [buildLoop_nil] at hok
    cases hok
    exact hstack n hn
  | cons token rest ih =>
    intro st exprID stack hwf hbound hstatus haux htoks hstkTok hstack
    by_cases hop : isOperator token = true
    · match stack with
      | [] =>
        rw [buildLoop_op_nil hop]
        refine ⟨hwf, rfl, rfl, rfl, rfl, haux, ?_, fun k t h => h⟩
        intro stack2 hok
        cases hok
      | [a] =>
        rw [buildLoop_op_one hop]
        refine ⟨hwf, rfl, rfl, rfl, rfl, haux, ?_, fun k t h => h⟩
        intro stack2 hok
        cases hok
      | arg2 :: arg1 :: stack2 =>
        rw [buildLoop_op_cons hop]
        have ha1 : ∀ n, arg1 = Arg.tid n → ∃ t, st.tasks.lookup n = some t ∧
            t.expressionId = exprID := by
          intro n h
          refine hstack n ?_
          rw [← h]
          exact List.mem_cons_of_mem _ (List.mem_cons_self _ _)
        have ha2 : ∀ n, arg2 = Arg.tid n → ∃ t, st.tasks.lookup n = some t ∧
            t.expressionId = exprID := by
          intro n h
          refine hstack n ?_
          rw [← h]
          exact List.mem_cons_self _ _
        have ha1tok : ∀ str, arg1 = Arg.tok str → isNumber str = true := by
          intro str h
          refine hstkTok str ?_
          rw [← h]
          exact List.mem_cons_of_mem _ (List.mem_cons_self _ _)
        have ha2tok : ∀ str, arg2 = Arg.tok str → isNumber str = true := by
          intro str h
          refine hstkTok str ?_
          rw [← h]
          exact List.mem_cons_self _ _
        obtain ⟨hwf2, haux2, hpres2, t0, ht0, ht0e⟩ :=
          wf_createTask st exprID arg1 arg2 token hwf hbound hstatus haux ha1 ha2
            ha1tok ha2tok
        obtain ⟨hexpr2, hcomp2, hready2, hecnt2, -⟩ :=
          createTask_fields st exprID arg1 arg2 token
        have hbound2 : exprID < (createTask st exprID arg1 arg2 token).2.exprCounter := by
          rw [hecnt2]
          exact hbound
        have hstatus2 : ∀ e,
            (createTask st exprID arg1 arg2 token).2.expressions.lookup exprID = some e →
            e.status ≠ ExpressionStatus.completed := by
          intro e he
          rw [hexpr2] at he
          exact hstatus e he
        have hstack2 : ∀ n,
            Arg.tid n ∈ (Arg.tid (createTask st exprID arg1 arg2 token).1 :: stack2) →
            ∃ t, (createTask st exprID arg1 arg2 token).2.tasks.lookup n = some t ∧
              t.expressionId = exprID := by
          intro n hn
          rcases List.mem_cons.mp hn with he | hn
          · cases he
            exact ⟨t0, ht0, ht0e⟩
          · have hn2 : Arg.tid n ∈ (arg2 :: arg1 :: stack2) :=
              List.mem_cons_of_mem _ (List.mem_cons_of_mem _ hn)
            obtain ⟨t, ht, hte⟩ := hstack n hn2
            exact ⟨t, hpres2 n t ht, hte⟩
        have hstkTok2 : ∀ str,
            Arg.tok str ∈ (Arg.tid (createTask st exprID arg1 arg2 token).1 :: stack2) →
            isNumber str = true := by
          intro str hm
          rcases List.mem_cons.mp hm with he | hm
          · cases he
          · exact hstkTok str (List.mem_cons_of_mem _ (List.mem_cons_of_mem _ hm))
        obtain ⟨c1, c2, c3, c4, c5, c6, c7, c8⟩ :=
          ih (createTask st exprID arg1 arg2 token).2 exprID
            (Arg.tid (createTask st exprID arg1 arg2 token).1 :: stack2)
            hwf2 hbound2 hstatus2 haux2
            (fun t2 h => htoks t2 (List.mem_cons_of_mem _ h)) hstkTok2 hstack2
        exact ⟨c1, c2.trans hecnt2, c3.trans hexpr2, c4.trans hready2,
          c5.trans hcomp2, c6, c7, fun k t h => c8 k t (hpres2 k t h)⟩
    · have hop2 : isOperator token = false := by
        cases h : isOperator token
        · rfl
        · exact absurd h hop
      rw [buildLoop_push hop2]
      have htokNum : isNumber token = true := by
        rcases htoks token (List.mem_cons_self _ _) with h | h
        · exact h
        · rw [h] at hop2
          cases hop2
      have hstkTok2 : ∀ str, Arg.tok str ∈ (Arg.tok token :: stack) →
          isNumber str = true := by
        intro str hm
        rcases List.mem_cons.mp hm with he | hm
        · cases he
          exact htokNum
        · exact hstkTok str hm
      have hstack2 : ∀ n, Arg.tid n ∈ (Arg.tok token :: stack) →
          ∃ t, st.tasks.lookup n = some t ∧ t.expressionId = exprID := by
        intro n hn
        rcases List.mem_cons.mp hn with he | hn
        · cases he
        · exact hstack n hn
      exact ih st exprID (Arg.tok token :: stack) hwf hbound hstatus haux
        (fun t2 h => htoks t2 (List.mem_cons_of_mem _ h)) hstkTok2 hstack2

/-- The ready-marking pass preserves the invariant: a task it marks has no
live task-id operand, and by `argTid` + `depsSameExpr` any task-id operand
is live, so marked tasks have no task-id operands at all and all their
dependencies completed (via `argCover`). -/
theorem wf_markReady (st : Service) (exprID : ℕ) (hwf : WF st) :
    WF (markReady st exprID) := by
  constructor
  · exact hwf.taskKeysNodup
  · exact hwf.exprKeysNodup
  · exact hwf.taskIdField
  · exact hwf.taskKeyBound
  · exact hwf.taskExprBound
  · exact hwf.depsLt
  · exact hwf.depsSameExpr
  · exact hwf.edge
  · exact hwf.argTok
  · exact hwf.argTid
  · exact hwf.argCover
  · exact markReady_nodup st exprID st.tasks st.readyTasks hwf.readyNodup
  · intro a ha
    rcases markReady_mem st exprID st.tasks st.readyTasks a ha with hold |
      ⟨t, hmem, hte, hA1, hA2⟩
    · exact hwf.readyInv a hold
    · have hlk : st.tasks.lookup a = some t := lookup_eq_of_mem hwf.taskKeysNodup hmem
      have hnf1 : ∀ n, t.arg1 ≠ Arg.tid n := by
        intro n h
        obtain ⟨hmemn, -⟩ := hwf.argTid a t hlk n (Or.inl h)
        obtain ⟨u, hu, -⟩ := hwf.depsSameExpr a t hlk n hmemn
        rw [h] at hA1
        have hA1b : (st.tasks.lookup n).isSome = false := hA1
        rw [hu] at hA1b
        cases hA1b
      have hnf2 : ∀ n, t.arg2 ≠ Arg.tid n := by
        intro n h
        obtain ⟨hmemn, -⟩ := hwf.argTid a t hlk n (Or.inr h)
        obtain ⟨u, hu, -⟩ := hwf.depsSameExpr a t hlk n hmemn
        rw [h] at hA2
        have hA2b : (st.tasks.lookup n).isSome = false := hA2
        rw [hu] at hA2b
        cases hA2b
      have hnum1 : numericArg t.arg1 = true := by
        cases harg : t.arg1 with
        | tok str => exact hwf.argTok a t hlk str (Or.inl harg)
        | tid n => exact absurd harg (hnf1 n)
      have hnum2 : numericArg t.arg2 = true := by
        cases harg : t.arg2 with
        | tok str => exact hwf.argTok a t hlk str (Or.inr harg)
        | tid n => exact absurd harg (hnf2 n)
      refine ⟨t, hlk, hnum1, hnum2, ?_⟩
      intro d hd
      rcases hwf.argCover a t hlk d hd with h | h | h
      · exact absurd h (hnf1 d)
      · exact absurd h (hnf2 d)
      · exact h
  · exact hwf.completedInv
  · exact hwf.exprCompletion

/-- Writing a non-`completed` status into an expression whose tasks are all
result-free preserves the invariant. -/
theorem wf_setExprStatus (st : Service) (k0 : ℕ) (st0 : ExpressionStatus)
    (hwf : WF st) (hnc : st0 ≠ ExpressionStatus.completed)
    (haux : ∀ m t, st.tasks.lookup m = some t → t.expressionId = k0 →
      t.result = none) :
    WF (setExprStatus st k0 st0) := by
  obtain ⟨hts, hcp, hrd, hrv, hc1, hc2⟩ := setExprStatus_fields st k0 st0
  have hrevEq : ∀ d, revDepsOf (setExprStatus st k0 st0) d = revDepsOf st d := by
    intro d
    unfold revDepsOf
    rw [hrv]
  constructor
  · rw [hts]
    exact hwf.taskKeysNodup
  · unfold setExprStatus
    cases st.expressions.lookup k0
    · exact hwf.exprKeysNodup
    · exact keys_nodup_upsert hwf.exprKeysNodup
  · rw [hts]
    exact hwf.taskIdField
  · rw [hts, hc1]
    exact hwf.taskKeyBound
  · rw [hts, hc2]
    exact hwf.taskExprBound
  · rw [hts]
    exact hwf.depsLt
  · rw [hts]
    exact hwf.depsSameExpr
  · intro d k
    rw [hrevEq d, hts]
    exact hwf.edge d k
  · rw [hts]
    exact hwf.argTok
  · rw [hts, hcp]
    exact hwf.argTid
  · rw [hts, hcp]
    exact hwf.argCover
  · rw [hrd]
    exact hwf.readyNodup
  · rw [hrd, hts, hcp]
    exact hwf.readyInv
  · rw [hcp, hts]
    exact hwf.completedInv
  · intro k e hke
    rw [setExprStatus_lookup] at hke
    have hED : ExprDone (setExprStatus st k0 st0) k e ↔ ExprDone st k e := by
      unfold ExprDone revDepsOf
      rw [hts, hrv]
    by_cases hk : k = k0
    · subst hk
      rw [if_pos rfl] at hke
      cases hl : st.expressions.lookup k with
      | none =>
        rw [hl] at hke
        simp at hke
      | some ed =>
        rw [hl] at hke
        simp only [Option.map_some'] at hke
        cases hke
        rw [hED]
        constructor
        · intro hst
          exact absurd hst hnc
        · intro hdone
          exfalso
          obtain ⟨hall, m, t, hmt, hte, -, -⟩ := hdone
          have hsome := hall m t hmt hte
          rw [haux m t hmt hte] at hsome
          simp at hsome
    · rw [if_neg hk] at hke
      rw [hED]
      exact hwf.exprCompletion k e hke

/-- Stage one of `SubmitExpression`: allocating the fresh expression id and
inserting the pending entry preserves the invariant. -/
theorem wf_newExprEntry (s : Service) (str : String) (hwf : WF s) :
    WF { s with
          exprCounter := s.exprCounter + 1,
          expressions := upsert s.exprCounter
            ⟨s.exprCounter, str, ExpressionStatus.pending, none⟩ s.expressions } := by
  constructor
  · exact hwf.taskKeysNodup
  · exact keys_nodup_upsert hwf.exprKeysNodup
  · exact hwf.taskIdField
  · exact hwf.taskKeyBound
  · intro k t hk
    exact lt_trans (hwf.taskExprBound k t hk) (Nat.lt_succ_self _)
  · exact hwf.depsLt
  · exact hwf.depsSameExpr
  · exact hwf.edge
  · exact hwf.argTok
  · exact hwf.argTid
  · exact hwf.argCover
  · exact hwf.readyNodup
  · exact hwf.readyInv
  · exact hwf.completedInv
  · intro k e hke
    have hke2 : (upsert s.exprCounter
        ⟨s.exprCounter, str, ExpressionStatus.pending, none⟩ s.expressions).lookup k =
        some e := hke
    by_cases hk : k = s.exprCounter
    · subst hk
      rw [lookup_upsert_self] at hke2
      cases hke2
      constructor
      · intro hst
        cases hst
      · intro hdone
        exfalso
        obtain ⟨-, m, t, hmt, hte, -, -⟩ := hdone
        have hbm := hwf.taskExprBound m t hmt
        omega
    · rw [lookup_upsert_ne _ _ hk] at hke2
      exact hwf.exprCompletion k e hke2

/-- `parseExpression` preserves the invariant under the stage-one
conditions, keeps every task of the new expression result-free, and leaves
the expression table unchanged. -/
theorem wf_parseExpression (st : Service) (exprID : ℕ) (expr : String)
    (hwf : WF st) (hbound : exprID < st.exprCounter)
    (hstatus : ∀ e, st.expressions.lookup exprID = some e →
      e.status ≠ ExpressionStatus.completed)
    (haux : ∀ m t, st.tasks.lookup m = some t → t.expressionId = exprID →
      t.result = none) :
    WF (parseExpression st exprID expr).2 ∧
    (∀ m t, (parseExpression st exprID expr).2.tasks.lookup m = some t →
      t.expressionId = exprID → t.result = none) ∧
    (parseExpression st exprID expr).2.expressions = st.expressions ∧
    (parseExpression st exprID expr).2.completedTasks = st.completedTasks ∧
    (∀ k t, st.tasks.lookup k = some t →
      (parseExpression st exprID expr).2.tasks.lookup k = some t) ∧
    (∀ a ∈ (parseExpression st exprID expr).2.readyTasks, a ∈ st.readyTasks ∨
      ∃ t, (parseExpression st exprID expr).2.tasks.lookup a = some t ∧
        t.expressionId = exprID) := by
  unfold parseExpression
  cases tokenize expr with
  | error e => exact ⟨hwf, haux, rfl, rfl, fun k t h => h, fun a ha => Or.inl ha⟩
  | ok tokens =>
    dsimp only
    cases hsy : shuntingYard tokens with
    | error e => exact ⟨hwf, haux, rfl, rfl, fun k t h => h, fun a ha => Or.inl ha⟩
    | ok output =>
      dsimp only
      unfold createTasksFromPostfix
      obtain ⟨c1, c2, c3, c4, c5, c6, c7, c8⟩ :=
        wf_buildLoop output st exprID [] hwf hbound hstatus haux
          (fun t2 h => shuntingYard_classes hsy t2 h)
          (by intro str hstr; cases hstr)
          (by intro n hn; cases hn)
      cases hb : buildLoop st exprID output [] with
      | mk r1 r2 =>
        rw [hb] at c1 c2 c3 c4 c5 c6 c7 c8
        cases r1 with
        | error e =>
          refine ⟨c1, c6, c3, c5, c8, ?_⟩
          intro a ha
          rw [c4] at ha
          exact Or.inl ha
        | ok stack =>
          dsimp only
          by_cases hlen : stack.length ≠ 1
          · rw [if_pos hlen]
            refine ⟨c1, c6, c3, c5, c8, ?_⟩
            intro a ha
            rw [c4] at ha
            exact Or.inl ha
          · rw [if_neg hlen]
            refine ⟨wf_markReady r2 exprID c1, c6, c3, c5, c8, ?_⟩
            intro a ha
            rcases markReady_mem r2 exprID r2.tasks r2.readyTasks a ha with hold |
              ⟨t, hmem, hte, -, -⟩
            · rw [c4] at hold
              exact Or.inl hold
            · right
              exact ⟨t, lookup_eq_of_mem c1.taskKeysNodup hmem, hte⟩

/-- `SubmitExpression` preserves the invariant: stage one inserts a fresh
pending entry, parsing preserves the invariant, and the final status write
(`failed` or `in_process`) is never `completed`. -/
theorem wf_submitExpression (s : Service) (expression : String) (hwf : WF s) :
    WF (submitExpression s expression).2 := by
  have key : ∀ str : String,
      WF (parseExpression
        { s with
            exprCounter := s.exprCounter + 1,
            expressions := upsert s.exprCounter
              ⟨s.exprCounter, str, ExpressionStatus.pending, none⟩ s.expressions }
        s.exprCounter str).2 ∧
      (∀ m t, (parseExpression
        { s with
            exprCounter := s.exprCounter + 1,
            expressions := upsert s.exprCounter
              ⟨s.exprCounter, str, ExpressionStatus.pending, none⟩ s.expressions }
        s.exprCounter str).2.tasks.lookup m = some t →
        t.expressionId = s.exprCounter → t.result = none) := by
    intro str
    have hst : ∀ e2 : ExpressionData,
        (upsert s.exprCounter ⟨s.exprCounter, str, ExpressionStatus.pending, none⟩
          s.expressions).lookup s.exprCounter = some e2 →
        e2.status ≠ ExpressionStatus.completed := by
      intro e2 he
      rw [lookup_upsert_self] at he
      cases he
      intro h
      cases h
    have hax : ∀ m t, s.tasks.lookup m = some t → t.expressionId = s.exprCounter →
        t.result = none := by
      intro m t hm hte
      have hbm := hwf.taskExprBound m t hm
      omega
    obtain ⟨p1, p2, -⟩ := wf_parseExpression
      { s with
          exprCounter := s.exprCounter + 1,
          expressions := upsert s.exprCounter
            ⟨s.exprCounter, str, ExpressionStatus.pending, none⟩ s.expressions }
      s.exprCounter str (wf_newExprEntry s str hwf) (Nat.lt_succ_self _) hst hax
    exact ⟨p1, p2⟩
  unfold submitExpression
  dsimp only
  split
  · rename_i e s2 heq
    obtain ⟨p1, p2⟩ := key (String.mk (expression.data.filter (fun c => c ≠ ' ')))
    rw [heq] at p1 p2
    exact wf_setExprStatus s2 s.exprCounter ExpressionStatus.failed p1
      (by intro h; cases h) p2
  · rename_i u s2 heq
    obtain ⟨p1, p2⟩ := key (String.mk (expression.data.filter (fun c => c ≠ ' ')))
    rw [heq] at p1 p2
    exact wf_setExprStatus s2 s.exprCounter ExpressionStatus.inProcess p1
      (by intro h; cases h) p2

/-! ## The invariant is preserved by result recording -/

theorem wf_setTaskResult (s : Service) (id : ℕ) (v : ℚ) (hwf : WF s) :
    WF (setTaskResult s id v).2 := by
  cases hlk : s.tasks.lookup id with
  | none =>
    unfold setTaskResult
    rw [hlk]
    exact hwf
  | some task =>
    have hgoal : (setTaskResult s id v).2 =
        updateDependencies
          (updateExpressionStatus
            { s with
                tasks := upsert id { task with result := some v } s.tasks,
                completedTasks := insertSet id s.completedTasks }
            task.expressionId) id v := by
      unfold setTaskResult
      rw [hlk]
    rw [hgoal]
    set s1 : Service :=
      { s with
          tasks := upsert id { task with result := some v } s.tasks,
          completedTasks := insertSet id s.completedTasks } with hs1
    set s2 : Service := updateExpressionStatus s1 task.expressionId with hs2
    have h1tasks : s1.tasks = upsert id { task with result := some v } s.tasks := by rw [hs1]
    have h1comp : s1.completedTasks = insertSet id s.completedTasks := by rw [hs1]
    have h1expr : s1.expressions = s.expressions := by rw [hs1]
    have h1ready : s1.readyTasks = s.readyTasks := by rw [hs1]
    have h1rev : s1.reverseDependencies = s.reverseDependencies := by rw [hs1]
    have h1cnt : s1.taskIDCounter = s.taskIDCounter := by rw [hs1]
    have h1ecnt : s1.exprCounter = s.exprCounter := by rw [hs1]
    obtain ⟨h2tasks, h2comp, h2ready, h2rev, h2cnt, h2ecnt⟩ :=
      updExpr_fields s1 task.expressionId
    rw [← hs2] at h2tasks h2comp h2ready h2rev h2cnt h2ecnt
    have h1look : ∀ k, s1.tasks.lookup k =
        if k = id then some { task with result := some v } else s.tasks.lookup k := by
      intro k
      rw [h1tasks]
      by_cases hk : k = id
      · subst hk
        rw [lookup_upsert_self, if_pos rfl]
      · rw [lookup_upsert_ne _ _ hk, if_neg hk]
    have hrev2 : ∀ m, revDepsOf s2 m = revDepsOf s m := by
      intro m
      unfold revDepsOf
      rw [h2rev, h1rev]
    have hud : updateDependencies s2 id v = (revDepsOf s id).foldl (updDepStep id v) s2 := by
      unfold updateDependencies
      rw [hrev2]
    rw [hud]
    set s3 : Service := (revDepsOf s id).foldl (updDepStep id v) s2 with hs3
    obtain ⟨h3comp, h3expr, h3rev, h3cnt, h3ecnt⟩ :=
      updFold_fields id v (revDepsOf s id) s2
    rw [← hs3] at h3comp h3expr h3rev h3cnt h3ecnt
    have h3compEq : s3.completedTasks = insertSet id s.completedTasks := by
      rw [h3comp, h2comp, h1comp]
    have h3exprEq : s3.expressions = s2.expressions := h3expr
    have h3revEq : ∀ m, revDepsOf s3 m = revDepsOf s m := by
      intro m
      unfold revDepsOf
      rw [h3rev, h2rev, h1rev]
    have h3cntEq : s3.taskIDCounter = s.taskIDCounter := by rw [h3cnt, h2cnt, h1cnt]
    have h3ecntEq : s3.exprCounter = s.exprCounter := by rw [h3ecnt, h2ecnt, h1ecnt]
    have hnotself : id ∉ revDepsOf s id := by
      intro hmem
      obtain ⟨t, ht, hd⟩ := (hwf.edge id id).mp hmem
      exact lt_irrefl id (hwf.depsLt id t ht id hd)
    have h3look : ∀ k, s3.tasks.lookup k =
        if k ∈ revDepsOf s id then (s1.tasks.lookup k).map (substTask id v)
        else s1.tasks.lookup k := by
      intro k
      rw [hs3, updFold_tasks, h2tasks]
    have hself : s3.tasks.lookup id = some { task with result := some v } := by
      rw [h3look, if_neg hnotself, h1look, if_pos rfl]
    have hcase : ∀ k, (k = id ∧ s3.tasks.lookup k = some { task with result := some v }) ∨
        (k ≠ id ∧ k ∈ revDepsOf s id ∧
          s3.tasks.lookup k = (s.tasks.lookup k).map (substTask id v)) ∨
        (k ≠ id ∧ k ∉ revDepsOf s id ∧ s3.tasks.lookup k = s.tasks.lookup k) := by
      intro k
      by_cases hk : k = id
      · subst hk
        exact Or.inl ⟨rfl, hself⟩
      · by_cases hkr : k ∈ revDepsOf s id
        · refine Or.inr (Or.inl ⟨hk, hkr, ?_⟩)
          rw [h3look, if_pos hkr, h1look, if_neg hk]
        · refine Or.inr (Or.inr ⟨hk, hkr, ?_⟩)
          rw [h3look, if_neg hkr, h1look, if_neg hk]
    have hback : ∀ k u, s3.tasks.lookup k = some u →
        ∃ u0, s.tasks.lookup k = some u0 ∧
          u.id = u0.id ∧ u.expressionId = u0.expressionId ∧
          u.dependencies = u0.dependencies ∧
          ((k ≠ id ∧ k ∉ revDepsOf s id ∧ u = u0) ∨
           (k = id ∧ u0 = task ∧ u = { task with result := some v }) ∨
           (k ≠ id ∧ k ∈ revDepsOf s id ∧ u = substTask id v u0)) := by
      intro k u hu
      rcases hcase k with ⟨hk, h⟩ | ⟨hk, hkr, h⟩ | ⟨hk, hkr, h⟩
      · subst hk
        rw [h] at hu
        cases hu
        exact ⟨task, hlk, rfl, rfl, rfl, Or.inr (Or.inl ⟨rfl, rfl, rfl⟩)⟩
      · rw [h] at hu
        cases h0 : s.tasks.lookup k with
        | none =>
          rw [h0] at hu
          simp at hu
        | some u0 =>
          rw [h0] at hu
          simp only [Option.map_some'] at hu
          cases hu
          exact ⟨u0, rfl, rfl, rfl, rfl, Or.inr (Or.inr ⟨hk, hkr, rfl⟩)⟩
      · rw [h] at hu
        exact ⟨u, hu, rfl, rfl, rfl, Or.inl ⟨hk, hkr, rfl⟩⟩
    have hfwd : ∀ k u0, s.tasks.lookup k = some u0 →
        ∃ u, s3.tasks.lookup k = some u ∧
          u.id = u0.id ∧ u.expressionId = u0.expressionId ∧
          u.dependencies = u0.dependencies ∧
          ((k ≠ id ∧ k ∉ revDepsOf s id ∧ u = u0) ∨
           (k = id ∧ u0 = task ∧ u = { task with result := some v }) ∨
           (k ≠ id ∧ k ∈ revDepsOf s id ∧ u = substTask id v u0)) := by
      intro k u0 h0
      rcases hcase k with ⟨hk, h⟩ | ⟨hk, hkr, h⟩ | ⟨hk, hkr, h⟩
      · subst hk
        rw [hlk] at h0
        cases h0
        exact ⟨_, h, rfl, rfl, rfl, Or.inr (Or.inl ⟨rfl, rfl, rfl⟩)⟩
      · rw [h0] at h
        simp only [Option.map_some'] at h
        exact ⟨substTask id v u0, h, rfl, rfl, rfl, Or.inr (Or.inr ⟨hk, hkr, rfl⟩)⟩
      · rw [h0] at h
        exact ⟨u0, h, rfl, rfl, rfl, Or.inl ⟨hk, hkr, rfl⟩⟩
    have h1keysNodup : (s1.tasks.map Prod.fst).Nodup := by
      rw [h1tasks]
      exact keys_nodup_upsert hwf.taskKeysNodup
    have h1back : ∀ k u, s1.tasks.lookup k = some u →
        ∃ u0, s.tasks.lookup k = some u0 ∧ u.expressionId = u0.expressionId ∧
          u.dependencies = u0.dependencies := by
      intro k u hu
      rw [h1look] at hu
      by_cases hk : k = id
      · subst hk
        rw [if_pos rfl] at hu
        cases hu
        exact ⟨task, hlk, rfl, rfl⟩
      · rw [if_neg hk] at hu
        exact ⟨u, hu, rfl, rfl⟩
    have h1fwd : ∀ k u0, s.tasks.lookup k = some u0 →
        ∃ u, s1.tasks.lookup k = some u ∧ u.expressionId = u0.expressionId ∧
          u.dependencies = u0.dependencies := by
      intro k u0 h0
      rw [h1look]
      by_cases hk : k = id
      · subst hk
        rw [hlk] at h0
        cases h0
        exact ⟨_, if_pos rfl, rfl, rfl⟩
      · exact ⟨u0, by rw [if_neg hk]; exact h0, rfl, rfl⟩
    have h1edge : ∀ d k, k ∈ revDepsOf s1 d ↔
        ∃ t, s1.tasks.lookup k = some t ∧ d ∈ t.dependencies := by
      intro d k
      have hr1 : revDepsOf s1 d = revDepsOf s d := by
        unfold revDepsOf
        rw [h1rev]
      rw [hr1, hwf.edge d k]
      constructor
      · rintro ⟨t, ht, hd⟩
        obtain ⟨u, hu, -, hdeps⟩ := h1fwd k t ht
        exact ⟨u, hu, by rw [hdeps]; exact hd⟩
      · rintro ⟨u, hu, hd⟩
        obtain ⟨u0, h0, -, hdeps⟩ := h1back k u hu
        rw [hdeps] at hd
        exact ⟨u0, h0, hd⟩
    have h1dlt : ∀ k t, s1.tasks.lookup k = some t → ∀ d ∈ t.dependencies, d < k := by
      intro k t ht d hd
      obtain ⟨u0, h0, -, hdeps⟩ := h1back k t ht
      rw [hdeps] at hd
      exact hwf.depsLt k u0 h0 d hd
    have h1dse : ∀ k t, s1.tasks.lookup k = some t → ∀ d ∈ t.dependencies,
        ∃ u, s1.tasks.lookup d = some u ∧ u.expressionId = t.expressionId := by
      intro k t ht d hd
      obtain ⟨u0, h0, he0, hdeps⟩ := h1back k t ht
      rw [hdeps] at hd
      obtain ⟨w, hw, hwe⟩ := hwf.depsSameExpr k u0 h0 d hd
      obtain ⟨w1, hw1, hw1e, -⟩ := h1fwd d w hw
      exact ⟨w1, hw1, by rw [hw1e, hwe, he0]⟩
    have hED13 : ∀ k e, ExprDone s3 k e ↔ ExprDone s1 k e := by
      intro k e
      apply exprDone_congr
      · intro m
        cases hm : s1.tasks.lookup m with
        | none =>
          left
          constructor
          · rw [h3look]
            by_cases hmr : m ∈ revDepsOf s id
            · rw [if_pos hmr, hm]
              rfl
            · rw [if_neg hmr]
              exact hm
          · rfl
        | some u =>
          right
          by_cases hmr : m ∈ revDepsOf s id
          · refine ⟨u, substTask id v u, rfl, ?_, rfl, fun _ => rfl⟩
            rw [h3look, if_pos hmr, hm]
            rfl
          · refine ⟨u, u, rfl, ?_, rfl, fun _ => rfl⟩
            rw [h3look, if_neg hmr]
            exact hm
      · intro m
        have hr1 : revDepsOf s1 m = revDepsOf s m := by
          unfold revDepsOf
          rw [h1rev]
        rw [h3revEq m, hr1]
    have hED1s : ∀ k e, k ≠ task.expressionId → (ExprDone s1 k e ↔ ExprDone s k e) := by
      intro k e hkE
      apply exprDone_congr
      · intro m
        by_cases hm : m = id
        · subst hm
          right
          refine ⟨task, { task with result := some v }, hlk, ?_, rfl, ?_⟩
          · rw [h1look, if_pos rfl]
          · intro hE
            exact absurd hE (Ne.symm hkE)
        · cases h0 : s.tasks.lookup m with
          | none =>
            left
            refine ⟨?_, rfl⟩
            rw [h1look, if_neg hm]
            exact h0
          | some u0 =>
            right
            refine ⟨u0, u0, rfl, ?_, rfl, fun _ => rfl⟩
            rw [h1look, if_neg hm]
            exact h0
      · intro m
        unfold revDepsOf
        rw [h1rev]
    have hscan1_iff :
        (scanTasks task.expressionId s1.reverseDependencies s1.tasks none).1 = true ↔
        ∀ m t, s1.tasks.lookup m = some t → t.expressionId = task.expressionId →
          t.result.isSome = true := by
      rw [scan_fst_iff]
      constructor
      · intro h m t hm ht
        exact h (m, t) (mem_of_lookup hm) ht
      · intro h p hp hpe
        exact h p.1 p.2 (lookup_eq_of_mem h1keysNodup hp) hpe
    constructor
    · rw [hs3]
      apply updFold_keysNodup
      rw [h2tasks]
      exact h1keysNodup
    · rw [h3exprEq]
      rcases updExpr_char s1 task.expressionId with ⟨-, heq⟩ | ⟨ed, -, -, heq⟩ |
        ⟨ed, -, -, -, heq⟩ | ⟨ed, r, -, -, -, heq⟩
      · rw [hs2, heq, h1expr]
        exact hwf.exprKeysNodup
      · rw [hs2, heq, h1expr]
        exact hwf.exprKeysNodup
      · rw [hs2, heq, h1expr]
        exact hwf.exprKeysNodup
      · rw [hs2, heq]
        have hnd : ((upsert task.expressionId
            { ed with status := ExpressionStatus.completed, result := some r }
            s1.expressions).map Prod.fst).Nodup := by
          apply keys_nodup_upsert
          rw [h1expr]
          exact hwf.exprKeysNodup
        exact hnd
    · intro k u hk
      obtain ⟨u0, h0, hid, -, -, -⟩ := hback k u hk
      rw [hid]
      exact hwf.taskIdField k u0 h0
    · intro k u hk
      obtain ⟨u0, h0, -⟩ := hback k u hk
      rw [h3cntEq]
      exact hwf.taskKeyBound k u0 h0
    · intro k u hk
      obtain ⟨u0, h0, -, he, -, -⟩ := hback k u hk
      rw [h3ecntEq, he]
      exact hwf.taskExprBound k u0 h0
    · intro k u hk d hd
      obtain ⟨u0, h0, -, -, hdeps, -⟩ := hback k u hk
      rw [hdeps] at hd
      exact hwf.depsLt k u0 h0 d hd
    · intro k u hk d hd
      obtain ⟨u0, h0, -, he, hdeps, -⟩ := hback k u hk
      rw [hdeps] at hd
      obtain ⟨w, hw, hwe⟩ := hwf.depsSameExpr k u0 h0 d hd
      obtain ⟨w2, hw2, -, hwe2, -, -⟩ := hfwd d w hw
      exact ⟨w2, hw2, by rw [hwe2, hwe, he]⟩
    · intro d k
      rw [h3revEq d, hwf.edge d k]
      constructor
      · rintro ⟨t, ht, hd⟩
        obtain ⟨u, hu, -, -, hdeps, -⟩ := hfwd k t ht
        exact ⟨u, hu, by rw [hdeps]; exact hd⟩
      · rintro ⟨u, hu, hd⟩
        obtain ⟨u0, h0, -, -, hdeps, -⟩ := hback k u hu
        rw [hdeps] at hd
        exact ⟨u0, h0, hd⟩
    · intro k u hk str hstr
      obtain ⟨u0, h0, -, -, -, hdisj⟩ := hback k u hk
      rcases hdisj with ⟨-, -, rfl⟩ | ⟨-, hu0, rfl⟩ | ⟨-, -, rfl⟩
      · exact hwf.argTok k _ h0 str hstr
      · rw [hu0] at h0
        exact hwf.argTok k _ h0 str hstr
      · rcases hstr with h1 | h1
        · rcases substArg_tok h1 with h2 | h2
          · exact hwf.argTok k u0 h0 str (Or.inl h2)
          · rw [h2]
            exact formatRat_isNumber v
        · rcases substArg_tok h1 with h2 | h2
          · exact hwf.argTok k u0 h0 str (Or.inr h2)
          · rw [h2]
            exact formatRat_isNumber v
    · intro k u hk n hn
      obtain ⟨u0, h0, -, -, -, hdisj⟩ := hback k u hk
      rcases hdisj with ⟨hkid, hkr, rfl⟩ | ⟨hkid, hu0, rfl⟩ | ⟨hkid, hkr, rfl⟩
      · obtain ⟨hmem, hncomp⟩ := hwf.argTid k _ h0 n hn
        have hnid : n ≠ id := by
          rintro rfl
          exact hkr ((hwf.edge _ _).mpr ⟨_, h0, hmem⟩)
        refine ⟨hmem, ?_⟩
        rw [h3compEq]
        intro hmemc
        rcases mem_insertSet.mp hmemc with heq | hc
        · exact hnid heq
        · exact hncomp hc
      · rw [hu0] at h0
        obtain ⟨hmem, hncomp⟩ := hwf.argTid k _ h0 n hn
        have hnid : n ≠ id := by
          rintro rfl
          subst hkid
          exact hnotself ((hwf.edge _ _).mpr ⟨_, h0, hmem⟩)
        refine ⟨hmem, ?_⟩
        rw [h3compEq]
        intro hmemc
        rcases mem_insertSet.mp hmemc with heq | hc
        · exact hnid heq
        · exact hncomp hc
      · rcases hn with h1 | h1
        · obtain ⟨ha, hne⟩ := substArg_tid h1
          obtain ⟨hmem, hncomp⟩ := hwf.argTid k u0 h0 n (Or.inl ha)
          refine ⟨hmem, ?_⟩
          rw [h3compEq]
          intro hmemc
          rcases mem_insertSet.mp hmemc with heq | hc
          · exact hne heq
          · exact hncomp hc
        · obtain ⟨ha, hne⟩ := substArg_tid h1
          obtain ⟨hmem, hncomp⟩ := hwf.argTid k u0 h0 n (Or.inr ha)
          refine ⟨hmem, ?_⟩
          rw [h3compEq]
          intro hmemc
          rcases mem_insertSet.mp hmemc with heq | hc
          · exact hne heq
          · exact hncomp hc
    · intro k u hk n hnd
      obtain ⟨u0, h0, -, -, hdeps, hdisj⟩ := hback k u hk
      rw [hdeps] at hnd
      rcases hdisj with ⟨-, -, rfl⟩ | ⟨-, hu0, rfl⟩ | ⟨-, -, rfl⟩
      · rcases hwf.argCover k _ h0 n hnd with h1 | h1 | h1
        · exact Or.inl h1
        · exact Or.inr (Or.inl h1)
        · refine Or.inr (Or.inr ?_)
          rw [h3compEq]
          exact mem_insertSet.mpr (Or.inr h1)
      · rw [hu0] at h0 hnd
        rcases hwf.argCover k _ h0 n hnd with h1 | h1 | h1
        · exact Or.inl h1
        · exact Or.inr (Or.inl h1)
        · refine Or.inr (Or.inr ?_)
          rw [h3compEq]
          exact mem_insertSet.mpr (Or.inr h1)
      · rcases hwf.argCover k u0 h0 n hnd with h1 | h1 | h1
        · by_cases hnid : n = id
          · subst hnid
            refine Or.inr (Or.inr ?_)
            rw [h3compEq]
            exact mem_insertSet.mpr (Or.inl rfl)
          · left
            show substArg id v u0.arg1 = Arg.tid n
            rw [h1]
            exact substArg_tid_keep v hnid
        · by_cases hnid : n = id
          · subst hnid
            refine Or.inr (Or.inr ?_)
            rw [h3compEq]
            exact mem_insertSet.mpr (Or.inl rfl)
          · right
            left
            show substArg id v u0.arg2 = Arg.tid n
            rw [h1]
            exact substArg_tid_keep v hnid
        · refine Or.inr (Or.inr ?_)
          rw [h3compEq]
          exact mem_insertSet.mpr (Or.inr h1)
    · rw [hs3]
      apply updFold_ready_nodup
      rw [h2ready, h1ready]
      exact hwf.readyNodup
    · intro a ha
      rw [hs3] at ha
      rcases updFold_ready_mem id v (revDepsOf s id) s2 a ha with hold | ⟨har, t2, hlk2, hdeps2⟩
      · rw [h2ready, h1ready] at hold
        obtain ⟨t0, h0, hn1, hn2, hdeps⟩ := hwf.readyInv a hold
        obtain ⟨u, hu, -, -, hudeps, hdisj⟩ := hfwd a t0 h0
        refine ⟨u, hu, ?_, ?_, ?_⟩
        · rcases hdisj with ⟨-, -, rfl⟩ | ⟨-, ht0, rfl⟩ | ⟨-, -, rfl⟩
          · exact hn1
          · rw [ht0] at hn1
            exact hn1
          · obtain ⟨str, hstr, hnum⟩ := numericArg_tok hn1
            show numericArg (substArg id v t0.arg1) = true
            rw [hstr, substArg_tok_keep]
            exact hnum
        · rcases hdisj with ⟨-, -, rfl⟩ | ⟨-, ht0, rfl⟩ | ⟨-, -, rfl⟩
          · exact hn2
          · rw [ht0] at hn2
            exact hn2
          · obtain ⟨str, hstr, hnum⟩ := numericArg_tok hn2
            show numericArg (substArg id v t0.arg2) = true
            rw [hstr, substArg_tok_keep]
            exact hnum
        · intro d hd
          rw [hudeps] at hd
          rw [h3compEq]
          exact mem_insertSet.mpr (Or.inr (hdeps d hd))
      · have hanid : a ≠ id := by
          rintro rfl
          exact hnotself har
        rw [h2tasks, h1look, if_neg hanid] at hlk2
        have hcompdeps : ∀ m ∈ t2.dependencies, m ∈ insertSet id s.completedTasks := by
          intro m hm
          have hm2 := hdeps2 m hm
          rw [h2comp, h1comp] at hm2
          exact hm2
        have hu3 : s3.tasks.lookup a = some (substTask id v t2) := by
          rw [h3look, if_pos har, h1look, if_neg hanid, hlk2]
          rfl
        refine ⟨substTask id v t2, hu3, ?_, ?_, ?_⟩
        · show numericArg (substArg id v t2.arg1) = true
          cases harg : t2.arg1 with
          | tok str =>
            rw [substArg_tok_keep]
            exact hwf.argTok a t2 hlk2 str (Or.inl harg)
          | tid n =>
            obtain ⟨hmem, hncomp⟩ := hwf.argTid a t2 hlk2 n (Or.inl harg)
            rcases mem_insertSet.mp (hcompdeps n hmem) with heq | hc
            · subst heq
              rw [substArg_self]
              exact formatRat_isNumber v
            · exact absurd hc hncomp
        · show numericArg (substArg id v t2.arg2) = true
          cases harg : t2.arg2 with
          | tok str =>
            rw [substArg_tok_keep]
            exact hwf.argTok a t2 hlk2 str (Or.inr harg)
          | tid n =>
            obtain ⟨hmem, hncomp⟩ := hwf.argTid a t2 hlk2 n (Or.inr harg)
            rcases mem_insertSet.mp (hcompdeps n hmem) with heq | hc
            · subst heq
              rw [substArg_self]
              exact formatRat_isNumber v
            · exact absurd hc hncomp
        · intro d hd
          rw [substArg_deps] at hd
          rw [h3compEq]
          exact hcompdeps d hd
    · intro a ha
      rw [h3compEq] at ha
      rcases mem_insertSet.mp ha with heq | hc
      · subst heq
        exact ⟨{ task with result := some v }, hself, rfl⟩
      · obtain ⟨t0, h0, hres⟩ := hwf.completedInv a hc
        obtain ⟨u, hu, -, -, -, hdisj⟩ := hfwd a t0 h0
        refine ⟨u, hu, ?_⟩
        rcases hdisj with ⟨-, -, rfl⟩ | ⟨-, ht0, rfl⟩ | ⟨-, -, rfl⟩
        · exact hres
        · rfl
        · exact hres
    · intro k e hke
      rw [h3exprEq] at hke
      rw [hED13 k e]
      rcases updExpr_char s1 task.expressionId with ⟨hnone, heq⟩ | ⟨ed, hed, hscanF, heq⟩ |
        ⟨ed, hed, hscanT, hscanN, heq⟩ | ⟨ed, r, hed, hscanT, hscanS, heq⟩
      · rw [hs2, heq, h1expr] at hke
        have hkE : k ≠ task.expressionId := by
          rintro rfl
          rw [h1expr] at hnone
          rw [hnone] at hke
          cases hke
        rw [hED1s k e hkE]
        exact hwf.exprCompletion k e hke
      · rw [hs2, heq] at hke
        by_cases hkE : k = task.expressionId
        · subst hkE
          constructor
          · intro hst
            exfalso
            have hkes : s.expressions.lookup task.expressionId = some e := by
              rw [← h1expr]
              exact hke
            have hdone := (hwf.exprCompletion task.expressionId e hkes).mp hst
            have hall : ∀ m t, s1.tasks.lookup m = some t →
                t.expressionId = task.expressionId → t.result.isSome = true := by
              intro m t hm ht
              rw [h1look] at hm
              by_cases hmid : m = id
              · subst hmid
                rw [if_pos rfl] at hm
                cases hm
                rfl
              · rw [if_neg hmid] at hm
                exact hdone.1 m t hm ht
            have htrue := hscan1_iff.mpr hall
            rw [htrue] at hscanF
            cases hscanF
          · intro hdone1
            exfalso
            have htrue := hscan1_iff.mpr hdone1.1
            rw [htrue] at hscanF
            cases hscanF
        · rw [h1expr] at hke
          rw [hED1s k e hkE]
          exact hwf.exprCompletion k e hke
      · exfalso
        have hid1 : s1.tasks.lookup id = some { task with result := some v } := by
          rw [h1look, if_pos rfl]
        obtain ⟨m, t, hmt, htE, hroot⟩ :=
          wf_root_exists h1keysNodup h1edge h1dlt h1dse task.expressionId hid1 rfl
        have hroot2 : (s1.reverseDependencies.lookup m).getD [] = [] := hroot
        have hsome := scan_snd_isSome task.expressionId s1.reverseDependencies s1.tasks none
          hscanT m t (mem_of_lookup hmt) htE (by rw [hroot2]; rfl)
        rw [hscanN] at hsome
        cases hsome
      · rw [hs2, heq] at hke
        have hke2 : (upsert task.expressionId
            { ed with status := ExpressionStatus.completed, result := some r }
            s1.expressions).lookup k = some e := hke
        by_cases hkE : k = task.expressionId
        · subst hkE
          rw [lookup_upsert_self] at hke2
          cases hke2
          constructor
          · intro hst
            refine ⟨fun m t hm ht => hscan1_iff.mp hscanT m t hm ht, ?_⟩
            rcases scan_snd_some task.expressionId s1.reverseDependencies s1.tasks none r hscanS
              with ⟨p, hp, hpe, hpemp, hpres⟩ | hacc
            · refine ⟨p.1, p.2, lookup_eq_of_mem h1keysNodup hp, hpe, ?_, ?_⟩
              · show (s1.reverseDependencies.lookup p.1).getD [] = []
                exact list_isEmpty_eq_nil hpemp
              · exact hpres.symm
            · cases hacc
          · intro hdone1
            rfl
        · rw [lookup_upsert_ne _ _ hkE, h1expr] at hke2
          rw [hED1s k e hkE]
          exact hwf.exprCompletion k e hke2

/-- State-change summary of `SubmitExpression`: old tasks survive
unchanged, the completed set is untouched, and every ready-set member is
either an old one or a task of the freshly allocated expression. -/
theorem submit_effects (s : Service) (expression : String) (hwf : WF s) :
    (∀ k t, s.tasks.lookup k = some t →
      (submitExpression s expression).2.tasks.lookup k = some t) ∧
    (submitExpression s expression).2.completedTasks = s.completedTasks ∧
    (∀ a ∈ (submitExpression s expression).2.readyTasks, a ∈ s.readyTasks ∨
      ∃ t, (submitExpression s expression).2.tasks.lookup a = some t ∧
        t.expressionId = s.exprCounter) := by
  have key : ∀ str : String,
      (∀ k t, s.tasks.lookup k = some t →
        (parseExpression
          { s with
              exprCounter := s.exprCounter + 1,
              expressions := upsert s.exprCounter
                ⟨s.exprCounter, str, ExpressionStatus.pending, none⟩ s.expressions }
          s.exprCounter str).2.tasks.lookup k = some t) ∧
      (parseExpression
        { s with
            exprCounter := s.exprCounter + 1,
            expressions := upsert s.exprCounter
              ⟨s.exprCounter, str, ExpressionStatus.pending, none⟩ s.expressions }
        s.exprCounter str).2.completedTasks = s.completedTasks ∧
      (∀ a ∈ (parseExpression
          { s with
              exprCounter := s.exprCounter + 1,
              expressions := upsert s.exprCounter
                ⟨s.exprCounter, str, ExpressionStatus.pending, none⟩ s.expressions }
          s.exprCounter str).2.readyTasks, a ∈ s.readyTasks ∨
        ∃ t, (parseExpression
          { s with
              exprCounter := s.exprCounter + 1,
              expressions := upsert s.exprCounter
                ⟨s.exprCounter, str, ExpressionStatus.pending, none⟩ s.expressions }
          s.exprCounter str).2.tasks.lookup a = some t ∧
          t.expressionId = s.exprCounter) := by
    intro str
    have hst : ∀ e2 : ExpressionData,
        (upsert s.exprCounter ⟨s.exprCounter, str, ExpressionStatus.pending, none⟩
          s.expressions).lookup s.exprCounter = some e2 →
        e2.status ≠ ExpressionStatus.completed := by
      intro e2 he
      rw [lookup_upsert_self] at he
      cases he
      intro h
      cases h
    have hax : ∀ m t, s.tasks.lookup m = some t → t.expressionId = s.exprCounter →
        t.result = none := by
      intro m t hm hte
      have hbm := hwf.taskExprBound m t hm
      omega
    obtain ⟨-, -, -, p4, p5, p6⟩ := wf_parseExpression
      { s with
          exprCounter := s.exprCounter + 1,
          expressions := upsert s.exprCounter
            ⟨s.exprCounter, str, ExpressionStatus.pending, none⟩ s.expressions }
      s.exprCounter str (wf_newExprEntry s str hwf) (Nat.lt_succ_self _) hst hax
    exact ⟨p5, p4, p6⟩
  unfold submitExpression
  dsimp only
  split
  · rename_i e s2 heq
    obtain ⟨p5, p4, p6⟩ := key (String.mk (expression.data.filter (fun c => c ≠ ' ')))
    rw [heq] at p5 p4 p6
    obtain ⟨hts, hcp, hrd, -, -, -⟩ :=
      setExprStatus_fields s2 s.exprCounter ExpressionStatus.failed
    refine ⟨?_, ?_, ?_⟩
    · intro k t hk
      rw [hts]
      exact p5 k t hk
    · rw [hcp]
      exact p4
    · intro a ha
      rw [hrd] at ha
      rcases p6 a ha with h | ⟨t, ht, hte⟩
      · exact Or.inl h
      · right
        refine ⟨t, ?_, hte⟩
        rw [hts]
        exact ht
  · rename_i u s2 heq
    obtain ⟨p5, p4, p6⟩ := key (String.mk (expression.data.filter (fun c => c ≠ ' ')))
    rw [heq] at p5 p4 p6
    obtain ⟨hts, hcp, hrd, -, -, -⟩ :=
      setExprStatus_fields s2 s.exprCounter ExpressionStatus.inProcess
    refine ⟨?_, ?_, ?_⟩
    · intro k t hk
      rw [hts]
      exact p5 k t hk
    · rw [hcp]
      exact p4
    · intro a ha
      rw [hrd] at ha
      rcases p6 a ha with h | ⟨t, ht, hte⟩
      · exact Or.inl h
      · right
        refine ⟨t, ?_, hte⟩
        rw [hts]
        exact ht

/-! ## The invariant holds in every reachable state -/

theorem wf_newService (ot : OperationTimes) : WF (newService ot) := by
  constructor
  · exact List.nodup_nil
  · exact List.nodup_nil
  · intro k t hk
    cases hk
  · intro k t hk
    cases hk
  · intro k t hk
    cases hk
  · intro k t hk
    cases hk
  · intro k t hk
    cases hk
  · intro d k
    constructor
    · intro h
      cases h
    · rintro ⟨t, ht, -⟩
      cases ht
  · intro k t hk
    cases hk
  · intro k t hk
    cases hk
  · intro k t hk
    cases hk
  · exact List.nodup_nil
  · intro a ha
    cases ha
  · intro c hc
    cases hc
  · intro k e hke
    cases hke

theorem wf_stepOp (s : Service) (op : Op) (hwf : WF s) : WF (stepOp s op) := by
  cases op with
  | submit e => exact wf_submitExpression s e hwf
  | pull c => exact wf_getTask s c hwf
  | record id v => exact wf_setTaskResult s id v hwf

theorem wf_reachable {s : Service} (h : Reachable s) : WF s := by
  induction h with
  | init ot => exact wf_newService ot
  | step s op _ ih => exact wf_stepOp s op ih

theorem reachable_runOps (s : Service) (tr : List Op) (h : Reachable s) :
    Reachable (runOps s tr) := by
  induction tr generalizing s with
  | nil => exact h
  | cons op ops ih => exact ih (stepOp s op) (Reachable.step s op h)

/-! ## Characterizing result recording, and pull uniqueness -/

/-- State-change summary of a successful `SetTaskResult`: the call reports
success, completes the id, rewrites every dependent's task-id operands, and
inserts into the ready set exactly the dependents whose dependencies are
all completed afterwards. -/
theorem setTaskResult_char (s : Service) (d : ℕ) (v : ℚ) (task : Task)
    (hlk : s.tasks.lookup d = some task) :
    (setTaskResult s d v).1 = .ok () ∧
    (setTaskResult s d v).2.completedTasks = insertSet d s.completedTasks ∧
    (∀ k, (setTaskResult s d v).2.tasks.lookup k =
      if k ∈ revDepsOf s d then
        ((if k = d then some { task with result := some v } else s.tasks.lookup k).map
          (substTask d v))
      else (if k = d then some { task with result := some v } else s.tasks.lookup k)) ∧
    (∀ a ∈ (setTaskResult s d v).2.readyTasks, a ∈ s.readyTasks ∨
      (a ∈ revDepsOf s d ∧ ∃ t2,
        (if a = d then some { task with result := some v } else s.tasks.lookup a) =
          some t2 ∧
        ∀ m ∈ t2.dependencies, m ∈ insertSet d s.completedTasks)) ∧
    (∀ k, k ∈ revDepsOf s d → k ≠ d → ∀ t2, s.tasks.lookup k = some t2 →
      (setTaskResult s d v).2.tasks.lookup k = some (substTask d v t2) ∧
      ((∀ m ∈ t2.dependencies, m ∈ insertSet d s.completedTasks) →
        k ∈ (setTaskResult s d v).2.readyTasks)) := by
  have hfst : (setTaskResult s d v).1 = .ok () := by
    unfold setTaskResult
    rw [hlk]
  have hgoal : (setTaskResult s d v).2 =
      updateDependencies
        (updateExpressionStatus
          { s with
              tasks := upsert d { task with result := some v } s.tasks,
              completedTasks := insertSet d s.completedTasks }
          task.expressionId) d v := by
    unfold setTaskResult
    rw [hlk]
  rw [hgoal]
  set s1 : Service :=
    { s with
        tasks := upsert d { task with result := some v } s.tasks,
        completedTasks := insertSet d s.completedTasks } with hs1
  set s2 : Service := updateExpressionStatus s1 task.expressionId with hs2
  have h1tasks : s1.tasks = upsert d { task with result := some v } s.tasks := by rw [hs1]
  have h1comp : s1.completedTasks = insertSet d s.completedTasks := by rw [hs1]
  have h1ready : s1.readyTasks = s.readyTasks := by rw [hs1]
  have h1rev : s1.reverseDependencies = s.reverseDependencies := by rw [hs1]
  obtain ⟨h2tasks, h2comp, h2ready, h2rev, -, -⟩ := updExpr_fields s1 task.expressionId
  rw [← hs2] at h2tasks h2comp h2ready h2rev
  have h1look : ∀ k, s1.tasks.lookup k =
      if k = d then some { task with result := some v } else s.tasks.lookup k := by
    intro k
    rw [h1tasks]
    by_cases hk : k = d
    · subst hk
      rw [lookup_upsert_self, if_pos rfl]
    · rw [lookup_upsert_ne _ _ hk, if_neg hk]
  have hrev2 : ∀ m, revDepsOf s2 m = revDepsOf s m := by
    intro m
    unfold revDepsOf
    rw [h2rev, h1rev]
  have hud : updateDependencies s2 d v = (revDepsOf s d).foldl (updDepStep d v) s2 := by
    unfold updateDependencies
    rw [hrev2]
  rw [hud]
  obtain ⟨h3comp, -, -, -, -⟩ := updFold_fields d v (revDepsOf s d) s2
  refine ⟨hfst, ?_, ?_, ?_, ?_⟩
  · rw [h3comp, h2comp, h1comp]
  · intro k
    rw [updFold_tasks, h2tasks, h1look]
  · intro a ha
    rcases updFold_ready_mem d v (revDepsOf s d) s2 a ha with hold | ⟨har, t2, hlk2, hdeps2⟩
    · rw [h2ready, h1ready] at hold
      exact Or.inl hold
    · right
      rw [h2tasks, h1look] at hlk2
      refine ⟨har, t2, hlk2, ?_⟩
      intro m hm
      have hm2 := hdeps2 m hm
      rw [h2comp, h1comp] at hm2
      exact hm2
  · intro k hkr hkd t2 hkt
    constructor
    · rw [updFold_tasks, if_pos hkr, h2tasks, h1look, if_neg hkd, hkt]
      rfl
    · intro hdeps
      apply updFold_ready_insert d v (revDepsOf s d) s2 k hkr
      refine ⟨t2, ?_, ?_⟩
      · rw [h2tasks, h1look, if_neg hkd]
        exact hkt
      · intro m hm
        rw [h2comp, h1comp]
        exact hdeps m hm

theorem pullInv_submit (s : Service) (e : String) (P R : List ℕ) (hwf : WF s)
    (hinv : PullInv s P R) : PullInv (submitExpression s e).2 P R := by
  obtain ⟨h1, h2, h3, h4⟩ := hinv
  obtain ⟨e1, e2, e3⟩ := submit_effects s e hwf
  refine ⟨h1, ?_, ?_, ?_⟩
  · intro a ha haP
    rcases e3 a ha with hold | ⟨t, ht, hte⟩
    · exact h2 a hold haP
    · obtain ⟨t0, hlk0, -⟩ := h3 a haP
      have hpr := e1 a t0 hlk0
      rw [ht] at hpr
      have heq2 := Option.some.inj hpr
      rw [heq2] at hte
      have hb := hwf.taskExprBound a t0 hlk0
      omega
  · intro a haP
    obtain ⟨t0, hlk0, hdeps⟩ := h3 a haP
    refine ⟨t0, e1 a t0 hlk0, ?_⟩
    intro dd hd
    rw [e2]
    exact hdeps dd hd
  · intro c hc
    rw [e2] at hc
    exact h4 c hc

theorem pullInv_pull (s : Service) (c : ℕ) (P R : List ℕ) (hwf : WF s)
    (hinv : PullInv s P R) :
    PullInv (getTask s c).2 (P ++ pullResult s (Op.pull c)) R := by
  obtain ⟨h1, h2, h3, h4⟩ := hinv
  rcases getTask_cases s c with ⟨hr1, hr2⟩ | ⟨t, hc, hlk, hr1, hr2⟩
  · have hpr : pullResult s (Op.pull c) = [] := by
      unfold pullResult
      dsimp only
      rw [hr1]
    rw [hpr, hr2, List.append_nil]
    exact ⟨h1, h2, h3, h4⟩
  · have hpr : pullResult s (Op.pull c) = [c] := by
      unfold pullResult
      dsimp only
      rw [hr1]
      show [t.id] = [c]
      rw [hwf.taskIdField c t hlk]
    rw [hpr, hr2]
    have hcP : c ∉ P := h2 c hc
    refine ⟨?_, ?_, ?_, h4⟩
    · refine List.Nodup.append h1 (List.nodup_singleton c) ?_
      intro a haP hac
      rw [List.mem_singleton.mp hac] at haP
      exact hcP haP
    · intro a ha haP
      have ha2 : a ∈ s.readyTasks.erase c := ha
      have ha3 := List.mem_of_mem_erase ha2
      rcases List.mem_append.mp haP with hp | hc2
      · exact h2 a ha3 hp
      · obtain ⟨hne, -⟩ := (hwf.readyNodup.mem_erase_iff).mp ha2
        exact hne (List.mem_singleton.mp hc2)
    · intro a haP
      rcases List.mem_append.mp haP with hp | hc2
      · obtain ⟨t0, hlk0, hdeps⟩ := h3 a hp
        have haneC : a ≠ c := fun h => hcP (h ▸ hp)
        refine ⟨t0, ?_, hdeps⟩
        show (upsert c { t with status := "processing" } s.tasks).lookup a = some t0
        rw [lookup_upsert_ne _ _ haneC]
        exact hlk0
      · have hac : a = c := List.mem_singleton.mp hc2
        subst hac
        obtain ⟨t1, hlk1, -, -, hdeps1⟩ := hwf.readyInv a hc
        rw [hlk] at hlk1
        cases hlk1
        refine ⟨{ t with status := "processing" }, ?_, ?_⟩
        · show (upsert a { t with status := "processing" } s.tasks).lookup a = _
          rw [lookup_upsert_self]
        · intro dd hd
          exact hdeps1 dd hd

theorem pullInv_record (s : Service) (d : ℕ) (v : ℚ) (P R : List ℕ) (hwf : WF s)
    (hinv : PullInv s P R) (hdR : d ∉ R) :
    PullInv (setTaskResult s d v).2 P (R ++ [d]) := by
  obtain ⟨h1, h2, h3, h4⟩ := hinv
  cases hlk : s.tasks.lookup d with
  | none =>
    have hs : (setTaskResult s d v).2 = s := by
      unfold setTaskResult
      rw [hlk]
    rw [hs]
    refine ⟨h1, h2, h3, ?_⟩
    intro c hc
    exact List.mem_append.mpr (Or.inl (h4 c hc))
  | some task =>
    obtain ⟨-, hcomp, hlook, hready, -⟩ := setTaskResult_char s d v task hlk
    refine ⟨h1, ?_, ?_, ?_⟩
    · intro a ha haP
      rcases hready a ha with hold | ⟨har, t2, -, -⟩
      · exact h2 a hold haP
      · obtain ⟨t0, hlk0, hdeps0⟩ := h3 a haP
        obtain ⟨t3, hlk3, hdmem⟩ := (hwf.edge d a).mp har
        rw [hlk0] at hlk3
        cases hlk3
        exact hdR (h4 d (hdeps0 d hdmem))
    · intro a haP
      obtain ⟨t0, hlk0, hdeps0⟩ := h3 a haP
      have hcompdeps : ∀ m ∈ t0.dependencies,
          m ∈ (setTaskResult s d v).2.completedTasks := by
        intro m hm
        rw [hcomp]
        exact mem_insertSet.mpr (Or.inr (hdeps0 m hm))
      by_cases had : a = d
      · subst had
        rw [hlk] at hlk0
        cases hlk0
        by_cases hmem : a ∈ revDepsOf s a
        · refine ⟨substTask a v { task with result := some v }, ?_, ?_⟩
          · rw [hlook, if_pos hmem, if_pos rfl]
            rfl
          · intro m hm
            rw [substArg_deps] at hm
            exact hcompdeps m hm
        · refine ⟨{ task with result := some v }, ?_, ?_⟩
          · rw [hlook, if_neg hmem, if_pos rfl]
          · intro m hm
            exact hcompdeps m hm
      · by_cases hmem : a ∈ revDepsOf s d
        · refine ⟨substTask d v t0, ?_, ?_⟩
          · rw [hlook, if_pos hmem, if_neg had, hlk0]
            rfl
          · intro m hm
            rw [substArg_deps] at hm
            exact hcompdeps m hm
        · refine ⟨t0, ?_, hcompdeps⟩
          rw [hlook, if_neg hmem, if_neg had]
          exact hlk0
    · intro c hc
      rw [hcomp] at hc
      rcases mem_insertSet.mp hc with heq | hcc
      · rw [heq]
        exact List.mem_append.mpr (Or.inr (List.mem_singleton.mpr rfl))
      · exact List.mem_append.mpr (Or.inl (h4 c hcc))

theorem pulled_nodup_aux (tr : List Op) : ∀ (s : Service) (P R : List ℕ),
    WF s → PullInv s P R → (R ++ recordIds tr).Nodup →
    (P ++ pulledIds s tr).Nodup := by
  induction tr with
  | nil =>
    intro s P R hwf hinv hR
    have hn : pulledIds s ([] : List Op) = [] := rfl
    rw [hn, List.append_nil]
    exact hinv.1
  | cons op ops ih =>
    intro s P R hwf hinv hR
    cases op with
    | submit e =>
      have heq : pulledIds s (Op.submit e :: ops) =
          pulledIds (stepOp s (Op.submit e)) ops := rfl
      rw [heq]
      exact ih _ P R (wf_stepOp s _ hwf) (pullInv_submit s e P R hwf hinv) hR
    | pull c =>
      have heq : pulledIds s (Op.pull c :: ops) =
          pullResult s (Op.pull c) ++ pulledIds (stepOp s (Op.pull c)) ops := rfl
      rw [heq, ← List.append_assoc]
      exact ih _ (P ++ pullResult s (Op.pull c)) R (wf_stepOp s _ hwf)
        (pullInv_pull s c P R hwf hinv) hR
    | record dd v =>
      have heq : pulledIds s (Op.record dd v :: ops) =
          pulledIds (stepOp s (Op.record dd v)) ops := rfl
      rw [heq]
      have hR2 : ((R ++ [dd]) ++ recordIds ops).Nodup := by
        rw [List.append_assoc]
        exact hR
      have hdR : dd ∉ R := by
        rcases List.nodup_append.mp hR with ⟨-, -, hdisj⟩
        intro hdd
        exact hdisj hdd (List.mem_cons_self _ _)
      exact ih _ P (R ++ [dd]) (wf_stepOp s _ hwf)
        (pullInv_record s dd v P R hwf hinv hdR) hR2

/-! ## Claim theorems: pull uniqueness, completion, re-recording, ready operands -/

/-- C2 (amended): along any operation trace in which each task id is passed
to `SetTaskResult` at most once, every task id is returned by at most one
successful pull. -/
theorem C2_no_duplicate_records_unique_pull (ot : OperationTimes) (tr : List Op)
    (h : (recordIds tr).Nodup) : (pulledIds (newService ot) tr).Nodup := by
  have hinv : PullInv (newService ot) [] [] := by
    refine ⟨List.nodup_nil, ?_, ?_, ?_⟩
    · intro a ha hb
      cases hb
    · intro a ha
      cases ha
    · intro c hc
      cases hc
  have hmain := pulled_nodup_aux tr (newService ot) [] [] (wf_newService ot) hinv
    (by rw [List.nil_append]; exact h)
  rw [List.nil_append] at hmain
  exact hmain

/-- C2 witness: a concrete trace with distinct record ids, whose pulls the
amended theorem proves distinct. -/
theorem C2_witness :
    (recordIds [Op.submit "2+2*2", Op.pull 1, Op.record 1 4, Op.pull 2]).Nodup ∧
    (pulledIds (newService ⟨1, 1, 1, 1⟩)
      [Op.submit "2+2*2", Op.pull 1, Op.record 1 4, Op.pull 2]).Nodup :=
  ⟨by decide, C2_no_duplicate_records_unique_pull ⟨1, 1, 1, 1⟩
    [Op.submit "2+2*2", Op.pull 1, Op.record 1 4, Op.pull 2] (by decide)⟩

/-- C3 (amended): in every reachable store state an expression's status is
`completed` exactly when every task of the expression has a recorded result
and the result of a dependent-free task of the expression has been copied
into the expression's result field. -/
theorem C3_completion_invariant {s : Service} (h : Reachable s) :
    ∀ k e, s.expressions.lookup k = some e →
      (e.status = ExpressionStatus.completed ↔ ExprDone s k e) :=
  (wf_reachable h).exprCompletion

/-- C3 witness: the invariant instantiated at the state reached by
submitting `2+2*2`, whose expression entry is `in_process`. -/
theorem C3_witness :
    (⟨0, "2+2*2", ExpressionStatus.inProcess, none⟩ : ExpressionData).status =
        ExpressionStatus.completed ↔
      ExprDone (stepOp (newService ⟨1, 1, 1, 1⟩) (Op.submit "2+2*2")) 0
        ⟨0, "2+2*2", ExpressionStatus.inProcess, none⟩ :=
  C3_completion_invariant
    (Reachable.step (newService ⟨1, 1, 1, 1⟩) (Op.submit "2+2*2")
      (Reachable.init ⟨1, 1, 1, 1⟩)) 0
    ⟨0, "2+2*2", ExpressionStatus.inProcess, none⟩ (by decide)

/-- C9: a second `SetTaskResult` for a task that already holds a result
succeeds rather than being rejected: it overwrites the stored result with
the new value, re-runs the operand substitution in every dependent, and
re-inserts into the ready set each dependent whose dependencies are all
completed. -/
theorem C9_second_record_overwrites (s : Service) (id : ℕ) (v : ℚ) (t : Task)
    (hlk : s.tasks.lookup id = some t) (hdone : t.result.isSome = true)
    (hns : id ∉ revDepsOf s id) :
    (∃ v0, t.result = some v0) ∧
    (setTaskResult s id v).1 = .ok () ∧
    (setTaskResult s id v).2.tasks.lookup id = some { t with result := some v } ∧
    (∀ k t2, k ∈ revDepsOf s id → k ≠ id → s.tasks.lookup k = some t2 →
      (setTaskResult s id v).2.tasks.lookup k = some (substTask id v t2) ∧
      ((∀ m ∈ t2.dependencies, m ∈ insertSet id s.completedTasks) →
        k ∈ (setTaskResult s id v).2.readyTasks)) := by
  obtain ⟨c1, -, c3, -, c5⟩ := setTaskResult_char s id v t hlk
  refine ⟨Option.isSome_iff_exists.mp hdone, c1, ?_, ?_⟩
  · rw [c3, if_neg hns, if_pos rfl]
  · intro k t2 hk hkd hlk2
    exact c5 k hk hkd t2 hlk2

/-- C9 witness: after submitting `2+2*2` and recording 4 for the
multiplication task, recording 5 for the same task succeeds, overwrites
the 4, and re-runs substitution and ready-insertion for the addition
task. -/
theorem C9_witness :
    (∃ v0, (⟨1, 0, Arg.tok "2", Arg.tok "2", "*", 1, some 4, "pending", []⟩ :
      Task).result = some v0) ∧
    (setTaskResult (runOps (newService ⟨1, 1, 1, 1⟩)
        [Op.submit "2+2*2", Op.record 1 4]) 1 5).1 = .ok () ∧
    (setTaskResult (runOps (newService ⟨1, 1, 1, 1⟩)
        [Op.submit "2+2*2", Op.record 1 4]) 1 5).2.tasks.lookup 1 =
      some { (⟨1, 0, Arg.tok "2", Arg.tok "2", "*", 1, some 4, "pending", []⟩ :
        Task) with result := some 5 } ∧
    (∀ k t2, k ∈ revDepsOf (runOps (newService ⟨1, 1, 1, 1⟩)
          [Op.submit "2+2*2", Op.record 1 4]) 1 → k ≠ 1 →
      (runOps (newService ⟨1, 1, 1, 1⟩)
          [Op.submit "2+2*2", Op.record 1 4]).tasks.lookup k = some t2 →
      (setTaskResult (runOps (newService ⟨1, 1, 1, 1⟩)
          [Op.submit "2+2*2", Op.record 1 4]) 1 5).2.tasks.lookup k =
        some (substTask 1 5 t2) ∧
      ((∀ m ∈ t2.dependencies, m ∈ insertSet 1 (runOps (newService ⟨1, 1, 1, 1⟩)
          [Op.submit "2+2*2", Op.record 1 4]).completedTasks) →
        k ∈ (setTaskResult (runOps (newService ⟨1, 1, 1, 1⟩)
            [Op.submit "2+2*2", Op.record 1 4]) 1 5).2.readyTasks)) :=
  C9_second_record_overwrites (runOps (newService ⟨1, 1, 1, 1⟩)
      [Op.submit "2+2*2", Op.record 1 4]) 1 5
    ⟨1, 0, Arg.tok "2", Arg.tok "2", "*", 1, some 4, "pending", []⟩
    (by decide) (by decide) (by decide)

/-- C10: in every reachable state, every member of the ready set is a task
both of whose operand slots hold strings that parse as numeric values — in
particular neither slot is a task-id reference — and hence the same holds
for every task returned by a pull. -/
theorem C10_ready_operands_numeric {s : Service} (h : Reachable s) :
    (∀ a ∈ s.readyTasks, ∃ t, s.tasks.lookup a = some t ∧
      numericArg t.arg1 = true ∧ numericArg t.arg2 = true ∧
      (∀ n, t.arg1 ≠ Arg.tid n) ∧ (∀ n, t.arg2 ≠ Arg.tid n)) ∧
    (∀ c t, (getTask s c).1 = some t →
      numericArg t.arg1 = true ∧ numericArg t.arg2 = true ∧
      (∀ n, t.arg1 ≠ Arg.tid n) ∧ (∀ n, t.arg2 ≠ Arg.tid n)) := by
  have hwf := wf_reachable h
  have hready : ∀ a ∈ s.readyTasks, ∃ t, s.tasks.lookup a = some t ∧
      numericArg t.arg1 = true ∧ numericArg t.arg2 = true ∧
      (∀ n, t.arg1 ≠ Arg.tid n) ∧ (∀ n, t.arg2 ≠ Arg.tid n) := by
    intro a ha
    obtain ⟨t, hlk, hn1, hn2, -⟩ := hwf.readyInv a ha
    refine ⟨t, hlk, hn1, hn2, ?_, ?_⟩
    · intro n hcon
      rw [hcon] at hn1
      cases hn1
    · intro n hcon
      rw [hcon] at hn2
      cases hn2
  refine ⟨hready, ?_⟩
  intro c t ht
  rcases getTask_cases s c with ⟨h1, -⟩ | ⟨t0, hc, hlk, h1, -⟩
  · rw [h1] at ht
    cases ht
  · rw [h1] at ht
    cases ht
    obtain ⟨t1, hlk1, hn1, hn2, hf1, hf2⟩ := hready c hc
    rw [hlk] at hlk1
    cases hlk1
    exact ⟨hn1, hn2, hf1, hf2⟩

/-- C10 witness: the ready multiplication task of `2+2*2` has numeric
operand strings and no task-id operand. -/
theorem C10_witness :
    ∃ t, (stepOp (newService ⟨1, 1, 1, 1⟩) (Op.submit "2+2*2")).tasks.lookup 1 =
        some t ∧
      numericArg t.arg1 = true ∧ numericArg t.arg2 = true ∧
      (∀ n, t.arg1 ≠ Arg.tid n) ∧ (∀ n, t.arg2 ≠ Arg.tid n) :=
  (C10_ready_operands_numeric
    (Reachable.step (newService ⟨1, 1, 1, 1⟩) (Op.submit "2+2*2")
      (Reachable.init ⟨1, 1, 1, 1⟩))).1 1 (by decide)

end Megacalc
